import Mathlib

/-! # The `mem` heap allocator: a shallow embedding

The repository's `HeapAllocator` (src/lib/mem/heapAllocator.h, heapAllocator.cpp) is a
dlmalloc-style allocator working on raw memory obtained from `mmap`.  The embedding
below follows the C++ source function by function.

Conventions of the embedding
* The target is the 64-bit platform the repository's tests were written for
  (`sizeof(size_t) = sizeof(void*) = 8`, page size 4096 in `GetStats`).
* `size_t` values and pointers are natural numbers below `2 ^ 64`; every arithmetic
  operation of the source wraps modulo `2 ^ 64` (`wadd`, `wsub`, `wmul`).
* Memory is a total map from byte addresses to bytes; words are 8 bytes, little endian.
  `nullptr` is the address `0`.
* `assert` is compiled out (`NDEBUG`): the source returns `nullptr` after
  `assert(false && "Out of memory")`, which only a release build can reach.
* Loops of the source that walk linked structures in memory take a `fuel` argument and
  return `none` when it is exhausted.
* `mmap` is modelled by a bump pointer: it returns `mmapNext`, zero fills the mapping
  and advances `mmapNext` by the mapping length plus `mmapGap`.  `munmap` leaves the
  memory map unchanged.
-/

namespace mem

/-! ## Machine words -/

/-- Number of values of a `size_t`. -/
def W : Nat := 2 ^ 64

/-- Addition of `size_t` values. -/
def wadd (a b : Nat) : Nat := (a + b) % W

/-- Subtraction of `size_t` values (wraps below zero). -/
def wsub (a b : Nat) : Nat := (a % W + W - b % W) % W

/-- Multiplication of `size_t` values. -/
def wmul (a b : Nat) : Nat := (a * b) % W

/-- Bitwise complement of a 64-bit word. -/
def wnot (a : Nat) : Nat := W - 1 - a % W

/-- Left shift of a 64-bit word. -/
def wshl (a k : Nat) : Nat := (a <<< k) % W

/-! ## Byte memory -/

/-- Byte memory: a total map from addresses to bytes. -/
abbrev Memory := Nat → Nat

/-- Stores the 8-byte little endian word `v` at address `a`. -/
def store (m : Memory) (a v : Nat) : Memory :=
  fun x => if wsub x a < 8 then (v / 256 ^ (wsub x a)) % 256 else m x

/-- Loads the 8-byte little endian word at address `a`. -/
def load (m : Memory) (a : Nat) : Nat :=
  m (wadd a 0) % 256 + 256 * (m (wadd a 1) % 256 + 256 * (m (wadd a 2) % 256 +
  256 * (m (wadd a 3) % 256 + 256 * (m (wadd a 4) % 256 + 256 * (m (wadd a 5) % 256 +
  256 * (m (wadd a 6) % 256 + 256 * (m (wadd a 7) % 256)))))))

/-- Stores one byte, as a caller writing `((char*)p)[i] = v` does. -/
def storeByte (m : Memory) (a v : Nat) : Memory :=
  fun x => if x = a % W then v % 256 else m x

/-- Zero fills `len` bytes from `a` (a fresh anonymous mapping). -/
def zeroFill (m : Memory) (a len : Nat) : Memory :=
  fun x => if a ≤ x ∧ x < a + len then 0 else m x

/-! ## util/bit.h -/

namespace util

/-- `util::setBit(x, idx)`: `x | (1 << idx)`. -/
def setBit (x idx : Nat) : Nat := x ||| wshl 1 idx

/-- `util::resetBit(x, idx)`: `x & ~(1 << idx)`. -/
def resetBit (x idx : Nat) : Nat := x &&& wnot (wshl 1 idx)

/-- `util::checkBit(x, idx)`: `x & (1 << idx)` converted to `bool`. -/
def checkBit (x idx : Nat) : Bool := (x &&& wshl 1 idx) != 0

/-- `util::msb(x)`: the top bit of a 64-bit word. -/
def msb (x : Nat) : Nat := (x &&& wshl 1 63) >>> 63

/-- Number of trailing zero bits of a non-zero word, by bit-by-bit search. -/
def countTrailingZeroes : Nat → Nat → Nat
  | 0, _ => 0
  | fuel + 1, x => if x % 2 = 1 then 0 else 1 + countTrailingZeroes fuel (x / 2)

/-- `util::findFirstSet(x)`, the libc `ffsl`: one plus the index of the least
significant set bit, `0` when no bit is set. -/
def findFirstSet (x : Nat) : Nat :=
  if x % W = 0 then 0 else countTrailingZeroes 64 (x % W) + 1

/-- Number of bits needed to write `x`, by bit-by-bit search. -/
def bitLength : Nat → Nat → Nat
  | 0, _ => 0
  | fuel + 1, x => if x = 0 then 0 else 1 + bitLength fuel (x / 2)

/-- `util::findLastSet(x)`, the libc `flsl`: one plus the index of the most
significant set bit, `0` when no bit is set. -/
def findLastSet (x : Nat) : Nat := bitLength 64 (x % W)

end util

/-- `mem::align(n, alignment)` of mem/util.h, on `size_t`. -/
def align (n alignment : Nat) : Nat :=
  wsub (wsub (wadd n alignment) 1) (wsub n 1 % alignment)

/-! ## Constants of heapAllocator.h -/

def sizeofSegment : Nat := 32
def sizeofBlockFooter : Nat := 8
def sizeofBlockHeader : Nat := 24
def sizeofPointer : Nat := 8

def BlockAllocatedBitMask : Nat := wshl 1 (64 - 1)
def BlockFencePostBitMask : Nat := wshl 1 (64 - 2)
def BlockExternalBitMask : Nat := wshl 1 (64 - 3)
def BlockFlagsBitMask : Nat :=
  BlockAllocatedBitMask ||| BlockFencePostBitMask ||| BlockExternalBitMask
def BlockSizeBitMask : Nat := wnot BlockFlagsBitMask

def SegmentExternalBitMask : Nat := wshl 1 (64 - 1)
def SegmentFlagsBitMask : Nat := SegmentExternalBitMask
def SegmentOffsetBitMask : Nat := wnot SegmentFlagsBitMask

def MinAllocationSize : Nat := 2 * sizeofPointer
def MaxAllocationSize : Nat := wnot BlockFlagsBitMask
def LargeAllocBoundary : Nat := 32 * 1024 * 1024
def MaxSmallBinSize : Nat := 255
def MaxTreeBinSize : Nat := 16 * 1024 - 1
def NumSmallBins : Nat := 32
def NumTreeBins : Nat := 32
def NumBins : Nat := NumSmallBins + NumTreeBins
def BlockHeaderSize : Nat := sizeofBlockHeader - 2 * sizeofPointer
def BlockOverheadSize : Nat := BlockHeaderSize + sizeofBlockFooter

/-- Byte offsets of the fields of `BlockHeader` / `BlockTreeHeader`. -/
def offNext : Nat := 8
def offPrev : Nat := 16
def offParent : Nat := 24
/-- Offset of `child[i]` in a `BlockTreeHeader`. -/
def offChild (i : Nat) : Nat := 32 + 8 * i

/-- Byte offsets of the fields of `Segment`. -/
def segOffSize : Nat := 0
def segOffFlags : Nat := 8
def segOffNext : Nat := 16
def segOffPrev : Nat := 24

/-- The allocator object together with the memory and the operating system state
it works on. -/
structure HeapAllocator where
  /-- The process memory. -/
  mem : Memory
  /-- The array `_bins[NumBins]`. -/
  bins : Nat → Nat
  reserve : Nat
  binMap : Nat
  headSegment : Nat
  newSegmentSize : Nat
  alignment : Nat
  doSystemAllocation : Bool
  doBlockMerging : Bool
  doSegmentMerging : Bool
  /-- Result of `getpagesize()`. -/
  pageSize : Nat
  /-- Address the next `mmap` call returns. -/
  mmapNext : Nat
  /-- Distance left between two consecutive mappings. -/
  mmapGap : Nat

/-- Record of `HeapAllocator::Block`. -/
structure Block where
  addr : Nat
  data : Nat
  segment : Nat
  size : Nat
  bin : Nat
  isAllocated : Bool
  deriving DecidableEq, Repr

/-- Record of `HeapAllocator::Stats`. -/
structure Stats where
  allocatedBytes : Nat
  freeBytes : Nat
  overheadBytes : Nat
  allocatedBlocks : Nat
  freeBlocks : Nat
  numRegularSegments : Nat
  numExternalSegments : Nat
  deriving DecidableEq, Repr

namespace HeapAllocator

/-- Reads the word at `p + off`. -/
def rd (s : HeapAllocator) (p off : Nat) : Nat := load s.mem (wadd p off)

/-- Writes the word at `p + off`. -/
def wr (s : HeapAllocator) (p off v : Nat) : HeapAllocator :=
  { s with mem := store s.mem (wadd p off) v }

/-- Writes `_bins[i] = v`. -/
def setBin (s : HeapAllocator) (i v : Nat) : HeapAllocator :=
  { s with bins := fun j => if j = i then v else s.bins j }

def isSmallAlloc (numBytes : Nat) : Bool := numBytes ≤ MaxSmallBinSize
def isLargeAlloc (numBytes : Nat) : Bool := numBytes > LargeAllocBoundary

def getBlockData (block : Nat) : Nat := wadd block BlockHeaderSize

def getBlockSize (s : HeapAllocator) (block : Nat) : Nat :=
  s.rd block 0 &&& BlockSizeBitMask

def getBlockFooter (s : HeapAllocator) (block : Nat) : Nat :=
  wadd (wadd block BlockHeaderSize) (s.getBlockSize block)

def getDataHeader (data : Nat) : Nat := wsub data BlockHeaderSize

/-- `_getBlockSize(BlockFooter*)`. -/
def getFooterSize (s : HeapAllocator) (footer : Nat) : Nat :=
  s.rd footer 0 &&& BlockSizeBitMask

def setBlockSize (s : HeapAllocator) (block size : Nat) : HeapAllocator :=
  s.wr block 0 ((s.rd block 0 &&& BlockFlagsBitMask) ||| size)

def isBlockAllocated (s : HeapAllocator) (block : Nat) : Bool :=
  (s.rd block 0 &&& BlockAllocatedBitMask) == BlockAllocatedBitMask

def setBlockAllocated (s : HeapAllocator) (block : Nat) (isAllocated : Bool) : HeapAllocator :=
  s.wr block 0 ((s.rd block 0 &&& wnot BlockAllocatedBitMask) |||
    wmul BlockAllocatedBitMask (if isAllocated then 1 else 0))

def isBlockFencePost (s : HeapAllocator) (block : Nat) : Bool :=
  (s.rd block 0 &&& BlockFencePostBitMask) == BlockFencePostBitMask

def setBlockFencePost (s : HeapAllocator) (block : Nat) (isFencePost : Bool) : HeapAllocator :=
  s.wr block 0 ((s.rd block 0 &&& wnot BlockFencePostBitMask) |||
    wmul BlockFencePostBitMask (if isFencePost then 1 else 0))

def isBlockExternal (s : HeapAllocator) (block : Nat) : Bool :=
  (s.rd block 0 &&& BlockExternalBitMask) == BlockExternalBitMask

def setBlockExternal (s : HeapAllocator) (block : Nat) (isExternal : Bool) : HeapAllocator :=
  s.wr block 0 ((s.rd block 0 &&& wnot BlockExternalBitMask) |||
    wmul BlockExternalBitMask (if isExternal then 1 else 0))

def setBlockState (s : HeapAllocator) (block size : Nat) (isAllocated : Bool) : HeapAllocator :=
  (s.setBlockSize block size).setBlockAllocated block isAllocated

def reconcileFooter (s : HeapAllocator) (block : Nat) : HeapAllocator :=
  s.wr (s.getBlockFooter block) 0 (s.getBlockSize block)

def getSegmentOffset (s : HeapAllocator) (segment : Nat) : Nat :=
  s.rd segment segOffFlags &&& SegmentOffsetBitMask

def getFirstSegmentBlock (s : HeapAllocator) (segment : Nat) : Nat :=
  wadd (wadd (wadd segment sizeofSegment) (s.getSegmentOffset segment)) sizeofBlockFooter

def isSegmentExternal (s : HeapAllocator) (segment : Nat) : Bool :=
  (s.rd segment segOffFlags &&& SegmentExternalBitMask) == SegmentExternalBitMask

def setSegmentExternal (s : HeapAllocator) (segment : Nat) (isExternal : Bool) : HeapAllocator :=
  s.wr segment segOffFlags ((s.rd segment segOffFlags &&& wnot SegmentExternalBitMask) |||
    wmul SegmentExternalBitMask (if isExternal then 1 else 0))

def setSegmentOffset (s : HeapAllocator) (segment offset : Nat) : HeapAllocator :=
  let s := s.wr segment segOffFlags ((s.rd segment segOffFlags &&& SegmentFlagsBitMask) ||| offset)
  s.wr (wadd (wadd segment sizeofSegment) offset) 0 offset

def getTreeBinShift (binIndex : Nat) : Nat :=
  wsub (wsub 64 9) (wsub binIndex NumSmallBins >>> 1)

/-! ## Block and segment navigation -/

def getNextBlock (s : HeapAllocator) (block : Nat) : Nat :=
  let nextBlock := wadd (wadd block (s.getBlockSize block)) BlockOverheadSize
  if s.isBlockFencePost nextBlock then 0 else nextBlock

def getPrevBlock (s : HeapAllocator) (block : Nat) : Nat :=
  if s.isBlockFencePost block then 0
  else
    let prevFooter := wsub block sizeofBlockFooter
    wsub (wsub prevFooter (s.getFooterSize prevFooter)) BlockHeaderSize

def isInSegment (s : HeapAllocator) (block segment : Nat) : Bool :=
  decide (block ≥ wadd segment sizeofSegment) &&
  decide (block < wadd (wadd segment sizeofSegment) (s.rd segment segOffSize))

def areSegmentsAdjacent (s : HeapAllocator) (prev next : Nat) : Bool :=
  let adj := wadd (wadd prev (s.rd prev segOffSize)) sizeofSegment
  decide (adj = next) && !s.isSegmentExternal prev && !s.isSegmentExternal next

def getSegmentOverhead (s : HeapAllocator) (segment : Nat) : Nat :=
  wadd (wadd sizeofSegment (s.getSegmentOffset segment)) sizeofBlockFooter

def checkBlock (s : HeapAllocator) (block : Nat) : Bool :=
  if s.getBlockSize block ≠ s.getFooterSize (s.getBlockFooter block) then false else true

/-- The loop of `_getSegment`: walks back to the first block of the segment. -/
def getSegmentLoop (s : HeapAllocator) : Nat → Nat → Option Nat
  | 0, _ => none
  | fuel + 1, block =>
    if block = 0 then some block
    else if s.getPrevBlock block ≠ 0 then getSegmentLoop s fuel (s.getPrevBlock block)
    else some block

def getSegment (fuel : Nat) (s : HeapAllocator) (block : Nat) : Option Nat :=
  (getSegmentLoop s fuel block).bind fun block =>
    let alignFooter := wsub block sizeofBlockFooter
    let offset := s.rd alignFooter 0
    some (wsub (wsub (wsub block sizeofBlockFooter) offset) sizeofSegment)

/-- The loop of `_blockBelongsToAllocator` over the segment list. -/
def blockBelongsLoop (s : HeapAllocator) (blockSegment : Nat) : Nat → Nat → Option Bool
  | 0, _ => none
  | fuel + 1, segment =>
    if segment = 0 then some false
    else if segment = blockSegment then some true
    else blockBelongsLoop s blockSegment fuel (s.rd segment segOffNext)

def blockBelongsToAllocator (fuel : Nat) (s : HeapAllocator) (block : Nat) : Option Bool :=
  (getSegment fuel s block).bind fun blockSegment =>
    blockBelongsLoop s blockSegment fuel s.headSegment

/-! ## Bin index -/

def getBinIndex (numBytes : Nat) : Nat :=
  if isSmallAlloc numBytes then numBytes / 8
  else if numBytes < MaxTreeBinSize then
    let lsb := util.findLastSet numBytes
    let bin := wadd (wadd lsb 23) (wsub lsb 9)
    if util.checkBit numBytes (wsub lsb 2) then wadd bin 1 else bin
  else wsub NumBins 1

/-! ## Blocks: initialisation, splitting, merging -/

def initBlock (s : HeapAllocator) (block numBytes : Nat) (isExternal : Bool) : HeapAllocator :=
  let s := s.setBlockSize block numBytes
  let s := s.setBlockAllocated block false
  let s := s.setBlockExternal block isExternal
  let s := s.reconcileFooter block
  let s := s.wr block offNext 0
  s.wr block offPrev 0

/-- `_splitBlock`: the block split off (or `block` itself when no split is made) and
the new state.  `x % _alignment` with `_alignment = 0` is undefined in the source; here
it is `x`. -/
def splitBlock (s : HeapAllocator) (block numBytes : Nat) : Nat × HeapAllocator :=
  let remainder := wsub (wsub (s.getBlockSize block) numBytes) BlockOverheadSize
  let totalSplitSize := wadd remainder BlockOverheadSize
  let alignmentCorrection := wadd (wadd block totalSplitSize) BlockHeaderSize % s.alignment
  let remainder := wsub remainder alignmentCorrection
  let totalSplitSize := wsub totalSplitSize alignmentCorrection
  let numBytes := wadd numBytes alignmentCorrection
  if remainder < MinAllocationSize + BlockOverheadSize then (block, s)
  else
    let s := s.setBlockSize block remainder
    let s := s.reconcileFooter block
    let split := wadd block totalSplitSize
    let s := s.initBlock split numBytes (s.isBlockExternal block)
    let s := s.setBlockFencePost split false
    (split, s)

/-- `_mergeBlocks`, the array `blocks[0 .. numBlocks)` given as a list. -/
def mergeBlocks (s : HeapAllocator) (blocks : List Nat) : Nat × HeapAllocator :=
  let totalSize :=
    blocks.foldl (fun acc b => wadd acc (wadd (s.getBlockSize b) BlockOverheadSize)) 0
  let merged := blocks.headD 0
  let s := s.setBlockSize merged (wsub totalSize BlockOverheadSize)
  (merged, s.reconcileFooter merged)

/-! ## Small bins and the reserve -/

def linkSmallBlock (s : HeapAllocator) (block binIndex : Nat) : HeapAllocator :=
  let head := s.bins binIndex
  let s :=
    if head = 0 then
      let s := s.wr block offNext block
      s.wr block offPrev block
    else
      let s := s.wr block offPrev (s.rd head offPrev)
      let s := s.wr block offNext head
      let s := s.wr (s.rd head offPrev) offNext block
      s.wr head offPrev block
  let s := s.setBin binIndex block
  { s with binMap := util.setBit s.binMap binIndex }

def unlinkSmallBinBlock (s : HeapAllocator) (block binIndex : Nat) : HeapAllocator :=
  let s := s.wr (s.rd block offPrev) offNext (s.rd block offNext)
  let s := s.wr (s.rd block offNext) offPrev (s.rd block offPrev)
  let s :=
    if block = s.bins binIndex then
      if s.rd block offNext = block then
        let s := s.setBin binIndex 0
        { s with binMap := util.resetBit s.binMap binIndex }
      else s.setBin binIndex (s.rd block offNext)
    else s
  let s := s.wr block offNext 0
  s.wr block offPrev 0

def unlinkReserveBlock (s : HeapAllocator) : Nat × HeapAllocator :=
  let block := s.reserve
  let s := { s with reserve := 0 }
  let s := s.wr block offNext 0
  (block, s.wr block offPrev 0)

/-! ## Tree bins -/

/-- The `FOREVER` loop of `_linkTreeBlock`. -/
def linkTreeBlockLoop (s : HeapAllocator) (treeBlock blockSize : Nat) :
    Nat → Nat → Nat → Option HeapAllocator
  | 0, _, _ => none
  | fuel + 1, iter, bits =>
    let msb := util.msb bits
    let child := s.rd iter (offChild msb)
    if child = 0 then
      let s := s.wr iter (offChild msb) treeBlock
      let s := s.wr treeBlock offParent iter
      let s := s.wr treeBlock (offChild 0) 0
      let s := s.wr treeBlock (offChild 1) 0
      let s := s.wr treeBlock offPrev treeBlock
      some (s.wr treeBlock offNext treeBlock)
    else if s.getBlockSize child = blockSize then
      let s := s.wr treeBlock offNext (s.rd child offNext)
      let s := s.wr treeBlock offPrev child
      let s := s.wr (s.rd child offNext) offPrev treeBlock
      let s := s.wr child offNext treeBlock
      some (if s.rd child offPrev = child then s.wr child offPrev treeBlock else s)
    else linkTreeBlockLoop s treeBlock blockSize fuel child (wshl bits 1)

def linkTreeBlock (fuel : Nat) (s : HeapAllocator) (block binIndex : Nat) :
    Option HeapAllocator :=
  let treeBlock := block
  let blockSize := s.getBlockSize block
  let root := s.bins binIndex
  if root = 0 then
    let s := s.wr treeBlock offParent 0
    let s := s.wr treeBlock (offChild 0) 0
    let s := s.wr treeBlock (offChild 1) 0
    let s := s.wr treeBlock offNext treeBlock
    let s := s.wr treeBlock offPrev treeBlock
    let s := s.setBin binIndex block
    some { s with binMap := util.setBit s.binMap binIndex }
  else
    let shift := getTreeBinShift binIndex
    let bits := wshl (s.getBlockSize block) shift
    linkTreeBlockLoop s treeBlock blockSize fuel root bits

def getSmallestTreeBlock (s : HeapAllocator) : Nat → Nat → Option Nat
  | 0, _ => none
  | fuel + 1, iter =>
    if s.rd iter (offChild 0) ≠ 0 ∨ s.rd iter (offChild 1) ≠ 0 then
      if s.rd iter (offChild 0) ≠ 0 then getSmallestTreeBlock s fuel (s.rd iter (offChild 0))
      else getSmallestTreeBlock s fuel (s.rd iter (offChild 1))
    else some iter

/-- The code of `_findTreeBlock` after its `while (1)` loop. -/
def findTreeBlockFinish (fuel : Nat) (s : HeapAllocator) (numBytes iter error bestFitBlock : Nat) :
    Option Nat :=
  if iter ≠ 0 then
    (getSmallestTreeBlock s fuel iter).bind fun candidate =>
      if candidate ≠ 0 then
        let candErr := wsub (s.getBlockSize candidate) numBytes
        if candErr < error then some candidate else some bestFitBlock
      else some bestFitBlock
  else some bestFitBlock

/-- The `while (1)` loop of `_findTreeBlock`, followed by the rest of the function. -/
def findTreeBlockLoop (fuel0 : Nat) (s : HeapAllocator) (numBytes : Nat) :
    Nat → Nat → Nat → Nat → Nat → Nat → Option Nat
  | 0, _, _, _, _, _ => none
  | fuel + 1, iter, rest, bits, error, bestFitBlock =>
    let e := wsub (s.getBlockSize iter) numBytes
    let better := decide (s.getBlockSize iter ≥ numBytes) && decide (e < error)
    let error := if better then e else error
    let bestFitBlock := if better then iter else bestFitBlock
    if better && error == 0 then some bestFitBlock
    else
      let rightChild := s.rd iter (offChild 0)
      let iter := s.rd iter (offChild (util.msb bits))
      let rest := if rightChild ≠ 0 ∧ rightChild ≠ iter then rightChild else rest
      if iter = 0 then findTreeBlockFinish fuel0 s numBytes rest error bestFitBlock
      else findTreeBlockLoop fuel0 s numBytes fuel iter rest (wshl bits 1) error bestFitBlock

def findTreeBlock (fuel : Nat) (s : HeapAllocator) (binIndex numBytes : Nat) : Option Nat :=
  let treeRoot := s.bins binIndex
  let shift := getTreeBinShift binIndex
  let bits := wshl (s.getBlockSize treeRoot) shift
  findTreeBlockLoop fuel s numBytes fuel treeRoot 0 bits (W - 1) 0

def replaceTreeBlock (s : HeapAllocator) (block repl binIndex : Nat) : HeapAllocator :=
  let s :=
    if s.rd block offParent ≠ 0 then
      if s.rd (s.rd block offParent) (offChild 0) = block then
        s.wr (s.rd block offParent) (offChild 0) repl
      else if s.rd (s.rd block offParent) (offChild 1) = block then
        s.wr (s.rd block offParent) (offChild 1) repl
      else s
    else s
  let s := s.wr repl offParent (s.rd block offParent)
  let s := s.wr repl (offChild 0) (s.rd block (offChild 0))
  let s := s.wr repl (offChild 1) (s.rd block (offChild 1))
  let s :=
    if s.rd repl (offChild 0) ≠ 0 then s.wr (s.rd repl (offChild 0)) offParent repl else s
  let s :=
    if s.rd repl (offChild 1) ≠ 0 then s.wr (s.rd repl (offChild 1)) offParent repl else s
  if block = s.bins binIndex then
    let s := s.setBin binIndex repl
    s.wr repl offParent 0
  else s

def unlinkTreeLeafBlock (s : HeapAllocator) (leaf : Nat) : HeapAllocator :=
  if s.rd (s.rd leaf offParent) (offChild 0) = leaf then
    s.wr (s.rd leaf offParent) (offChild 0) 0
  else s.wr (s.rd leaf offParent) (offChild 1) 0

/-- The three cases of `_unlinkTreeBlock`, before the links of `block` are cleared. -/
def unlinkTreeBlockCases (fuel : Nat) (s : HeapAllocator) (block binIndex : Nat) :
    Option HeapAllocator :=
  if s.rd block offNext ≠ block then
    let s :=
      if s.rd block offParent ≠ 0 ∨ block = s.bins binIndex then
        s.replaceTreeBlock block (s.rd block offNext) binIndex
      else s
    let s := s.wr (s.rd block offPrev) offNext (s.rd block offNext)
    some (s.wr (s.rd block offNext) offPrev (s.rd block offPrev))
  else if s.rd block (offChild 0) = 0 ∧ s.rd block (offChild 1) = 0 then
    if block = s.bins binIndex then
      let s := { s with binMap := util.resetBit s.binMap binIndex }
      some (s.setBin binIndex 0)
    else some (s.unlinkTreeLeafBlock block)
  else
    (getSmallestTreeBlock s fuel block).bind fun repl =>
      let s := s.unlinkTreeLeafBlock repl
      some (s.replaceTreeBlock block repl binIndex)

def unlinkTreeBlock (fuel : Nat) (s : HeapAllocator) (block binIndex : Nat) :
    Option HeapAllocator :=
  (unlinkTreeBlockCases fuel s block binIndex).bind fun s =>
    let s := s.wr block offPrev 0
    let s := s.wr block offNext 0
    some (s.wr block offParent 0)

/-! ## Linking and unlinking free blocks -/

def unlinkBlock (fuel : Nat) (s : HeapAllocator) (block : Nat) : Option HeapAllocator :=
  let blockSize := s.getBlockSize block
  if block = s.reserve then some s.unlinkReserveBlock.2
  else if isSmallAlloc blockSize then
    some (s.unlinkSmallBinBlock block (getBinIndex blockSize))
  else unlinkTreeBlock fuel s block (getBinIndex blockSize)

def coalesceAdjacentBlocks (fuel : Nat) (s : HeapAllocator) (block : Nat) :
    Option (Nat × HeapAllocator) :=
  let prevBlock := s.getPrevBlock block
  let mergePrev :=
    decide (prevBlock ≠ 0) && !s.isBlockAllocated prevBlock &&
      decide (s.getBlockSize prevBlock ≠ 0)
  (if mergePrev then unlinkBlock fuel s prevBlock else some s).bind fun s =>
    let blocksToMerge := if mergePrev then [prevBlock, block] else [block]
    let nextBlock := s.getNextBlock block
    let mergeNext :=
      decide (nextBlock ≠ 0) && !s.isBlockAllocated nextBlock &&
        decide (s.getBlockSize block ≠ 0)
    (if mergeNext then unlinkBlock fuel s nextBlock else some s).bind fun s =>
      let blocksToMerge := if mergeNext then blocksToMerge ++ [nextBlock] else blocksToMerge
      if blocksToMerge.length > 1 then some (s.mergeBlocks blocksToMerge)
      else some (block, s)

def linkBlockToBins (fuel : Nat) (s : HeapAllocator) (block : Nat) : Option HeapAllocator :=
  let blockSize := s.getBlockSize block
  let binIndex := getBinIndex blockSize
  if isSmallAlloc blockSize then some (s.linkSmallBlock block binIndex)
  else linkTreeBlock fuel s block binIndex

/-- The second half of `_linkBlock`: the block, after the attempt to coalesce it, is
made the reserve or put into a bin. -/
def linkBlockPlace (fuel : Nat) (isSmall : Bool) (s : HeapAllocator) (block blockSize : Nat) :
    Option (Nat × HeapAllocator) :=
  if s.reserve = 0 ∧ isSmall = false then some (block, { s with reserve := block })
  else if s.reserve ≠ 0 ∧ blockSize > s.getBlockSize s.reserve then
    let oldReserve := s.unlinkReserveBlock.1
    let s := s.unlinkReserveBlock.2
    (linkBlockToBins fuel s oldReserve).bind fun s => some (block, { s with reserve := block })
  else (linkBlockToBins fuel s block).bind fun s => some (block, s)

def linkBlock (fuel : Nat) (s : HeapAllocator) (block : Nat) : Option (Nat × HeapAllocator) :=
  let blockSize := s.getBlockSize block
  let isSmall := isSmallAlloc blockSize
  if s.doBlockMerging && !isSmall then
    (coalesceAdjacentBlocks fuel s block).bind fun r =>
      linkBlockPlace fuel isSmall r.2 r.1 (r.2.getBlockSize r.1)
  else linkBlockPlace fuel isSmall s block blockSize

def splitReserveBlock (fuel : Nat) (s : HeapAllocator) (numBytes : Nat) :
    Option (Nat × HeapAllocator) :=
  let r := s.splitBlock s.reserve numBytes
  let block := r.1
  let s := r.2
  if block = s.reserve then some s.unlinkReserveBlock
  else if isSmallAlloc (s.getBlockSize s.reserve) then
    let oldReserve := s.reserve
    let s := s.unlinkReserveBlock.2
    (linkBlockToBins fuel s oldReserve).bind fun s => some (block, s)
  else some (block, s)

/-! ## Segments -/

/-- The `while (segIter)` loop of `_linkSegment`: the final `segIter` and `doMerge`. -/
def linkSegmentFind (s : HeapAllocator) (segment : Nat) (isExternal : Bool) :
    Nat → Nat → Option (Nat × Bool)
  | 0, _ => none
  | fuel + 1, segIter =>
    if segIter = 0 then some (segIter, false)
    else if s.doSegmentMerging && !isExternal && s.areSegmentsAdjacent segIter segment then
      some (segIter, true)
    else if s.rd segIter segOffNext = 0 then some (segIter, false)
    else linkSegmentFind s segment isExternal fuel (s.rd segIter segOffNext)

/-- The `doMerge` branch of `_linkSegment`: the block, its size and the state. -/
def linkSegmentMerge (s : HeapAllocator) (segment segIter : Nat) : Nat × Nat × HeapAllocator :=
  let numBytes := wadd (s.rd segment segOffSize) sizeofSegment
  let s := s.wr segIter segOffSize (wadd (s.rd segIter segOffSize) numBytes)
  let block := s.getPrevBlock segment
  let blockSize :=
    wadd (wadd (wsub numBytes BlockOverheadSize) BlockOverheadSize) (s.getBlockSize block)
  (block, blockSize, s.setBlockFencePost block false)

/-- The other branch of `_linkSegment`: the segment is appended to the list. -/
def linkSegmentAppend (s : HeapAllocator) (segment segIter : Nat) : Nat × Nat × HeapAllocator :=
  let block := s.getFirstSegmentBlock segment
  let offset := getBlockData block % s.alignment
  let s := s.setSegmentOffset segment offset
  let block := s.getFirstSegmentBlock segment
  let blockSize :=
    wsub (wsub (wsub (s.rd segment segOffSize) BlockOverheadSize) offset) sizeofBlockFooter
  let s := s.setBlockFencePost block true
  let s :=
    if segIter = 0 then
      let s := { s with headSegment := segment }
      s.wr segment segOffNext 0
    else
      let s := s.wr segIter segOffNext segment
      let s := s.wr segment segOffPrev segIter
      s.wr segment segOffNext 0
  (block, blockSize, s)

def linkSegment (fuel : Nat) (s : HeapAllocator) (segment : Nat) :
    Option (Nat × HeapAllocator) :=
  let isExternal := s.isSegmentExternal segment
  (linkSegmentFind s segment isExternal fuel s.headSegment).bind fun found =>
    let segIter := found.1
    let doMerge := found.2
    let r := if doMerge then s.linkSegmentMerge segment segIter
             else s.linkSegmentAppend segment segIter
    let block := r.1
    let s := r.2.2.initBlock block r.2.1 isExternal
    let split := s.splitBlock block MinAllocationSize
    let rightFence := split.1
    let s := split.2.setBlockAllocated rightFence false
    let s := s.setBlockFencePost rightFence true
    some (block, s)

def allocNewSegment (fuel : Nat) (s : HeapAllocator) (numBytes : Nat) (isExternal : Bool) :
    Option (Nat × HeapAllocator) :=
  let pageSize := s.pageSize
  let numBytes := align (wadd (wadd numBytes sizeofSegment) BlockOverheadSize) pageSize
  let segment := s.mmapNext
  let s := { s with mem := zeroFill s.mem segment numBytes,
                    mmapNext := segment + numBytes + s.mmapGap }
  let s := s.wr segment segOffPrev 0
  let s := s.wr segment segOffNext 0
  let s := s.wr segment segOffSize (wsub numBytes sizeofSegment)
  let s := s.setSegmentExternal segment isExternal
  let s := s.setSegmentOffset segment 0
  linkSegment fuel s segment

/-- `_releaseExternalSegment`; the final `munmap` does not change the memory map. -/
def releaseExternalSegment (s : HeapAllocator) (segment : Nat) : HeapAllocator :=
  if segment = s.headSegment then { s with headSegment := s.rd segment segOffNext }
  else s.wr (s.rd segment segOffPrev) segOffNext (s.rd segment segOffNext)

/-! ## The allocation cascade -/

/-- The tail shared by `_allocFromSmallBin`, `_allocFromTreeBin` and `_allocFromSystem`:
the split block is marked allocated and, if a split was made (`split != block`), the
remainder `block` is linked again. -/
def linkRemainder (fuel : Nat) (s : HeapAllocator) (block split : Nat) : Option HeapAllocator :=
  let s := s.setBlockAllocated split true
  if split ≠ block then (linkBlock fuel s block).bind fun r => some r.2
  else some s

def allocFromSmallBin (fuel : Nat) (s : HeapAllocator) (numBytes : Nat) :
    Option (Nat × HeapAllocator) :=
  let binIndex := getBinIndex numBytes
  let binMap := s.binMap &&&
    (wnot (wsub (wshl 1 binIndex) 1) &&& wsub (wshl 1 NumSmallBins) 1)
  let binIndex := util.findFirstSet binMap
  if binIndex = 0 then some (0, s)
  else
    let binIndex := wsub binIndex 1
    let block := s.bins binIndex
    let s := s.unlinkSmallBinBlock block binIndex
    let blockSize := s.getBlockSize block
    if blockSize ≥ wmul 2 numBytes then
      let r := s.splitBlock block numBytes
      let split := r.1
      (linkRemainder fuel r.2 block split).bind fun s =>
        let block := split
        let s := s.setBlockAllocated block true
        some (getBlockData block, s)
    else
      let s := s.setBlockAllocated block true
      some (getBlockData block, s)

/-- The `while (!treeBlock)` loop of `_allocFromTreeBin`: the block found and its bin,
or `(0, 0)` when the bin map is exhausted.  Each round clears one of the 64 bits of
`binMap`, so 65 rounds are never exceeded. -/
def allocFromTreeBinSearch (fuel : Nat) (s : HeapAllocator) (numBytes : Nat) :
    Nat → Nat → Option (Nat × Nat)
  | 0, _ => none
  | rounds + 1, binMap =>
    if util.findFirstSet binMap = 0 then some (0, 0)
    else
      let binIndex := wsub (util.findFirstSet binMap) 1
      (findTreeBlock fuel s binIndex numBytes).bind fun treeBlock =>
        if treeBlock ≠ 0 then some (treeBlock, binIndex)
        else allocFromTreeBinSearch fuel s numBytes rounds (util.resetBit binMap binIndex)

def allocFromTreeBin (fuel : Nat) (s : HeapAllocator) (numBytes : Nat) :
    Option (Nat × HeapAllocator) :=
  let binIndex := max NumSmallBins (getBinIndex numBytes)
  let binMap := s.binMap &&& wnot (wsub (wshl 1 binIndex) 1)
  (allocFromTreeBinSearch fuel s numBytes 65 binMap).bind fun found =>
    let treeBlock := found.1
    let binIndex := found.2
    if treeBlock = 0 then some (0, s)
    else
      let block := treeBlock
      let blockSize := s.getBlockSize block
      (unlinkTreeBlock fuel s treeBlock binIndex).bind fun s =>
        if blockSize > wadd numBytes BlockOverheadSize then
          let r := s.splitBlock block numBytes
          let split := r.1
          (linkRemainder fuel r.2 block split).bind fun s => some (getBlockData split, s)
        else
          let s := s.setBlockAllocated block true
          some (getBlockData block, s)

def allocFromReserve (fuel : Nat) (s : HeapAllocator) (numBytes : Nat) :
    Option (Nat × HeapAllocator) :=
  let reserveSize := if s.reserve ≠ 0 then s.getBlockSize s.reserve else 0
  if reserveSize < wadd numBytes BlockOverheadSize then some (0, s)
  else
    (splitReserveBlock fuel s numBytes).bind fun r =>
      let split := r.1
      let s := r.2.setBlockAllocated split true
      some (getBlockData split, s)

def allocFromSystem (fuel : Nat) (s : HeapAllocator) (numBytes : Nat) :
    Option (Nat × HeapAllocator) :=
  let isExternalSegment := isLargeAlloc numBytes
  let newSegmentSize := max (wadd numBytes BlockOverheadSize) s.newSegmentSize
  let newSegmentSize := min newSegmentSize (wsub MaxAllocationSize BlockOverheadSize)
  let s := { s with newSegmentSize := wmul s.newSegmentSize 2 }
  (allocNewSegment fuel s newSegmentSize isExternalSegment).bind fun r =>
    let block := r.1
    let s := r.2
    if isExternalSegment = false then
      let r := s.splitBlock block numBytes
      let split := r.1
      let linked :=
        if split ≠ block then linkRemainder fuel r.2 block split
        else some r.2
      linked.bind fun s =>
        let s := s.setBlockAllocated split true
        some (getBlockData split, s)
    else
      let s := s.setBlockAllocated block true
      some (getBlockData block, s)

/-- The statement pair `mem = ...; if (mem) return mem;` of `allocate`: the result of
one stage of the cascade is returned when it is a block, otherwise the next stage runs
on the state the stage left. -/
def orElse (stage : Option (Nat × HeapAllocator))
    (next : HeapAllocator → Option (Nat × HeapAllocator)) : Option (Nat × HeapAllocator) :=
  stage.bind fun r => if r.1 ≠ 0 then some r else next r.2

/-- `HeapAllocator::allocate(numBytes, alignment, offset)`.  The source leaves its second
and third parameter unnamed and never reads them. -/
def allocate (fuel : Nat) (s : HeapAllocator) (numBytes : Nat) (_alignment : Nat := 8)
    (_offset : Nat := 0) : Option (Nat × HeapAllocator) :=
  let allocSize := max numBytes MinAllocationSize
  let fromBins : Option (Nat × HeapAllocator) :=
    if isSmallAlloc numBytes then
      orElse (allocFromSmallBin fuel s allocSize) fun s =>
        orElse (allocFromReserve fuel s allocSize) fun s =>
          allocFromTreeBin fuel s allocSize
    else if isLargeAlloc numBytes = false then
      orElse (allocFromTreeBin fuel s allocSize) fun s =>
        allocFromReserve fuel s allocSize
    else some (0, s)
  orElse fromBins fun s =>
    if s.doSystemAllocation then
      orElse (allocFromSystem fuel s allocSize) fun s => some (0, s)
    else some (0, s)

def release (fuel : Nat) (s : HeapAllocator) (addr : Nat) : Option HeapAllocator :=
  if addr ≠ 0 then
    let header := getDataHeader addr
    let s := s.setBlockAllocated header false
    if s.isBlockExternal header then
      (getSegment fuel s header).bind fun segment => some (s.releaseExternalSegment segment)
    else (linkBlock fuel s header).bind fun r => some r.2
  else some s

/-- The constructor `HeapAllocator(initialAllocSize, alignment)`, run on the memory `m`
of a process whose next mapping is placed at `mmapNext`. -/
def create (fuel : Nat) (initialAllocSize alignment : Nat) (pageSize mmapNext mmapGap : Nat)
    (m : Memory := fun _ => 0) : Option HeapAllocator :=
  let s : HeapAllocator :=
    { mem := m, bins := fun _ => 0, reserve := 0, binMap := 0, headSegment := 0,
      newSegmentSize := initialAllocSize, alignment := alignment,
      doSystemAllocation := true, doBlockMerging := true, doSegmentMerging := true,
      pageSize := pageSize, mmapNext := mmapNext, mmapGap := mmapGap }
  (allocNewSegment fuel s initialAllocSize false).bind fun r =>
    (linkBlock fuel r.2 r.1).bind fun r => some r.2

def enableSystemAllocation (s : HeapAllocator) (enable : Bool) : HeapAllocator :=
  { s with doSystemAllocation := enable }

def enableBlockMerging (s : HeapAllocator) (enable : Bool) : HeapAllocator :=
  { s with doSegmentMerging := enable }

def enableSegmentMerging (s : HeapAllocator) (enable : Bool) : HeapAllocator :=
  { s with doSegmentMerging := enable }

/-! ## Audit and statistics -/

/-- The record `check` pushes for a corrupt block.  `Block::bin` is not set by `check`;
it is `0` here. -/
def corruptRecord (s : HeapAllocator) (segment block : Nat) : Block :=
  { addr := block, data := getBlockData block, segment := segment,
    size := s.getBlockSize block, bin := 0, isAllocated := s.isBlockAllocated block }

/-- The inner `while (block)` loop of `check`: `foundCorrupt` and the corrupt blocks
collected so far are threaded through. -/
def checkBlocks (s : HeapAllocator) (segment : Nat) :
    Nat → Nat → Bool → List Block → Option (Bool × List Block)
  | 0, _, _, _ => none
  | fuel + 1, block, foundCorrupt, corruptBlocks =>
    if block = 0 then some (foundCorrupt, corruptBlocks)
    else if s.checkBlock block = false then
      checkBlocks s segment fuel (s.getNextBlock block) true
        (corruptBlocks ++ [s.corruptRecord segment block])
    else checkBlocks s segment fuel (s.getNextBlock block) foundCorrupt corruptBlocks

/-- The outer `while (segment)` loop of `check`. -/
def checkSegments (fuel0 : Nat) (s : HeapAllocator) :
    Nat → Nat → Bool → List Block → Option (Bool × List Block)
  | 0, _, _, _ => none
  | fuel + 1, segment, foundCorrupt, corruptBlocks =>
    if segment = 0 then some (foundCorrupt, corruptBlocks)
    else
      (checkBlocks s segment fuel0 (s.getFirstSegmentBlock segment) foundCorrupt
          corruptBlocks).bind fun r =>
        checkSegments fuel0 s fuel (s.rd segment segOffNext) r.1 r.2

/-- `check(corruptBlocks)`: the returned flag and the blocks appended to the vector. -/
def check (fuel : Nat) (s : HeapAllocator) : Option (Bool × List Block) :=
  (checkSegments fuel s fuel s.headSegment false []).bind fun r => some (!r.1, r.2)

/-- One round of the inner loop of `getStats`: the block is added to the totals. -/
def countBlock (s : HeapAllocator) (block : Nat) (stats : Stats) : Stats :=
  let stats :=
    if s.isBlockAllocated block then
      { stats with allocatedBytes := wadd stats.allocatedBytes (s.getBlockSize block),
                   allocatedBlocks := wadd stats.allocatedBlocks 1 }
    else
      { stats with freeBytes := wadd stats.freeBytes (s.getBlockSize block),
                   freeBlocks := wadd stats.freeBlocks 1 }
  { stats with overheadBytes := wadd stats.overheadBytes BlockOverheadSize }

/-- The inner `while (block)` loop of `getStats`. -/
def getStatsBlocks (s : HeapAllocator) : Nat → Nat → Stats → Option Stats
  | 0, _, _ => none
  | fuel + 1, block, stats =>
    if block = 0 then some stats
    else getStatsBlocks s fuel (s.getNextBlock block) (s.countBlock block stats)

/-- The head of one round of the outer loop of `getStats`: the segment is counted. -/
def countSegment (s : HeapAllocator) (segment : Nat) (stats : Stats) : Stats :=
  let stats :=
    if s.isSegmentExternal segment then
      { stats with numExternalSegments := wadd stats.numExternalSegments 1 }
    else { stats with numRegularSegments := wadd stats.numRegularSegments 1 }
  { stats with overheadBytes := wadd stats.overheadBytes (s.getSegmentOverhead segment) }

/-- The outer `while (segment)` loop of `getStats`. -/
def getStatsSegments (fuel0 : Nat) (s : HeapAllocator) : Nat → Nat → Stats → Option Stats
  | 0, _, _ => none
  | fuel + 1, segment, stats =>
    if segment = 0 then some stats
    else
      (getStatsBlocks s fuel0 (s.getFirstSegmentBlock segment)
          (s.countSegment segment stats)).bind fun stats =>
        getStatsSegments fuel0 s fuel (s.rd segment segOffNext) stats

def getStats (fuel : Nat) (s : HeapAllocator) : Option Stats :=
  getStatsSegments fuel s fuel s.headSegment
    { allocatedBytes := 0, freeBytes := 0, overheadBytes := 0, allocatedBlocks := 0,
      freeBlocks := 0, numRegularSegments := 0, numExternalSegments := 0 }

/-- The record `getBlocks` pushes for a block. -/
def blockRecord (s : HeapAllocator) (segment block : Nat) : Block :=
  { addr := block, data := getBlockData block, segment := segment,
    size := s.getBlockSize block, bin := getBinIndex (s.getBlockSize block),
    isAllocated := s.isBlockAllocated block }

/-- The inner `while (block)` loop of `getBlocks`. -/
def getBlocksBlocks (s : HeapAllocator) (segment : Nat) :
    Nat → Nat → List Block → Option (List Block)
  | 0, _, _ => none
  | fuel + 1, block, blocks =>
    if block = 0 then some blocks
    else
      getBlocksBlocks s segment fuel (s.getNextBlock block)
        (blocks ++ [s.blockRecord segment block])

/-- The outer `while (segment)` loop of `getBlocks`. -/
def getBlocksSegments (fuel0 : Nat) (s : HeapAllocator) :
    Nat → Nat → List Block → Option (List Block)
  | 0, _, _ => none
  | fuel + 1, segment, blocks =>
    if segment = 0 then some blocks
    else
      (getBlocksBlocks s segment fuel0 (s.getFirstSegmentBlock segment) blocks).bind
        fun blocks => getBlocksSegments fuel0 s fuel (s.rd segment segOffNext) blocks

def getBlocks (fuel : Nat) (s : HeapAllocator) : Option (List Block) :=
  getBlocksSegments fuel s fuel s.headSegment []

/-- The body of the `while (segment)` loop of `clear` for one segment. -/
def clearSegment (s : HeapAllocator) (segment : Nat) : HeapAllocator :=
  if s.isSegmentExternal segment then s.releaseExternalSegment segment
  else
    let block := s.getFirstSegmentBlock segment
    let s := s.setBlockAllocated block false
    let s := s.setBlockFencePost block true
    let s := s.setBlockSize block (wsub (s.rd segment segOffSize) sizeofSegment)
    s.reconcileFooter block

/-- The `while (segment)` loop of `clear`. -/
def clearLoop : Nat → Nat → HeapAllocator → Option HeapAllocator
  | 0, _, _ => none
  | fuel + 1, segment, s =>
    if segment = 0 then some s
    else clearLoop fuel ((s.clearSegment segment).rd segment segOffNext) (s.clearSegment segment)

def clear (fuel : Nat) (s : HeapAllocator) : Option HeapAllocator :=
  clearLoop fuel s.headSegment s

/-! ## Call sequences

Drivers in the style of the repository's tests: a client performs a sequence of calls
on one allocator and keeps the pointers it was given. -/

/-- One call made by a client of the allocator. -/
inductive Call where
  /-- The call `allocate(numBytes)`; its result is appended to the client's pointers. -/
  | allocate (numBytes : Nat)
  /-- The call `release(p)` for the `k`-th pointer obtained so far (counted from 0). -/
  | release (k : Nat)
  /-- The client writes `((char*)p)[offset] = byte` through its `k`-th pointer. -/
  | write (k offset byte : Nat)

/-- Runs a sequence of calls and returns the pointers obtained and the final state. -/
def runCalls (fuel : Nat) :
    List Call → HeapAllocator → List Nat → Option (List Nat × HeapAllocator)
  | [], s, ptrs => some (ptrs, s)
  | Call.allocate numBytes :: calls, s, ptrs =>
    (allocate fuel s numBytes).bind fun r => runCalls fuel calls r.2 (ptrs ++ [r.1])
  | Call.release k :: calls, s, ptrs =>
    (release fuel s (ptrs.getD k 0)).bind fun s => runCalls fuel calls s ptrs
  | Call.write k offset byte :: calls, s, ptrs =>
    runCalls fuel calls { s with mem := storeByte s.mem (wadd (ptrs.getD k 0) offset) byte } ptrs

/-- A state without segments or free blocks, on zeroed memory: the members as the
constructor initialises them before it maps the first segment. -/
def emptyAllocator (alignment : Nat) : HeapAllocator :=
  { mem := fun _ => 0, bins := fun _ => 0, reserve := 0, binMap := 0, headSegment := 0,
    newSegmentSize := 0, alignment := alignment,
    doSystemAllocation := true, doBlockMerging := true, doSegmentMerging := true,
    pageSize := 4096, mmapNext := 0, mmapGap := 0 }

/-- Frees blocks into the tree bins: for each `(block, size)` the header of `block` is
given the size and the block is passed to `_linkTreeBlock` with its bin index. -/
def linkTreeBlocks (fuel : Nat) : List (Nat × Nat) → HeapAllocator → Option HeapAllocator
  | [], s => some s
  | (block, size) :: rest, s =>
    (linkTreeBlock fuel (s.setBlockSize block size) block (getBinIndex size)).bind fun s =>
      linkTreeBlocks fuel rest s

end HeapAllocator

/-! ## States used in the examples, and separation of words -/

/-- Two 8-byte words that do not overlap (addresses taken modulo `2 ^ 64`). -/
def Sep (a b : Nat) : Prop := 8 ≤ wsub a b ∧ 8 ≤ wsub b a

/-- The allocator `HeapAllocator()` builds: 64 KiB initial segment, alignment 4, pages of
4096 bytes mapped from address `0x100000000` on. -/
def defaultAllocator : HeapAllocator :=
  (HeapAllocator.create 50 65536 4 4096 0x100000000 4096).getD (HeapAllocator.emptyAllocator 4)

/-- The allocator of the repository's `OutOfMemory` test: 1000 bytes initially, system
allocation switched off, after the first `allocate(1000)`. -/
def outOfMemoryState : HeapAllocator :=
  (((HeapAllocator.create 50 1000 4 4096 0x100000000 4096).bind fun s =>
      HeapAllocator.allocate 50 (s.enableSystemAllocation false) 1000).map fun r => r.2).getD
    (HeapAllocator.emptyAllocator 4)

/-! ## The other allocators -/

namespace util

/-- `util::nextPowerOfTwoMultiple(i, multiple)`. -/
def nextPowerOfTwoMultiple (i multiple : Nat) : Nat :=
  wsub (wadd i multiple) 1 &&& wnot (wsub multiple 1)

end util

namespace PageAllocator

/-- `sizeof(PageAllocator::Segment)`: two pointers and three `size_t`. -/
def sizeofSegment : Nat := 40

/-- What `PageAllocator::allocate` computes: the size asked of the system, the segment
record's place and fields, and the pointer returned. -/
structure Allocation where
  pageAlignedSize : Nat
  segment : Nat
  size : Nat
  alignOffset : Nat
  mem : Nat
  deriving DecidableEq, Repr

/-- `PageAllocator::allocate(size, alignment, offset)`, where `allocMem` is the address
`util::pageAllocate` answers with.  `x % alignment` with `alignment = 0` is undefined in
the source; here it is `x`. -/
def allocate (pageSize allocMem size alignment offset : Nat) : Allocation :=
  let allocSize := wadd (wadd size (wsub alignment 1)) sizeofSegment
  let pageAlignedSize := util.nextPowerOfTwoMultiple allocSize pageSize
  let preAlignedMem := wadd (wadd allocMem sizeofSegment) offset
  let alignOffset := wsub alignment (preAlignedMem % alignment) % alignment
  let segment := wadd allocMem alignOffset
  { pageAlignedSize := pageAlignedSize, segment := segment,
    size := wsub (wsub (wsub pageAlignedSize offset) alignOffset) sizeofSegment,
    alignOffset := alignOffset, mem := wadd segment sizeofSegment }

end PageAllocator

namespace MallocAllocator

/-- `sizeof(SizeField)`. -/
def sizeofSizeField : Nat := 8

/-- `sizeof(AlignOffsetField)`. -/
def sizeofAlignOffsetField : Nat := 1

/-- What `MallocAllocator::allocate` computes: the size asked of `malloc`, the byte
stored as alignment offset, and the pointer returned. -/
structure Allocation where
  newSize : Nat
  alignOffsetByte : Nat
  retMem : Nat
  deriving DecidableEq, Repr

/-- `MallocAllocator::allocate(size, alignment, offset)`, where `alloc` is the address
`malloc` answers with. -/
def allocate (alloc size alignment offset : Nat) : Allocation :=
  let newSize := wadd (wadd (wadd size (wsub alignment 1)) sizeofSizeField) sizeofAlignOffsetField
  let preAlignedMem := wadd (wadd (wadd alloc sizeofAlignOffsetField) sizeofSizeField) offset
  let alignOffset := wsub alignment (preAlignedMem % alignment) % alignment
  let alignedMem := wadd preAlignedMem alignOffset
  let retMem := wsub alignedMem offset
  { newSize := newSize, alignOffsetByte := alignOffset % 256, retMem := retMem }

end MallocAllocator

/-- The members of `LinearAllocator`. -/
structure LinearAllocator where
  startAddr : Nat
  endAddr : Nat
  curAddr : Nat
  alignment : Nat
  deriving DecidableEq, Repr

namespace LinearAllocator

/-- The constructor `LinearAllocator(mem, size, alignment)`. -/
def create (mem size : Nat) (alignment : Nat := 4) : LinearAllocator :=
  { startAddr := mem, endAddr := wadd mem size, curAddr := align mem alignment,
    alignment := alignment }

/-- `LinearAllocator::allocate(numBytes, alignment, offset)`: the pointer returned and
the new state.  The second and third parameter are unnamed in the source. -/
def allocate (s : LinearAllocator) (numBytes : Nat) (_alignment : Nat := 8)
    (_offset : Nat := 0) : Nat × LinearAllocator :=
  let addr := s.curAddr
  if wadd addr numBytes > s.endAddr then (0, s)
  else (addr, { s with curAddr := align (wadd s.curAddr numBytes) s.alignment })

/-- `LinearAllocator::release(addr)`, a no-op. -/
def release (s : LinearAllocator) (_addr : Nat) : LinearAllocator := s

/-- `LinearAllocator::clear()`. -/
def clear (s : LinearAllocator) : LinearAllocator := { s with curAddr := s.startAddr }

end LinearAllocator

namespace BoundsChecking

/-- `BoundsChecking::SizeFront`, `sizeof(int)`. -/
def SizeFront : Nat := 4

/-- `BoundsChecking::SizeBack`, `sizeof(int)`. -/
def SizeBack : Nat := 4

end BoundsChecking

namespace Region

/-- The calls `Region::allocate` makes on its allocator and policies, and its result:
`mem` is the pointer the inner `allocate` answers with. -/
structure AllocateTrace where
  innerSize : Nat
  innerAlignment : Nat
  innerOffset : Nat
  guardFront : Nat
  guardBack : Nat
  result : Nat
  deriving DecidableEq, Repr

/-- `Region::allocate(size, alignment, sourceInfo)` for a bounds-checking policy with
the given `SizeFront` and `SizeBack`. -/
def allocate (sizeFront sizeBack mem size alignment : Nat) : AllocateTrace :=
  let originalSize := size
  let newSize := wadd (wadd size sizeFront) sizeBack
  { innerSize := newSize, innerAlignment := alignment, innerOffset := sizeFront,
    guardFront := mem, guardBack := wadd (wadd mem sizeFront) originalSize,
    result := wadd mem sizeFront }

/-- The pointers `Region::release` hands to its allocator and policies; `allocSize` is
what the inner `getAllocationSize` answers. -/
structure ReleaseTrace where
  getAllocationSizeArg : Nat
  checkFront : Nat
  checkBack : Nat
  releaseArg : Nat
  deriving DecidableEq, Repr

/-- `Region::release(addr)`. -/
def release (sizeFront addr allocSize : Nat) : ReleaseTrace :=
  let origMem := wsub addr sizeFront
  { getAllocationSizeArg := addr, checkFront := origMem,
    checkBack := wadd (wadd origMem sizeFront) allocSize, releaseArg := addr }

end Region

namespace HeapAllocator

/-! ## The block walk, and `check` as the specification words it -/

/-- The blocks of one segment in walk order, each paired with its segment: from `block`
on, following `_getNextBlock` until it answers null. -/
def walkBlocks (s : HeapAllocator) (segment : Nat) : Nat → Nat → Option (List (Nat × Nat))
  | 0, _ => none
  | fuel + 1, block =>
    if block = 0 then some []
    else (walkBlocks s segment fuel (s.getNextBlock block)).map fun rest =>
      (segment, block) :: rest

/-- The blocks of all segments from `segment` on, in walk order. -/
def walkSegments (fuel0 : Nat) (s : HeapAllocator) : Nat → Nat → Option (List (Nat × Nat))
  | 0, _ => none
  | fuel + 1, segment =>
    if segment = 0 then some []
    else
      (walkBlocks s segment fuel0 (s.getFirstSegmentBlock segment)).bind fun blocks =>
        (walkSegments fuel0 s fuel (s.rd segment segOffNext)).map fun rest => blocks ++ rest

/-- The walk over all segments that `check`, `getStats` and `getBlocks` share. -/
def walk (fuel : Nat) (s : HeapAllocator) : Option (List (Nat × Nat)) :=
  walkSegments fuel s fuel s.headSegment

/-! ## `check` in the words of the specification, over the bytes of the heap -/

/-- The size a header or footer word records: its low 61 bits (the three bits above
them are the flags). -/
def sizeOfWord (word : Nat) : Nat := word % 2 ^ 61

/-- The header word of `block`: the 8 bytes at its address. -/
def headerWord (s : HeapAllocator) (block : Nat) : Nat := load s.mem (block % W)

/-- The footer word of `block`: the 8 bytes behind its header word and its payload. -/
def footerWord (s : HeapAllocator) (block : Nat) : Nat :=
  load s.mem ((block + 8 + sizeOfWord (s.headerWord block)) % W)

/-- Header and footer of `block` record the same size. -/
def sizesMatch (s : HeapAllocator) (block : Nat) : Bool :=
  decide (sizeOfWord (s.headerWord block) = sizeOfWord (s.footerWord block))

/-- The block that lies behind `block` (header word, payload, footer word), or null when
the header word there carries the fence post flag, bit 62. -/
def layoutNextBlock (s : HeapAllocator) (block : Nat) : Nat :=
  if (s.headerWord ((block + sizeOfWord (s.headerWord block) + 16) % W)).testBit 62 then 0
  else (block + sizeOfWord (s.headerWord block) + 16) % W

/-- The first block of a segment: behind the 32 bytes of the segment record, the
alignment offset (the low 63 bits of the second word of the record) and the 8 bytes of
the offset footer. -/
def layoutFirstBlock (s : HeapAllocator) (segment : Nat) : Nat :=
  (segment + 32 + load s.mem ((segment + 8) % W) % 2 ^ 63 + 8) % W

/-- The blocks of a segment from `block` on, each paired with the segment. -/
def layoutBlocks (s : HeapAllocator) (segment : Nat) : Nat → Nat → Option (List (Nat × Nat))
  | 0, _ => none
  | fuel + 1, block =>
    if block = 0 then some []
    else (layoutBlocks s segment fuel (s.layoutNextBlock block)).map fun rest =>
      (segment, block) :: rest

/-- The blocks of the segments from `segment` on; the third word of a segment record
points to the next segment. -/
def layoutSegments (fuel0 : Nat) (s : HeapAllocator) : Nat → Nat → Option (List (Nat × Nat))
  | 0, _ => none
  | fuel + 1, segment =>
    if segment = 0 then some []
    else
      (layoutBlocks s segment fuel0 (s.layoutFirstBlock segment)).bind fun blocks =>
        (layoutSegments fuel0 s fuel (load s.mem ((segment + 16) % W))).map fun rest =>
          blocks ++ rest

/-- What the specification says of `check`: over the walk of all blocks of all segments,
the flag is true if and only if every block has header size equal to footer size, and
the records are those of the blocks whose sizes differ, in walk order.  A record is given
by the address of the block, the address of its payload, its segment, the size in its
header word and its allocated flag (bit 63 of the header word). -/
def checkSpec (fuel : Nat) (s : HeapAllocator) : Option (Bool × List (Nat × Nat × Nat × Nat × Bool)) :=
  (layoutSegments fuel s fuel s.headSegment).map fun blocks =>
    (blocks.all fun b => s.sizesMatch b.2,
      (blocks.filter fun b => !s.sizesMatch b.2).map fun b =>
        (b.2, (b.2 + 8) % W, b.1, sizeOfWord (s.headerWord b.2), (s.headerWord b.2).testBit 63))

/-- The fields `check` sets in a record: `addr`, `data`, `segment`, `size` and
`isAllocated` (`bin` is left unset by `check`). -/
def recordFields (b : Block) : Nat × Nat × Nat × Nat × Bool :=
  (b.addr, b.data, b.segment, b.size, b.isAllocated)

end HeapAllocator

namespace HeapAllocator

/-- The segments from `segment` on, in list order. -/
def segmentList (s : HeapAllocator) : Nat → Nat → Option (List Nat)
  | 0, _ => none
  | fuel + 1, segment =>
    if segment = 0 then some []
    else (segmentList s fuel (s.rd segment segOffNext)).map fun rest => segment :: rest

/-- The address `_getNextBlock` computes before it looks for the fence post. -/
def nextBlockAddr (s : HeapAllocator) (block : Nat) : Nat :=
  wadd (wadd block (s.getBlockSize block)) BlockOverheadSize

end HeapAllocator

/-- The 8-byte words at the plain addresses `a` and `c` do not overlap. -/
def Apart (a c : Nat) : Prop := a + 8 ≤ c ∨ c + 8 ≤ a

instance (a c : Nat) : Decidable (Apart a c) := by
  unfold Apart
  exact inferInstance

namespace HeapAllocator

/-- The word at `q` is none of the list pointers `_linkSmallBlock(b, i)` writes: the
`next` and `prev` pointer of `b`, the `prev` pointer of the head of bin `i` and the
`next` pointer of that head's predecessor. -/
def listWordsClear (s : HeapAllocator) (b i q : Nat) : Prop :=
  (q + 8 ≤ b + 8 ∨ b + 24 ≤ q) ∧
  (s.bins i ≠ 0 →
    (q + 8 ≤ s.bins i + 16 ∨ s.bins i + 24 ≤ q) ∧
    (q + 8 ≤ s.rd (s.bins i) offPrev + 8 ∨ s.rd (s.bins i) offPrev + 16 ≤ q))

instance (s : HeapAllocator) (b i q : Nat) : Decidable (s.listWordsClear b i q) := by
  unfold listWordsClear
  exact inferInstance

end HeapAllocator

/-! ## `MallocAllocator::release` -/

namespace MallocAllocator

/-- The conversion `size_t alignOffset = *alignOffsetMem` in `release`: `AlignOffsetField`
is `char`, a signed type on x86-64, so a byte from 128 on is sign extended. -/
def charToSize (byte : Nat) : Nat :=
  if byte % 256 < 128 then byte % 256 else wsub (byte % 256) 256

/-- The two stores of `MallocAllocator::allocate`: the size field in front of the pointer
returned, and the align-offset byte in front of the size field. -/
def allocateStores (m : Memory) (alloc size alignment offset : Nat) : Memory :=
  let r := allocate alloc size alignment offset
  let sizeMem := wsub r.retMem sizeofSizeField
  let m := store m sizeMem r.newSize
  let alignOffsetMem := wsub sizeMem sizeofAlignOffsetField
  storeByte m alignOffsetMem r.alignOffsetByte

/-- `MallocAllocator::release(mem)`: the address handed to `free`. -/
def release (m : Memory) (mem : Nat) : Nat :=
  let alignOffsetMem := wsub (wsub mem sizeofSizeField) sizeofAlignOffsetField
  let alignOffset := charToSize (m alignOffsetMem)
  let originalMem := wsub alignOffsetMem alignOffset
  originalMem

end MallocAllocator

/-! ## Tree nodes -/

namespace HeapAllocator

/-- The link fields of a `BlockTreeHeader`: `parent`, `child[0]`, `child[1]`, `next` and
`prev`, in this order. -/
def treeLinks (s : HeapAllocator) (block : Nat) : List Nat :=
  [s.rd block offParent, s.rd block (offChild 0), s.rd block (offChild 1),
   s.rd block offNext, s.rd block offPrev]

/-! ## Membership in a tree bin -/

/-- The node a list of links leads to from `node`: link 0 or 1 is the child of that
index, any other link is `next`, the step from a tree node to the block behind it in
its chain of blocks of the same size. -/
def followLinks (s : HeapAllocator) : Nat → List Nat → Nat
  | node, [] => node
  | node, k :: links =>
    followLinks s (if k < 2 then s.rd node (offChild k) else s.rd node offNext) links

/-- The nodes the `FOREVER` loop of `_linkTreeBlock` visits, each with the link the loop
leaves it by: the index of the child it reads, and 2 for the child of the same size the
loop ends at, behind which the block is chained.  The function only reads. -/
def treeDescent (s : HeapAllocator) (blockSize : Nat) : Nat → Nat → Nat → Option (List (Nat × Nat))
  | 0, _, _ => none
  | fuel + 1, iter, bits =>
    let msb := util.msb bits
    let child := s.rd iter (offChild msb)
    if child = 0 then some [(iter, msb)]
    else if s.getBlockSize child = blockSize then some [(iter, msb), (child, 2)]
    else (treeDescent s blockSize fuel child (wshl bits 1)).map fun rest => (iter, msb) :: rest

/-- The nodes `_linkTreeBlock` visits for `block` in bin `binIndex`: none when the bin is
empty, and the nodes of its loop from the root of the bin otherwise. -/
def insertPath (fuel : Nat) (s : HeapAllocator) (block binIndex : Nat) : Option (List (Nat × Nat)) :=
  if s.bins binIndex = 0 then some []
  else
    treeDescent s (s.getBlockSize block) fuel (s.bins binIndex)
      (wshl (s.getBlockSize block) (getTreeBinShift binIndex))

/-- Two tree headers (48 bytes each) at `a` and `c` do not overlap. -/
def headersApart (a c : Nat) : Bool := decide (a + 48 ≤ c ∨ c + 48 ≤ a)

/-- The headers at the addresses of a list lie apart from each other. -/
def allApart : List Nat → Bool
  | [] => true
  | a :: rest => rest.all (fun c => headersApart a c) && allApart rest

/-- The layout `_linkTreeBlock` relies on when it inserts `block` along `path`: the
headers of `block` and of the visited nodes lie inside the address space, `block` is none
of the visited nodes, the visited nodes lie apart from each other, and the block behind
a node of the same size in its chain is one of the visited nodes or lies apart from
them. -/
def pathClear (s : HeapAllocator) (block : Nat) (path : List (Nat × Nat)) : Bool :=
  path.all (fun p => decide (block + 48 ≤ W) && decide (p.1 + 48 ≤ W) && headersApart block p.1) &&
  allApart (path.map Prod.fst) &&
  path.all (fun q =>
    decide (q.2 < 2) ||
      (decide (s.rd q.1 offNext + 48 ≤ W) &&
        path.all fun p => decide (s.rd q.1 offNext = p.1) || headersApart (s.rd q.1 offNext) p.1))

/-- The block and the state `_linkBlock` places: the result of
`_coalesceAdjacentBlocks` when block merging is enabled and the block is not small, the
block and the state as they are otherwise. -/
def coalesced (fuel : Nat) (s : HeapAllocator) (block : Nat) : Option (Nat × HeapAllocator) :=
  if s.doBlockMerging && !isSmallAlloc (s.getBlockSize block) then
    coalesceAdjacentBlocks fuel s block
  else some (block, s)

/-- The state the loop of `_linkTreeBlock` ends in when it finds a free child slot. -/
def linkLeaf (s : HeapAllocator) (x iter msb : Nat) : HeapAllocator :=
  let s := s.wr iter (offChild msb) x
  let s := s.wr x offParent iter
  let s := s.wr x (offChild 0) 0
  let s := s.wr x (offChild 1) 0
  let s := s.wr x offPrev x
  s.wr x offNext x

/-- The state the loop of `_linkTreeBlock` ends in when it finds a child of the size of
the block. -/
def linkChain (s : HeapAllocator) (x child : Nat) : HeapAllocator :=
  let s := s.wr x offNext (s.rd child offNext)
  let s := s.wr x offPrev child
  let s := s.wr (s.rd child offNext) offPrev x
  let s := s.wr child offNext x
  if s.rd child offPrev = child then s.wr child offPrev x else s

/-- What holds of a header `q` that the loop of `_linkTreeBlock` leaves alone: it lies
apart from the block and from the visited nodes, and the block behind the node of the
same size is `q` or lies apart from it. -/
def Untouched (s : HeapAllocator) (x : Nat) (path : List (Nat × Nat)) (q : Nat) : Prop :=
  q + 48 ≤ W ∧ (x + 48 ≤ q ∨ q + 48 ≤ x) ∧
  (∀ p ∈ path, p.1 + 48 ≤ W ∧ (p.1 + 48 ≤ q ∨ q + 48 ≤ p.1)) ∧
  (∀ p ∈ path, ¬ p.2 < 2 → s.rd p.1 offNext + 48 ≤ W ∧
    (s.rd p.1 offNext = q ∨ (s.rd p.1 offNext + 48 ≤ q ∨ q + 48 ≤ s.rd p.1 offNext)))

end HeapAllocator

/-! ## Further states used in the examples -/

open HeapAllocator

/-- A `HeapAllocator(65536, 32)` after `p = allocate(32)`, `allocate(16)` and
`release(p)`: the 48-byte block of `p` is free, in small bin 6. -/
def alignment32State : HeapAllocator :=
  (((create 50 65536 32 4096 0x100000000 4096).bind fun s =>
      runCalls 50 [Call.allocate 32, Call.allocate 16, Call.release 0] s []).map fun r =>
    r.2).getD (emptyAllocator 32)

/-- A default allocator after three `allocate(100)` and the release of the first of
the three pointers: small bin 12 holds one block. -/
def smallBinState : HeapAllocator :=
  ((runCalls 50 [Call.allocate 100, Call.allocate 100, Call.allocate 100, Call.release 0]
    defaultAllocator []).map fun r => r.2).getD (emptyAllocator 4)

/-- A default allocator after two `allocate(1024)`: the reserve and two allocated
blocks, one behind the other. -/
def twoAllocationsState : HeapAllocator :=
  ((runCalls 50 [Call.allocate 1024, Call.allocate 1024] defaultAllocator []).map fun r =>
    r.2).getD (emptyAllocator 4)

/-- A default allocator in which the blocks `0x100010ea4` and `0x100010d48` of 300 bytes
and `0x100010a8c` of 304 bytes were released into tree bin 32, then the block
`0x100010bec` of 300 bytes in whose payload the client had stored, at offset 16, the
pointer `0x100010bf4` to that payload. -/
def staleParentState : HeapAllocator :=
  ((runCalls 50
    [Call.allocate 300, Call.allocate 16, Call.allocate 300, Call.allocate 16,
     Call.allocate 300, Call.allocate 16, Call.allocate 304, Call.allocate 16,
     Call.write 4 16 244, Call.write 4 17 11, Call.write 4 18 1, Call.write 4 20 1,
     Call.release 0, Call.release 2, Call.release 6, Call.release 4]
    defaultAllocator []).map fun r => r.2).getD (emptyAllocator 4)

/-- The default allocator after four allocations have been released (300 and 310 bytes
into tree bin 32, 20 bytes into a small bin) and `release` has cleared the allocated flag
of the block of 292 bytes at 4295035844, right before it calls `_linkBlock`. -/
def treeBinState : HeapAllocator :=
  (((runCalls 50
    [Call.allocate 300, Call.allocate 16, Call.allocate 310, Call.allocate 16,
     Call.allocate 20, Call.allocate 290, Call.allocate 16,
     Call.release 0, Call.release 2, Call.release 4]
    defaultAllocator []).map fun r => r.2).getD (emptyAllocator 4)).setBlockAllocated
      4295035844 false

/-- The default allocator after allocations of 9000, 16, 50000 and 16 bytes and the
release of the first (into tree bin 42), when `release` has cleared the allocated flag
of the block of 50000 bytes at 4294977832, right before it calls `_linkBlock`; the
reserve has 10448 bytes. -/
def largeReleaseState : HeapAllocator :=
  (((runCalls 50
    [Call.allocate 9000, Call.allocate 16, Call.allocate 50000, Call.allocate 16,
     Call.release 0]
    defaultAllocator []).map fun r => r.2).getD (emptyAllocator 4)).setBlockAllocated
      4294977832 false

end mem

/-! # Theorems -/

namespace mem

open HeapAllocator

/-! ## Concrete runs

The runs below use the default page size 4096, place the first mapping at address
`0x100000000` and leave one unmapped page between mappings. -/

set_option maxRecDepth 1000000 in
/-- C1: on a default allocator (64 KiB, alignment 4) the calls below leave four free
blocks of sizes 320, 328, 336 and 264 in tree bin 32; `allocate(380)` then returns the
264-byte block at `0x100010d30`, although the 400 bytes of the first allocation, which
start 280 bytes further at `0x100010e48`, are still live: the two ranges overlap. -/
theorem allocate_overlaps_live_allocation :
    ((create 50 65536 4 4096 0x100000000 4096).bind fun s0 =>
      (runCalls 50
        [Call.allocate 400, Call.allocate 264, Call.allocate 16, Call.allocate 336,
         Call.allocate 16, Call.allocate 328, Call.allocate 16, Call.allocate 320,
         Call.allocate 16, Call.release 7, Call.release 5, Call.release 3, Call.release 1,
         Call.allocate 380] s0 []).map fun r =>
        (r.1.getD 0 0, r.1.getD 9 0,
         r.2.isBlockAllocated (getDataHeader (r.1.getD 0 0)),
         r.2.isBlockAllocated (getDataHeader (r.1.getD 9 0)),
         r.2.getBlockSize (getDataHeader (r.1.getD 9 0)))) =
      some (0x100010e48, 0x100010d30, true, true, 264) ∧
    (0x100010d30 : Nat) < 0x100010e48 ∧ (0x100010e48 : Nat) < 0x100010d30 + 380 := by
  decide!

set_option maxRecDepth 1000000 in
/-- C2: on a default allocator, after `p = allocate(16); release(p)`, the call
`allocate(20)` returns `p` again, a block whose header records 16 bytes, which is less
than the 20 bytes requested. -/
theorem allocate_returns_block_smaller_than_request :
    ((create 50 65536 4 4096 0x100000000 4096).bind fun s0 =>
      (runCalls 50 [Call.allocate 16, Call.release 0, Call.allocate 20] s0 []).map fun r =>
        (r.1, r.2.getBlockSize (getDataHeader (r.1.getD 1 0)))) =
      some ([0x100010fc8, 0x100010fc8], 16) ∧
    ¬ (max 20 MinAllocationSize ≤ 16) := by
  decide!

set_option maxRecDepth 1000000 in
/-- C3: an allocator constructed with alignment 64 answers `allocate(40971520)` (an
external segment) with the pointer `segment + 96`, which is 32 modulo 64. -/
theorem allocate_misaligned_for_alignment_64 :
    ((create 50 65536 64 4096 0x100000000 4096).bind fun s0 =>
      (allocate 50 s0 40971520).map fun r => (r.1, r.1 % 64, r.2.alignment)) =
      some (0x100012000 + 96, 32, 64) := by
  decide!

set_option maxRecDepth 1000000 in
/-- C4: on a default allocator, after `p = allocate(16); release(p); q = allocate(20)`
the caller writes the byte `q[16]`, which is inside the 20 bytes it requested; `check`
then returns false and reports the block of `q`, whose footer no longer matches. -/
theorem check_fails_after_write_inside_request :
    ((create 50 65536 4 4096 0x100000000 4096).bind fun s0 =>
      (runCalls 50 [Call.allocate 16, Call.release 0, Call.allocate 20,
                    Call.write 1 16 255] s0 []).bind fun r =>
        (check 50 r.2).map fun c => (c.1, c.2.map fun b => (b.data, b.size))) =
      some (false, [(0x100010fc8, 16)]) := by
  decide!

set_option maxRecDepth 1000000 in
/-- C5: after blocks of sizes 256, 260, 264 and 352 are linked into tree bin 32 (in
this order) the 352-byte block hangs in the trie under the 264-byte one, yet
`_findTreeBlock(32, 340)` returns null. -/
theorem findTreeBlock_misses_fitting_block :
    ((linkTreeBlocks 10 [(4096, 256), (8192, 260), (12288, 264), (16384, 352)]
        (emptyAllocator 4)).map fun s =>
      (s.bins 32, s.rd 4096 (offChild 1), s.rd 8192 (offChild 0), s.rd 12288 (offChild 1),
       s.getBlockSize 16384)) = some (4096, 8192, 12288, 16384, 352) ∧
    ((linkTreeBlocks 10 [(4096, 256), (8192, 260), (12288, 264), (16384, 352)]
        (emptyAllocator 4)).bind fun s => findTreeBlock 10 s 32 340) = some 0 ∧
    (340 : Nat) ≤ 352 := by
  decide!

/-! ## Lemmas on words, bit masks and the allocation cascade -/

/-! ## Bit masks -/

theorem W_eq : W = 2 ^ 64 := rfl

theorem wshl_one (k : Nat) : wshl 1 k = if k < 64 then 2 ^ k else 0 := by
  unfold wshl
  rw [Nat.shiftLeft_eq, Nat.one_mul, W_eq]
  split
  · rename_i h
    exact Nat.mod_eq_of_lt (Nat.pow_lt_pow_right (by omega) h)
  · rename_i h
    have : 64 ≤ k := by omega
    obtain ⟨d, rfl⟩ := Nat.exists_eq_add_of_le this
    rw [Nat.pow_add]
    exact Nat.mul_mod_right _ _

/-- Bits of the mask `~((1 << k) - 1)` used to drop the bins below index `k`. -/
theorem testBit_dropBelow (k i : Nat) :
    (wnot (wsub (wshl 1 k) 1)).testBit i = (decide (k ≤ i) && decide (i < 64)) := by
  rw [wshl_one]
  split
  · rename_i hk
    have h2 : 2 ^ k < 2 ^ 64 := Nat.pow_lt_pow_right (by omega) hk
    have hpos : 0 < 2 ^ k := Nat.two_pow_pos k
    have e : wnot (wsub (2 ^ k) 1) = 2 ^ 64 - (2 ^ k - 1 + 1) := by
      unfold wnot wsub
      rw [W_eq]
      omega
    rw [e, Nat.testBit_two_pow_sub_succ (by omega), Nat.testBit_two_pow_sub_one]
    by_cases h1 : k ≤ i <;> by_cases h3 : i < 64 <;> simp [h1, h3]
    all_goals omega
  · rename_i hk
    have e : wnot (wsub 0 1) = 0 := by decide
    rw [e]
    simp
    omega

theorem testBit_lowMask (i : Nat) :
    (wsub (wshl 1 NumSmallBins) 1).testBit i = decide (i < 32) := by
  have e : wsub (wshl 1 NumSmallBins) 1 = 2 ^ 32 - 1 := by decide
  rw [e, Nat.testBit_two_pow_sub_one]

/-- The lowest set bit found by `countTrailingZeroes`. -/
theorem countTrailingZeroes_spec (fuel : Nat) :
    ∀ x, 0 < x → x < 2 ^ fuel →
      util.countTrailingZeroes fuel x < fuel ∧
      x.testBit (util.countTrailingZeroes fuel x) = true ∧
      ∀ i, i < util.countTrailingZeroes fuel x → x.testBit i = false := by
  induction fuel with
  | zero => intro x h0 h1; simp at h1; omega
  | succ fuel ih =>
    intro x h0 h1
    unfold util.countTrailingZeroes
    by_cases hodd : x % 2 = 1
    · simp [hodd]
    · simp only [hodd, if_false]
      have hx2 : 0 < x / 2 := by omega
      have hlt : x / 2 < 2 ^ fuel := by
        rw [Nat.pow_succ] at h1
        omega
      obtain ⟨a, b, c⟩ := ih (x / 2) hx2 hlt
      refine ⟨by omega, ?_, ?_⟩
      · rw [Nat.add_comm, Nat.testBit_add_one]
        exact b
      · intro i hi
        cases i with
        | zero => simp [hodd]
        | succ j =>
          rw [Nat.testBit_add_one]
          exact c j (by omega)

/-- For a non-zero 64-bit word `findFirstSet` is one plus the index of its lowest set
bit. -/
theorem findFirstSet_spec (x : Nat) (h0 : x ≠ 0) (hx : x < W) :
    ∃ j, util.findFirstSet x = j + 1 ∧ j < 64 ∧ x.testBit j = true ∧
      ∀ i, i < j → x.testBit i = false := by
  have hmod : x % W = x := Nat.mod_eq_of_lt hx
  refine ⟨util.countTrailingZeroes 64 x, ?_, ?_⟩
  · unfold util.findFirstSet
    rw [hmod]
    simp [h0]
  · exact countTrailingZeroes_spec 64 x (by omega) hx

theorem findFirstSet_zero : util.findFirstSet 0 = 0 := by decide

theorem testBit_resetBit (x j i : Nat) (hj : j < 64) :
    (util.resetBit x j).testBit i = (x.testBit i && decide (i < 64) && decide (i ≠ j)) := by
  unfold util.resetBit
  rw [Nat.testBit_and, wshl_one, if_pos hj]
  have h2 : 2 ^ j < 2 ^ 64 := Nat.pow_lt_pow_right (by omega) hj
  have e : wnot (2 ^ j) = 2 ^ 64 - (2 ^ j + 1) := by
    unfold wnot
    rw [W_eq, Nat.mod_eq_of_lt h2]
    omega
  rw [e, Nat.testBit_two_pow_sub_succ h2, Nat.testBit_two_pow]
  by_cases h1 : i < 64 <;> by_cases h3 : j = i <;> simp [h1, h3]
  all_goals omega

theorem eq_zero_of_testBit_false (x : Nat) (h : ∀ i, x.testBit i = false) : x = 0 :=
  Nat.eq_of_testBit_eq (by simpa using h)

theorem lt_W_of_testBit (x : Nat) (h : ∀ i, 64 ≤ i → x.testBit i = false) : x < W :=
  Nat.lt_pow_two_of_testBit x h

/-- The search loop of `_allocFromTreeBin` ends with "no block" when every bin it
looks at yields none. -/
theorem allocFromTreeBinSearch_none (fuel : Nat) (s : HeapAllocator) (numBytes bm0 : Nat)
    (hnone : ∀ i, i < 64 → bm0.testBit i = true → findTreeBlock fuel s i numBytes = some 0) :
    ∀ rounds bm, (∀ i, bm.testBit i = true → bm0.testBit i = true ∧ i < 64) →
      (∀ i, i + rounds < 64 → bm.testBit i = false) →
      allocFromTreeBinSearch fuel s numBytes (rounds + 1) bm = some (0, 0) := by
  intro rounds
  induction rounds with
  | zero =>
    intro bm hsub hlow
    have hz : bm = 0 := by
      apply eq_zero_of_testBit_false
      intro i
      by_cases hi : i < 64
      · exact hlow i (by omega)
      · by_contra hc
        have := (hsub i (by simpa using hc)).2
        omega
    subst hz
    unfold allocFromTreeBinSearch
    rw [findFirstSet_zero, if_pos rfl]
  | succ rounds ih =>
    intro bm hsub hlow
    have hbm : bm < W := by
      apply lt_W_of_testBit
      intro i hi
      by_contra hc
      have := (hsub i (by simpa using hc)).2
      omega
    unfold allocFromTreeBinSearch
    by_cases hz : bm = 0
    · subst hz
      rw [findFirstSet_zero, if_pos rfl]
    · obtain ⟨j, hj, hj64, hset, hmin⟩ := findFirstSet_spec bm hz hbm
      have hidx : wsub (j + 1) 1 = j := by
        unfold wsub
        rw [W_eq]
        omega
      rw [hj, if_neg (Nat.succ_ne_zero j)]
      dsimp only
      rw [hidx, hnone j hj64 (hsub j hset).1, Option.some_bind, if_neg (by simp)]
      apply ih
      · intro i hi
        rw [testBit_resetBit _ _ _ hj64] at hi
        simp only [Bool.and_eq_true, decide_eq_true_eq] at hi
        exact hsub i hi.1.1
      · intro i hi
        rw [testBit_resetBit _ _ _ hj64]
        by_cases hij : i < j
        · simp [hmin i hij]
        · by_cases hij2 : i = j
          · simp [hij2]
          · have : bm.testBit i = false := hlow i (by
              have hjlow : ¬ (j + (rounds + 1) < 64) := by
                intro hlt
                have := hlow j hlt
                rw [hset] at this
                exact Bool.noConfusion this
              omega)
            simp [this]

theorem smallBinMask_eq_zero (bm k : Nat)
    (h : ∀ i, k ≤ i → i < NumSmallBins → bm.testBit i = false) :
    bm &&& (wnot (wsub (wshl 1 k) 1) &&& wsub (wshl 1 NumSmallBins) 1) = 0 := by
  apply eq_zero_of_testBit_false
  intro i
  rw [Nat.testBit_and, Nat.testBit_and, testBit_dropBelow, testBit_lowMask]
  by_cases h1 : k ≤ i
  · by_cases h2 : i < 32
    · simp [h i h1 h2]
    · simp [h2]
  · simp [h1]

theorem allocFromSmallBin_none (fuel : Nat) (s : HeapAllocator) (numBytes : Nat)
    (h : ∀ i, getBinIndex numBytes ≤ i → i < NumSmallBins → s.binMap.testBit i = false) :
    allocFromSmallBin fuel s numBytes = some (0, s) := by
  have hm := smallBinMask_eq_zero s.binMap (getBinIndex numBytes) h
  unfold allocFromSmallBin
  dsimp only
  rw [hm, findFirstSet_zero, if_pos rfl]

theorem allocFromReserve_none (fuel : Nat) (s : HeapAllocator) (numBytes : Nat)
    (h : (if s.reserve ≠ 0 then s.getBlockSize s.reserve else 0) <
      wadd numBytes BlockOverheadSize) :
    allocFromReserve fuel s numBytes = some (0, s) := by
  unfold allocFromReserve
  dsimp only
  rw [if_pos h]

theorem treeBinMask_testBit (bm k i : Nat) :
    (bm &&& wnot (wsub (wshl 1 k) 1)).testBit i =
      (bm.testBit i && (decide (k ≤ i) && decide (i < 64))) := by
  rw [Nat.testBit_and, testBit_dropBelow]

theorem allocFromTreeBin_none (fuel : Nat) (s : HeapAllocator) (numBytes : Nat)
    (h : ∀ i, max NumSmallBins (getBinIndex numBytes) ≤ i → i < NumBins →
      s.binMap.testBit i = true → findTreeBlock fuel s i numBytes = some 0) :
    allocFromTreeBin fuel s numBytes = some (0, s) := by
  have hs := allocFromTreeBinSearch_none fuel s numBytes
    (s.binMap &&& wnot (wsub (wshl 1 (max NumSmallBins (getBinIndex numBytes))) 1))
    (by
      intro i hi hset
      rw [treeBinMask_testBit] at hset
      simp only [Bool.and_eq_true, decide_eq_true_eq] at hset
      exact h i hset.2.1 hi hset.1)
    64 _ (by
      intro i hi
      refine ⟨hi, ?_⟩
      rw [treeBinMask_testBit] at hi
      simp only [Bool.and_eq_true, decide_eq_true_eq] at hi
      exact hi.2.2)
    (by intro i hi; omega)
  unfold allocFromTreeBin
  dsimp only
  rw [hs, Option.some_bind, if_pos rfl]

theorem orElse_null (s : HeapAllocator) (next : HeapAllocator → Option (Nat × HeapAllocator)) :
    HeapAllocator.orElse (some (0, s)) next = next s := by
  unfold HeapAllocator.orElse
  rw [Option.some_bind, if_neg (by simp)]

theorem LargeAllocBoundary_eq : LargeAllocBoundary = 33554432 := rfl
theorem MinAllocationSize_eq : MinAllocationSize = 16 := rfl
theorem BlockOverheadSize_eq : BlockOverheadSize = 16 := rfl
theorem MaxSmallBinSize_eq : MaxSmallBinSize = 255 := rfl


/-! ## Memory: reading back what was written -/

theorem wsub_wadd_self (a i : Nat) (hi : i < 8) : wsub (wadd a i) a = i := by
  unfold wsub wadd
  rw [W_eq]
  omega

theorem load_store_same (m : Memory) (a v : Nat) : load (store m a v) a = v % W := by
  unfold load store
  simp only [wsub_wadd_self a _ (by omega : (0:Nat) < 8), wsub_wadd_self a _ (by omega : (1:Nat) < 8),
    wsub_wadd_self a _ (by omega : (2:Nat) < 8), wsub_wadd_self a _ (by omega : (3:Nat) < 8),
    wsub_wadd_self a _ (by omega : (4:Nat) < 8), wsub_wadd_self a _ (by omega : (5:Nat) < 8),
    wsub_wadd_self a _ (by omega : (6:Nat) < 8), wsub_wadd_self a _ (by omega : (7:Nat) < 8)]
  rw [W_eq]
  norm_num
  omega


theorem wsub_wadd_sep (a b i : Nat) (h : Sep a b) (hi : i < 8) : ¬ wsub (wadd b i) a < 8 := by
  unfold Sep wsub at h
  unfold wsub wadd
  rw [W_eq] at *
  omega

theorem load_store_other (m : Memory) (a b v : Nat) (h : Sep a b) :
    load (store m a v) b = load m b := by
  unfold load store
  simp only [wsub_wadd_sep a b _ h (by omega : (0:Nat) < 8), wsub_wadd_sep a b _ h (by omega : (1:Nat) < 8),
    wsub_wadd_sep a b _ h (by omega : (2:Nat) < 8), wsub_wadd_sep a b _ h (by omega : (3:Nat) < 8),
    wsub_wadd_sep a b _ h (by omega : (4:Nat) < 8), wsub_wadd_sep a b _ h (by omega : (5:Nat) < 8),
    wsub_wadd_sep a b _ h (by omega : (6:Nat) < 8), wsub_wadd_sep a b _ h (by omega : (7:Nat) < 8), if_false]

theorem BlockSizeBitMask_eq : BlockSizeBitMask = 2 ^ 61 - 1 := by decide
theorem BlockFlagsBitMask_eq : BlockFlagsBitMask = 2 ^ 64 - (2 ^ 61 - 1 + 1) := by decide
theorem BlockAllocatedBitMask_eq : BlockAllocatedBitMask = 2 ^ 63 := by decide
theorem BlockFencePostBitMask_eq : BlockFencePostBitMask = 2 ^ 62 := by decide
theorem BlockExternalBitMask_eq : BlockExternalBitMask = 2 ^ 61 := by decide

theorem testBit_wnot_two_pow (k i : Nat) (hk : k < 64) :
    (wnot (2 ^ k)).testBit i = (decide (i < 64) && !decide (k = i)) := by
  have h2 : 2 ^ k < 2 ^ 64 := Nat.pow_lt_pow_right (by omega) hk
  have e : wnot (2 ^ k) = 2 ^ 64 - (2 ^ k + 1) := by
    unfold wnot
    rw [W_eq, Nat.mod_eq_of_lt h2]
    omega
  rw [e, Nat.testBit_two_pow_sub_succ h2, Nat.testBit_two_pow]

theorem wmul_two_pow_bit (k : Nat) (hk : k < 64) (c : Bool) :
    wmul (2 ^ k) (if c then 1 else 0) = if c then 2 ^ k else 0 := by
  have h2 : 2 ^ k < 2 ^ 64 := Nat.pow_lt_pow_right (by omega) hk
  unfold wmul
  cases c
  · simp
  · simp only [if_true, Nat.mul_one]
    rw [W_eq]
    exact Nat.mod_eq_of_lt h2

/-- The size field of a header word. -/
theorem and_sizeMask (x : Nat) : x &&& BlockSizeBitMask = x % 2 ^ 61 := by
  rw [BlockSizeBitMask_eq, Nat.and_pow_two_sub_one_eq_mod]

/-- Setting one of the three flags (bit `k` = 61, 62 or 63) keeps the size field. -/
theorem size_setFlag (h k : Nat) (c : Bool) (hk : 61 ≤ k) (hk2 : k < 64) :
    ((h &&& wnot (2 ^ k)) ||| wmul (2 ^ k) (if c then 1 else 0)) % 2 ^ 61 = h % 2 ^ 61 := by
  apply Nat.eq_of_testBit_eq
  intro i
  rw [Nat.testBit_mod_two_pow, Nat.testBit_mod_two_pow, Nat.testBit_or, Nat.testBit_and,
    testBit_wnot_two_pow k i hk2, wmul_two_pow_bit k hk2]
  by_cases hi : i < 61
  · have h1 : i < 64 := by omega
    have h3 : ¬ k = i := by omega
    cases c
    · simp [hi, h1, h3]
    · simp [hi, h1, h3, Nat.testBit_two_pow]
  · simp [hi]

/-- Setting the size field to `size` makes it `size`. -/
theorem size_setSize (h size : Nat) (hs : size < 2 ^ 61) :
    ((h &&& BlockFlagsBitMask) ||| size) % 2 ^ 61 = size := by
  apply Nat.eq_of_testBit_eq
  intro i
  rw [Nat.testBit_mod_two_pow, Nat.testBit_or, Nat.testBit_and, BlockFlagsBitMask_eq,
    Nat.testBit_two_pow_sub_succ (by omega), Nat.testBit_two_pow_sub_one]
  by_cases hi : i < 61
  · simp [hi]
  · have : size < 2 ^ i := Nat.lt_of_lt_of_le hs (Nat.pow_le_pow_right (by omega) (by omega))
    simp [hi, Nat.testBit_lt_two_pow this]

theorem mod_W_mod_size (x : Nat) : x % W % 2 ^ 61 = x % 2 ^ 61 := by
  rw [W_eq]
  omega


/-! ## Reading the allocator's memory after a write -/

theorem rd_wr_same (s : HeapAllocator) (p off v : Nat) : (s.wr p off v).rd p off = v % W :=
  load_store_same s.mem (wadd p off) v

theorem rd_wr_other (s : HeapAllocator) (p off v q off' : Nat)
    (h : Sep (wadd p off) (wadd q off')) : (s.wr p off v).rd q off' = s.rd q off' :=
  load_store_other s.mem (wadd p off) (wadd q off') v h

/-- Two words at plain addresses `a + 8 ≤ b`, both inside the address space, do not
overlap. -/
theorem sep_of_le (a b : Nat) (h1 : a + 8 ≤ b) (h2 : b + 8 ≤ W) :
    Sep (wadd a 0) (wadd b 0) ∧ Sep (wadd b 0) (wadd a 0) := by
  unfold Sep wsub wadd
  rw [W_eq] at *
  omega

theorem getBlockSize_eq (s : HeapAllocator) (b : Nat) : s.getBlockSize b = s.rd b 0 % 2 ^ 61 :=
  and_sizeMask _

theorem getBlockSize_lt (s : HeapAllocator) (b : Nat) : s.getBlockSize b < 2 ^ 61 := by
  rw [getBlockSize_eq]
  exact Nat.mod_lt _ (Nat.two_pow_pos 61)

theorem getBlockSize_wr_other (s : HeapAllocator) (p off v b : Nat)
    (h : Sep (wadd p off) (wadd b 0)) : (s.wr p off v).getBlockSize b = s.getBlockSize b := by
  rw [getBlockSize_eq, getBlockSize_eq, rd_wr_other s p off v b 0 h]

theorem getBlockSize_setBlockSize (s : HeapAllocator) (b size : Nat) (hs : size < 2 ^ 61) :
    (s.setBlockSize b size).getBlockSize b = size := by
  unfold setBlockSize
  rw [getBlockSize_eq, rd_wr_same, mod_W_mod_size, size_setSize _ _ hs]

theorem getBlockSize_setBlockAllocated (s : HeapAllocator) (b : Nat) (c : Bool) :
    (s.setBlockAllocated b c).getBlockSize b = s.getBlockSize b := by
  unfold setBlockAllocated
  rw [getBlockSize_eq, rd_wr_same, mod_W_mod_size, BlockAllocatedBitMask_eq,
    size_setFlag _ 63 c (by omega) (by omega), getBlockSize_eq]

theorem getBlockSize_setBlockFencePost (s : HeapAllocator) (b : Nat) (c : Bool) :
    (s.setBlockFencePost b c).getBlockSize b = s.getBlockSize b := by
  unfold setBlockFencePost
  rw [getBlockSize_eq, rd_wr_same, mod_W_mod_size, BlockFencePostBitMask_eq,
    size_setFlag _ 62 c (by omega) (by omega), getBlockSize_eq]

theorem getBlockSize_setBlockExternal (s : HeapAllocator) (b : Nat) (c : Bool) :
    (s.setBlockExternal b c).getBlockSize b = s.getBlockSize b := by
  unfold setBlockExternal
  rw [getBlockSize_eq, rd_wr_same, mod_W_mod_size, BlockExternalBitMask_eq,
    size_setFlag _ 61 c (by omega) (by omega), getBlockSize_eq]

theorem getBlockSize_setBlockSize_other (s : HeapAllocator) (x size b : Nat)
    (h : Sep (wadd x 0) (wadd b 0)) : (s.setBlockSize x size).getBlockSize b = s.getBlockSize b :=
  getBlockSize_wr_other s x 0 _ b h

theorem getBlockSize_setBlockAllocated_other (s : HeapAllocator) (x b : Nat) (c : Bool)
    (h : Sep (wadd x 0) (wadd b 0)) :
    (s.setBlockAllocated x c).getBlockSize b = s.getBlockSize b :=
  getBlockSize_wr_other s x 0 _ b h

theorem getBlockSize_setBlockFencePost_other (s : HeapAllocator) (x b : Nat) (c : Bool)
    (h : Sep (wadd x 0) (wadd b 0)) :
    (s.setBlockFencePost x c).getBlockSize b = s.getBlockSize b :=
  getBlockSize_wr_other s x 0 _ b h

theorem getBlockSize_setBlockExternal_other (s : HeapAllocator) (x b : Nat) (c : Bool)
    (h : Sep (wadd x 0) (wadd b 0)) :
    (s.setBlockExternal x c).getBlockSize b = s.getBlockSize b :=
  getBlockSize_wr_other s x 0 _ b h

theorem BlockHeaderSize_eq : BlockHeaderSize = 8 := rfl
theorem offNext_eq : offNext = 8 := rfl
theorem offPrev_eq : offPrev = 16 := rfl

theorem getBlockSize_reconcileFooter_other (s : HeapAllocator) (x b : Nat)
    (h : Sep (wadd (s.getBlockFooter x) 0) (wadd b 0)) :
    (s.reconcileFooter x).getBlockSize b = s.getBlockSize b :=
  getBlockSize_wr_other s _ 0 _ b h

/-- The size recorded by `initBlock` is the size passed in. -/
theorem getBlockSize_initBlock (s : HeapAllocator) (x n : Nat) (e : Bool)
    (hn : n < 2 ^ 61) : (s.initBlock x n e).getBlockSize x = n := by
  have h3 : (((s.setBlockSize x n).setBlockAllocated x false).setBlockExternal x e).getBlockSize x
      = n := by
    rw [getBlockSize_setBlockExternal, getBlockSize_setBlockAllocated,
      getBlockSize_setBlockSize _ _ _ hn]
  unfold initBlock
  dsimp only
  rw [getBlockSize_wr_other, getBlockSize_wr_other, getBlockSize_reconcileFooter_other, h3]
  · unfold getBlockFooter
    rw [h3, BlockHeaderSize_eq]
    unfold Sep wsub wadd
    rw [W_eq] at *
    omega
  · rw [offNext_eq]
    unfold Sep wsub wadd
    rw [W_eq] at *
    omega
  · rw [offPrev_eq]
    unfold Sep wsub wadd
    rw [W_eq] at *
    omega

/-- A block header in front of `x` is not touched by `initBlock` at `x`. -/
theorem getBlockSize_initBlock_other (s : HeapAllocator) (x n b : Nat) (e : Bool)
    (hn : n < 2 ^ 61) (hx : x + n + 16 ≤ W) (hx2 : x + 24 ≤ W) (hb : b + 8 ≤ x) :
    (s.initBlock x n e).getBlockSize b = s.getBlockSize b := by
  have h3 : (((s.setBlockSize x n).setBlockAllocated x false).setBlockExternal x e).getBlockSize x
      = n := by
    rw [getBlockSize_setBlockExternal, getBlockSize_setBlockAllocated,
      getBlockSize_setBlockSize _ _ _ hn]
  have hsep : Sep (wadd x 0) (wadd b 0) := (sep_of_le b x hb (by omega)).2
  unfold initBlock
  dsimp only
  rw [getBlockSize_wr_other, getBlockSize_wr_other, getBlockSize_reconcileFooter_other,
    getBlockSize_setBlockExternal_other _ _ _ _ hsep,
    getBlockSize_setBlockAllocated_other _ _ _ _ hsep,
    getBlockSize_setBlockSize_other _ _ _ _ hsep]
  · unfold getBlockFooter
    rw [h3, BlockHeaderSize_eq]
    unfold Sep wsub wadd
    rw [W_eq] at *
    omega
  · rw [offNext_eq]
    unfold Sep wsub wadd
    rw [W_eq] at *
    omega
  · rw [offPrev_eq]
    unfold Sep wsub wadd
    rw [W_eq] at *
    omega


theorem wsub_eq (a b : Nat) (hb : b ≤ a) (ha : a < W) : wsub a b = a - b := by
  unfold wsub
  rw [W_eq] at *
  omega

theorem wadd_eq (a b : Nat) (h : a + b < W) : wadd a b = a + b := by
  unfold wadd
  exact Nat.mod_eq_of_lt h

/-- The split branch of `splitBlock`: a block of size `S` with room for `n` bytes, the
alignment correction `c` and a remainder of at least 32 bytes is cut into a remainder of
`S - n - 16 - c` bytes at `b` and a new block of `n + c` bytes at `b + (S - n - c)`. -/
theorem splitBlock_spec (s : HeapAllocator) (b n S c : Nat)
    (hS : s.getBlockSize b = S) (hc : (b + (S - n) + 8) % s.alignment = c)
    (hn : 8 ≤ n) (hfit : b + S + 16 ≤ W) (hroom : n + 48 + c ≤ S) :
    ∃ s', s.splitBlock b n = (b + (S - n - c), s') ∧
      s'.getBlockSize (b + (S - n - c)) = n + c ∧
      s'.getBlockSize b = S - n - 16 - c ∧
      s'.reserve = s.reserve ∧ s'.alignment = s.alignment := by
  have hSlt : S < 2 ^ 61 := hS ▸ getBlockSize_lt s b
  have hW : S < W := by rw [W_eq]; omega
  have e1 : wsub (wsub S n) BlockOverheadSize = S - n - 16 := by
    rw [wsub_eq S n (by omega) hW, BlockOverheadSize_eq, wsub_eq _ _ (by omega) (by omega)]
  have e2 : wadd (S - n - 16) BlockOverheadSize = S - n := by
    rw [BlockOverheadSize_eq, wadd_eq _ _ (by omega)]
    omega
  have e3 : wadd (wadd b (S - n)) BlockHeaderSize % s.alignment = c := by
    rw [BlockHeaderSize_eq, wadd_eq b _ (by omega), wadd_eq _ _ (by omega), hc]
  have e4 : wsub (S - n - 16) c = S - n - 16 - c := wsub_eq _ _ (by omega) (by omega)
  have e5 : wsub (S - n) c = S - n - c := wsub_eq _ _ (by omega) (by omega)
  have e6 : wadd n c = n + c := wadd_eq _ _ (by omega)
  have e7 : wadd b (S - n - c) = b + (S - n - c) := wadd_eq _ _ (by omega)
  have e8 : ¬ (S - n - 16 - c < MinAllocationSize + BlockOverheadSize) := by
    rw [MinAllocationSize_eq, BlockOverheadSize_eq]
    omega
  have hsb : s.splitBlock b n = (b + (S - n - c),
      ((((s.setBlockSize b (S - n - 16 - c)).reconcileFooter b).initBlock (b + (S - n - c))
        (n + c) (((s.setBlockSize b (S - n - 16 - c)).reconcileFooter b).isBlockExternal b)
        ).setBlockFencePost (b + (S - n - c)) false)) := by
    unfold splitBlock
    dsimp only
    rw [hS, e1, e2, e3, e4, e5, e6, e7, if_neg e8]
  have h1 : (s.setBlockSize b (S - n - 16 - c)).getBlockSize b = S - n - 16 - c :=
    getBlockSize_setBlockSize _ _ _ (by omega)
  refine ⟨_, hsb, ?_, ?_, rfl, rfl⟩
  · rw [getBlockSize_setBlockFencePost, getBlockSize_initBlock _ _ _ _ (by omega)]
  · rw [getBlockSize_setBlockFencePost_other _ _ _ _ (sep_of_le b _ (by omega) (by omega)).2,
      getBlockSize_initBlock_other _ _ _ _ _ (by omega) (by omega) (by omega) (by omega),
      getBlockSize_reconcileFooter_other, h1]
    unfold getBlockFooter
    rw [h1, BlockHeaderSize_eq]
    unfold Sep wsub wadd
    rw [W_eq] at *
    omega

theorem orElse_some (r : Nat × HeapAllocator) (h : r.1 ≠ 0)
    (next : HeapAllocator → Option (Nat × HeapAllocator)) :
    HeapAllocator.orElse (some r) next = some r := by
  unfold HeapAllocator.orElse
  rw [Option.some_bind, if_pos h]

theorem isSmallAlloc_eq_true (n : Nat) : (isSmallAlloc n = true) = (n ≤ 255) := by
  unfold isSmallAlloc
  rw [MaxSmallBinSize_eq, decide_eq_true_eq]

/-- Splitting the reserve when the remainder stays a tree-bin size: the reserve keeps its
place and the block split off its end is returned. -/
theorem splitReserveBlock_of_split (fuel : Nat) (s s' : HeapAllocator) (n x : Nat)
    (hsb : s.splitBlock s.reserve n = (x, s')) (hr : s'.reserve = s.reserve)
    (hx : x ≠ s.reserve) (hbig : 255 < s'.getBlockSize s.reserve) :
    splitReserveBlock fuel s n = some (x, s') := by
  have hbig2 : ¬ (isSmallAlloc (s'.getBlockSize s.reserve) = true) := by
    rw [isSmallAlloc_eq_true]
    omega
  unfold splitReserveBlock
  dsimp only
  rw [hsb]
  dsimp only
  rw [hr, if_neg hx, if_neg hbig2]

/-- The reserve path of the allocation cascade, given the outcome of the split. -/
theorem allocFromReserve_of_split (fuel : Nat) (s s' : HeapAllocator) (n x : Nat)
    (hres : s.reserve ≠ 0) (hw : ¬ (s.getBlockSize s.reserve < wadd n BlockOverheadSize))
    (hsp : splitReserveBlock fuel s n = some (x, s')) :
    allocFromReserve fuel s n = some (getBlockData x, s'.setBlockAllocated x true) := by
  unfold allocFromReserve
  dsimp only
  rw [if_pos hres, if_neg hw, hsp, Option.some_bind]


/-! ## Small requests -/

set_option maxRecDepth 1000000 in
/-- On a default allocator `allocate(0)` returns a non-null pointer to a block whose
recorded size is 16: every request is raised to `MinAllocationSize`. -/
theorem allocate_zero_bytes_block_size :
    ((create 50 65536 4 4096 0x100000000 4096).bind fun s0 =>
      (allocate 50 s0 0).map fun r => (decide (r.1 ≠ 0), r.2.getBlockSize (getDataHeader r.1))) =
      some (true, 16) ∧ ¬ ((16 : Nat) < 0 + 8) := by
  decide!

/-- A request of at most 255 bytes that no small bin can serve and that the reserve can
serve with a tree-sized remainder is answered with a non-null pointer to a block whose
recorded size is the request raised to `MinAllocationSize` plus an alignment correction
smaller than the allocator's alignment. -/
theorem allocate_small_from_reserve_size (fuel : Nat) (s : HeapAllocator) (n a o : Nat)
    (hn : n ≤ MaxSmallBinSize)
    (hbins : ∀ i, getBinIndex (max n MinAllocationSize) ≤ i → i < NumSmallBins →
      s.binMap.testBit i = false)
    (hA : 0 < s.alignment)
    (hres : s.reserve ≠ 0)
    (hfit : s.reserve + s.getBlockSize s.reserve + BlockOverheadSize ≤ W)
    (hroom : max n MinAllocationSize + 272 + s.alignment ≤ s.getBlockSize s.reserve) :
    ∃ p s', allocate fuel s n a o = some (p, s') ∧ p ≠ 0 ∧
      max n MinAllocationSize ≤ s'.getBlockSize (getDataHeader p) ∧
      s'.getBlockSize (getDataHeader p) < max n MinAllocationSize + s.alignment := by
  rw [MinAllocationSize_eq] at hbins hroom ⊢
  rw [BlockOverheadSize_eq] at hfit
  have hc := Nat.mod_lt (s.reserve + (s.getBlockSize s.reserve - max n 16) + 8) hA
  have hlt := getBlockSize_lt s s.reserve
  have hn8 : 8 ≤ max n 16 := by omega
  obtain ⟨s', hsb, h2, h3, h4, _⟩ := splitBlock_spec s s.reserve (max n 16) _ _ rfl rfl hn8 hfit
    (by omega)
  generalize (s.reserve + (s.getBlockSize s.reserve - max n 16) + 8) % s.alignment = c at *
  generalize hSd : s.getBlockSize s.reserve = S at *
  have hw : ¬ (s.getBlockSize s.reserve < wadd (max n 16) BlockOverheadSize) := by
    rw [hSd, BlockOverheadSize_eq, wadd_eq _ _ (by rw [W_eq]; omega)]
    omega
  have hx8 : s.reserve + (S - max n 16 - c) + 8 < W := by
    rw [W_eq] at *
    omega
  have hsp := splitReserveBlock_of_split fuel s s' (max n 16) _ hsb h4 (by omega)
    (by rw [h3]; omega)
  have hr := allocFromReserve_of_split fuel s s' (max n 16) _ hres hw hsp
  have hd : getBlockData (s.reserve + (S - max n 16 - c)) = s.reserve + (S - max n 16 - c) + 8 := by
    unfold getBlockData
    rw [BlockHeaderSize_eq, wadd_eq _ 8 hx8]
  rw [hd] at hr
  have hsm : isSmallAlloc n = true := by
    rw [isSmallAlloc_eq_true]
    exact hn
  have hhdr : getDataHeader (s.reserve + (S - max n 16 - c) + 8)
      = s.reserve + (S - max n 16 - c) := by
    unfold getDataHeader
    rw [BlockHeaderSize_eq, wsub_eq _ _ (by omega) hx8]
    omega
  have hp : (s.reserve + (S - max n 16 - c) + 8,
      s'.setBlockAllocated (s.reserve + (S - max n 16 - c)) true).1 ≠ 0 := by
    show s.reserve + (S - max n 16 - c) + 8 ≠ 0
    omega
  refine ⟨s.reserve + (S - max n 16 - c) + 8,
    s'.setBlockAllocated (s.reserve + (S - max n 16 - c)) true, ?_, by omega, ?_, ?_⟩
  · unfold allocate
    dsimp only
    rw [if_pos hsm, MinAllocationSize_eq, allocFromSmallBin_none fuel s _ hbins, orElse_null, hr,
      orElse_some _ hp, orElse_some _ hp]
  · rw [hhdr, getBlockSize_setBlockAllocated, h2]
    omega
  · rw [hhdr, getBlockSize_setBlockAllocated, h2]
    omega

set_option maxRecDepth 1000000 in
theorem allocate_small_from_reserve_size_witness :
    defaultAllocator.binMap = 0 ∧ defaultAllocator.reserve = 0x100000028 ∧
    defaultAllocator.getBlockSize defaultAllocator.reserve = 69544 ∧
    ∃ p s', allocate 50 defaultAllocator 20 8 0 = some (p, s') ∧ p ≠ 0 ∧
      max 20 MinAllocationSize ≤ s'.getBlockSize (getDataHeader p) ∧
      s'.getBlockSize (getDataHeader p) < max 20 MinAllocationSize + defaultAllocator.alignment :=
  have hb : defaultAllocator.binMap = 0 := by decide!
  have hr : defaultAllocator.reserve = 0x100000028 := by decide!
  have hs : defaultAllocator.getBlockSize defaultAllocator.reserve = 69544 := by decide!
  have ha : defaultAllocator.alignment = 4 := by decide!
  ⟨hb, hr, hs, allocate_small_from_reserve_size 50 defaultAllocator 20 8 0 (by decide)
    (fun i _ _ => by rw [hb, Nat.zero_testBit])
    (by rw [ha]; decide) (by rw [hr]; decide) (by rw [hs, hr]; decide)
    (by rw [hs, ha]; decide)⟩

set_option maxRecDepth 1000000 in
/-- C6: on a default allocator, after `p = allocate(100)`, `allocate(16)` and
`release(p)`, the call `allocate(103)`, a request of at most 255 bytes, returns `p`
again: the recorded size of the block is 100, which is below the 103 bytes requested, so
`n ≤ s` fails.  `_allocFromSmallBin` starts its search at bin `103 / 8 = 12`, the bin of
the 100-byte block, and hands the block out without comparing sizes. -/
theorem allocate_small_returns_block_below_request :
    ((create 50 65536 4 4096 0x100000000 4096).bind fun s0 =>
      (runCalls 50 [Call.allocate 100, Call.allocate 16, Call.release 0, Call.allocate 103]
        s0 []).map fun r =>
        (r.1.getD 0 0, r.1.getD 2 0, r.2.getBlockSize (getDataHeader (r.1.getD 2 0)),
         r.2.isBlockAllocated (getDataHeader (r.1.getD 2 0)))) =
      some (0x100010f74, 0x100010f74, 100, true) ∧
    (103 : Nat) ≤ MaxSmallBinSize ∧ ¬ ((103 : Nat) ≤ 100) := by
  decide!

/-! ## The alignment and offset arguments -/

set_option maxRecDepth 1000000 in
/-- C7: on a default allocator `allocate(16, 4, 1)` returns `0x100010fc8`, and
`0x100010fc8 + 1` is 1 modulo 4: the pointer plus the offset is not aligned, although 4
is a power of two and the `Allocator` contract asks for `(p + o) mod a = 0`.  The
alignment and offset parameters of `HeapAllocator::allocate` are unnamed and never
read. -/
theorem allocate_ignores_requested_offset :
    ((create 50 65536 4 4096 0x100000000 4096).bind fun s0 =>
      (allocate 50 s0 16 4 1).map fun r => (r.1, (r.1 + 1) % 4)) =
      some (0x100010fc8, 1) := by
  decide!

/-! ## Exhaustion -/

/-- C8: with system allocation disabled, when no small bin searched for the request is
occupied, the reserve is absent or too small and every tree bin searched yields no block,
`allocate` returns the null pointer and the allocator, with the memory it manages, is
exactly as before. -/
theorem allocate_exhausted_returns_null (fuel : Nat) (s : HeapAllocator) (n a o : Nat)
    (hsys : s.doSystemAllocation = false)
    (hsmall : n ≤ MaxSmallBinSize → ∀ i, getBinIndex (max n MinAllocationSize) ≤ i →
      i < NumSmallBins → s.binMap.testBit i = false)
    (hreserve : n ≤ LargeAllocBoundary →
      s.reserve = 0 ∨ s.getBlockSize s.reserve < max n MinAllocationSize + BlockOverheadSize)
    (htree : n ≤ LargeAllocBoundary →
      ∀ i, max NumSmallBins (getBinIndex (max n MinAllocationSize)) ≤ i → i < NumBins →
        s.binMap.testBit i = true →
        findTreeBlock fuel s i (max n MinAllocationSize) = some 0) :
    allocate fuel s n a o = some (0, s) := by
  have hres : n ≤ LargeAllocBoundary →
      (if s.reserve ≠ 0 then s.getBlockSize s.reserve else 0) <
        wadd (max n MinAllocationSize) BlockOverheadSize := by
    intro hn
    have hw : wadd (max n MinAllocationSize) BlockOverheadSize =
        max n MinAllocationSize + BlockOverheadSize := by
      rw [LargeAllocBoundary_eq] at hn
      unfold wadd
      rw [W_eq, BlockOverheadSize_eq, MinAllocationSize_eq]
      omega
    rw [hw]
    rcases hreserve hn with h | h
    · rw [if_neg (by simp [h]), BlockOverheadSize_eq]
      omega
    · by_cases hr : s.reserve = 0
      · rw [if_neg (by simp [hr]), BlockOverheadSize_eq]
        omega
      · rw [if_pos hr]
        exact h
  unfold allocate
  dsimp only
  by_cases hsm : isSmallAlloc n = true
  · have hn : n ≤ MaxSmallBinSize := by simpa [isSmallAlloc] using hsm
    have hn2 : n ≤ LargeAllocBoundary := by
      rw [LargeAllocBoundary_eq]
      rw [MaxSmallBinSize_eq] at hn
      omega
    rw [if_pos hsm, allocFromSmallBin_none fuel s _ (hsmall hn), orElse_null,
      allocFromReserve_none fuel s _ (hres hn2), orElse_null,
      allocFromTreeBin_none fuel s _ (htree hn2), orElse_null, hsys]
    rfl
  · rw [if_neg hsm]
    by_cases hlg : isLargeAlloc n = false
    · have hn2 : n ≤ LargeAllocBoundary := by simpa [isLargeAlloc] using hlg
      rw [if_pos hlg, allocFromTreeBin_none fuel s _ (htree hn2), orElse_null,
        allocFromReserve_none fuel s _ (hres hn2), orElse_null, hsys]
      rfl
    · rw [if_neg hlg, orElse_null, hsys]
      rfl

set_option maxRecDepth 1000000 in
theorem allocate_exhausted_returns_null_witness :
    outOfMemoryState.doSystemAllocation = false ∧
    outOfMemoryState.getBlockSize outOfMemoryState.reserve = 2992 ∧
    outOfMemoryState.binMap = 0 ∧
    allocate 50 outOfMemoryState 4096 = some (0, outOfMemoryState) :=
  have hb : outOfMemoryState.binMap = 0 := by decide!
  have hr : outOfMemoryState.getBlockSize outOfMemoryState.reserve = 2992 := by decide!
  ⟨by decide!, hr, hb,
    allocate_exhausted_returns_null 50 outOfMemoryState 4096 8 0 (by decide!)
      (fun h => absurd h (by decide))
      (fun _ => Or.inr (by rw [hr]; decide))
      (fun _ i _ _ hi => by rw [hb, Nat.zero_testBit] at hi; exact Bool.noConfusion hi)⟩

/-! ## External segments -/

set_option maxRecDepth 1000000 in
/-- C9: on a default allocator `allocate(69568)`, a request below 32 MiB, maps a new
segment at `0x100012000` whose block is too small to split; the wrapped split writes the
block header over the segment record (its `next` field reads `0xA000000000010FC0`), the
pointer returned is `segment + 24`, and `getStats` no longer terminates on the segment
list, so the count of external segments is not left unchanged. -/
theorem allocate_wraps_split_in_new_segment :
    ((create 50 65536 4 4096 0x100000000 4096).bind fun s0 =>
      (allocate 50 s0 69568).map fun r =>
        (r.1, r.2.rd 0x100012000 segOffNext, getStats 50 r.2)) =
      some (0x100012000 + 24, 0xA000000000010FC0, none) := by
  decide!

set_option maxRecDepth 1000000 in
/-- C10: on an allocator with 1 KiB initial size, `allocate(20 MiB)` leaves
`numExternalSegments` at 0: it does not increase by 1. -/
theorem allocate_20MiB_is_not_external :
    ((create 50 1024 4 4096 0x100000000 4096).bind fun s0 =>
      (getStats 50 s0).bind fun before =>
        (allocate 50 s0 (20 * 1024 * 1024)).bind fun r =>
          (getStats 50 r.2).map fun after =>
            (before.numExternalSegments, after.numExternalSegments)) = some (0, 0) ∧
    (0 : Nat) ≠ 0 + 1 := by
  decide!

set_option maxRecDepth 1000000 in
/-- C10 (amended): on a `HeapAllocator` constructed with initial size 1 KiB the call
`allocate(20 MiB)` returns a block and leaves `numExternalSegments` unchanged, at 0, and
the release of the pointer leaves it unchanged again.  This holds when the operating
system places the new mapping directly behind the first segment (first entry: the two
are merged and `numRegularSegments` stays 1) and when it places it 4 KiB or 1 MiB
further (second and third entry: a second regular segment appears).  For each placement
the lists give the counts before the allocation, after it and after the release. -/
theorem allocate_20MiB_external_count_unchanged :
    ([0, 4096, 1024 * 1024].map fun gap =>
      (create 50 1024 4 4096 0x100000000 gap).bind fun s0 =>
        (getStats 50 s0).bind fun before =>
          (allocate 50 s0 (20 * 1024 * 1024)).bind fun r =>
            (getStats 50 r.2).bind fun after =>
              (release 50 r.2 r.1).bind fun s2 =>
                (getStats 50 s2).map fun released =>
                  (decide (r.1 ≠ 0),
                   [before.numExternalSegments, after.numExternalSegments,
                    released.numExternalSegments],
                   [before.numRegularSegments, after.numRegularSegments,
                    released.numRegularSegments])) =
      [some (true, [0, 0, 0], [1, 1, 1]), some (true, [0, 0, 0], [1, 2, 2]),
       some (true, [0, 0, 0], [1, 2, 2])] := by
  decide!

set_option maxRecDepth 1000000 in
/-- C11: on a default allocator two external allocations of 35 MiB and 33 MiB are made
and released in the order they were made.  After the first release one external segment
is left; after the second release `getStats` still reports one external segment, and the
segment of the second allocation (48 bytes in front of its pointer) is still the
successor of the head segment. -/
theorem release_external_leaves_segment_linked :
    ((runCalls 50 [Call.allocate (35 * 1024 * 1024), Call.allocate (33 * 1024 * 1024)]
        defaultAllocator []).bind fun r =>
      (release 50 r.2 (r.1.getD 0 0)).bind fun s2 =>
        (release 50 s2 (r.1.getD 1 0)).bind fun s3 =>
          (getStats 50 r.2).bind fun st1 =>
            (getStats 50 s2).bind fun st2 =>
              (getStats 50 s3).map fun st3 =>
                (st1.numExternalSegments, st2.numExternalSegments, st3.numExternalSegments,
                  s3.rd s3.headSegment segOffNext + 48, r.1.getD 1 0)) =
      some (2, 1, 1, 4331749424, 4331749424) := by
  decide!

set_option maxRecDepth 1000000 in
/-- C12: after `clear()` on a default allocator, whose only segment is mapped at
`0x100000000` and ends at `0x100000000 + 69632`, the first block has size 69568; the
block walk does not stop there: the next block it visits is the footer word of the old
fence post at `0x100000000 + 69624`, and the one after that lies beyond the mapping. -/
theorem clear_block_walk_leaves_segment :
    ((clear 50 defaultAllocator).map fun s =>
      (s.headSegment, s.rd s.headSegment segOffSize + sizeofSegment,
        s.getBlockSize (s.getFirstSegmentBlock s.headSegment),
        s.getNextBlock (s.getFirstSegmentBlock s.headSegment),
        s.getNextBlock (s.getNextBlock (s.getFirstSegmentBlock s.headSegment)))) =
      some (0x100000000, 69632, 69568, 0x100000000 + 69624, 0x100000000 + 69656) ∧
    (0x100000000 + 69632 : Nat) ≤ 0x100000000 + 69656 := by
  decide!

set_option maxRecDepth 1000000 in
/-- C20: the statistics of a default allocator, and those after `allocate(1024)`. -/
theorem getStats_default_allocator :
    getStats 50 defaultAllocator =
      some { allocatedBytes := 0, freeBytes := 69544, overheadBytes := 56,
             allocatedBlocks := 0, freeBlocks := 1, numRegularSegments := 1,
             numExternalSegments := 0 } ∧
    ((allocate 50 defaultAllocator 1024).bind fun r => getStats 50 r.2) =
      some { allocatedBytes := 1024, freeBytes := 68504, overheadBytes := 72,
             allocatedBlocks := 1, freeBlocks := 1, numRegularSegments := 1,
             numExternalSegments := 0 } := by
  decide!

set_option maxRecDepth 1000000 in
/-- C22: on a default allocator after `enableBlockMerging(false)` the flag
`_doBlockMerging` is still set; `p = allocate(1024)` leaves two blocks, and `release(p)`
merges the freed block with its free neighbour: one block is left. -/
theorem enableBlockMerging_does_not_stop_merging :
    ((allocate 50 (defaultAllocator.enableBlockMerging false) 1024).bind fun r =>
      (release 50 r.2 r.1).bind fun s2 =>
        (getBlocks 50 r.2).bind fun before =>
          (getBlocks 50 s2).map fun after =>
            ((defaultAllocator.enableBlockMerging false).doBlockMerging,
              before.length, after.length)) = some (true, 2, 1) := by
  decide!

set_option maxRecDepth 1000000 in
/-- C28: in a `HeapAllocator(65536, 32)` the free block at `0x100010f98` has 48 bytes.
For the request 20 the alignment correction is 28, so the remainder over the integers is
`48 - 20 - 16 - 28 = -16`, below 32; `_splitBlock` nevertheless rewrites the block: its
header word changes from 48 to `2 ^ 61 + 48`, the external flag now set. -/
theorem splitBlock_wraps_remainder :
    (alignment32State.getBlockSize 0x100010f98, alignment32State.isBlockAllocated 0x100010f98,
      alignment32State.alignment, (0x100010f98 + (48 - 20) + 8) % 32,
      alignment32State.rd 0x100010f98 0) = (48, false, 32, 28, 48) ∧
    ((48 : Int) - 20 - 16 - 28 < 32) ∧ (20 : Nat) + BlockOverheadSize ≤ 48 ∧
    ((alignment32State.splitBlock 0x100010f98 20).1,
      (alignment32State.splitBlock 0x100010f98 20).2.rd 0x100010f98 0) =
      (0x100010f98, 2 ^ 61 + 48) := by
  decide!

/-! ## The bin index -/

theorem bitLength_zero (fuel : Nat) : util.bitLength fuel 0 = 0 := by
  cases fuel <;> simp [util.bitLength]

theorem bitLength_eq (k : Nat) : ∀ fuel x, k < fuel → 2 ^ k ≤ x → x < 2 ^ (k + 1) →
    util.bitLength fuel x = k + 1 := by
  induction k with
  | zero =>
    intro fuel x hf hlo hhi
    obtain ⟨f, rfl⟩ : ∃ f, fuel = f + 1 := ⟨fuel - 1, by omega⟩
    have hx : x = 1 := by omega
    subst hx
    simp [util.bitLength, bitLength_zero]
  | succ k ih =>
    intro fuel x hf hlo hhi
    obtain ⟨f, rfl⟩ : ∃ f, fuel = f + 1 := ⟨fuel - 1, by omega⟩
    have hpos : 0 < 2 ^ k := Nat.two_pow_pos k
    have h2 : 2 ^ (k + 1) = 2 * 2 ^ k := by rw [Nat.pow_succ]; omega
    have h3 : 2 ^ (k + 1 + 1) = 2 * 2 ^ (k + 1) := by rw [Nat.pow_succ 2 (k + 1)]; omega
    have hx0 : x ≠ 0 := by omega
    have hrec := ih f (x / 2) (by omega) (by omega) (by omega)
    rw [util.bitLength, if_neg hx0, hrec]
    omega

theorem findLastSet_eq (n k : Nat) (hk : k < 64) (hlo : 2 ^ k ≤ n) (hhi : n < 2 ^ (k + 1)) :
    util.findLastSet n = k + 1 := by
  have hW : n < W := by
    have : 2 ^ (k + 1) ≤ 2 ^ 64 := Nat.pow_le_pow_right (by omega) (by omega)
    rw [W_eq]
    omega
  unfold util.findLastSet
  rw [Nat.mod_eq_of_lt hW]
  exact bitLength_eq k 64 n hk hlo hhi

theorem checkBit_eq_testBit (x i : Nat) (hi : i < 64) : util.checkBit x i = x.testBit i := by
  unfold util.checkBit
  rw [wshl_one, if_pos hi, Nat.and_two_pow]
  have hpos : 0 < 2 ^ i := Nat.two_pow_pos i
  cases x.testBit i
  · simp
  · simp

theorem MaxTreeBinSize_eq : MaxTreeBinSize = 16383 := rfl
theorem NumBins_eq : NumBins = 64 := rfl

/-- The tree-bin branch of `_getBinIndex` in plain arithmetic: `k` is the 1-based
position of the highest set bit of `n`. -/
theorem getBinIndex_tree_eq (n k : Nat) (h1 : 255 < n) (h2 : n < 16383)
    (hlo : 2 ^ (k - 1) ≤ n) (hhi : n < 2 ^ k) :
    getBinIndex n = k + 23 + (k - 9) + (if n.testBit (k - 2) then 1 else 0) := by
  have hk9 : 9 ≤ k := by
    by_contra hlt
    have : 2 ^ k ≤ 2 ^ 8 := Nat.pow_le_pow_right (by omega) (by omega)
    omega
  have hk14 : k ≤ 14 := by
    by_contra hlt
    have : 2 ^ 14 ≤ 2 ^ (k - 1) := Nat.pow_le_pow_right (by omega) (by omega)
    omega
  have hfls : util.findLastSet n = k := by
    have := findLastSet_eq n (k - 1) (by omega) hlo (by rw [Nat.sub_add_cancel (by omega)]; exact hhi)
    omega
  have hsm : ¬ (isSmallAlloc n = true) := by
    rw [isSmallAlloc_eq_true]
    omega
  unfold getBinIndex
  dsimp only
  rw [if_neg hsm, MaxTreeBinSize_eq, if_pos h2, hfls,
    wsub_eq k 2 (by omega) (by rw [W_eq]; omega), wsub_eq k 9 hk9 (by rw [W_eq]; omega),
    wadd_eq k 23 (by rw [W_eq]; omega), wadd_eq (k + 23) (k - 9) (by rw [W_eq]; omega),
    wadd_eq _ 1 (by rw [W_eq]; omega), checkBit_eq_testBit n (k - 2) (by omega)]
  cases n.testBit (k - 2) <;> simp

/-- Every positive `n` lies between two consecutive powers of two. -/
theorem exists_highest_bit (n : Nat) (hn : 0 < n) : ∃ k, 2 ^ k ≤ n ∧ n < 2 ^ (k + 1) :=
  ⟨Nat.log 2 n, Nat.pow_log_le_self 2 (by omega), Nat.lt_pow_succ_log_self (by omega) n⟩

theorem getBinIndex_small (n : Nat) (h : n ≤ 255) : getBinIndex n = n / 8 := by
  have hsm : isSmallAlloc n = true := by
    rw [isSmallAlloc_eq_true]
    exact h
  unfold getBinIndex
  rw [if_pos hsm]

theorem getBinIndex_large (n : Nat) (h : 16383 ≤ n) : getBinIndex n = 63 := by
  have hsm : ¬ (isSmallAlloc n = true) := by
    rw [isSmallAlloc_eq_true]
    omega
  unfold getBinIndex
  rw [if_neg hsm, MaxTreeBinSize_eq, if_neg (by omega)]
  rfl

/-- The tree-bin branch with the bit test written as a quotient. -/
theorem getBinIndex_tree_arith (n k : Nat) (h1 : 255 < n) (h2 : n < 16383)
    (hlo : 2 ^ (k - 1) ≤ n) (hhi : n < 2 ^ k) :
    9 ≤ k ∧ k ≤ 14 ∧ getBinIndex n = 2 * k + 14 + n / 2 ^ (k - 2) % 2 := by
  have hk9 : 9 ≤ k := by
    by_contra hlt
    have : 2 ^ k ≤ 2 ^ 8 := Nat.pow_le_pow_right (by omega) (by omega)
    omega
  have hk14 : k ≤ 14 := by
    by_contra hlt
    have : 2 ^ 14 ≤ 2 ^ (k - 1) := Nat.pow_le_pow_right (by omega) (by omega)
    omega
  refine ⟨hk9, hk14, ?_⟩
  rw [getBinIndex_tree_eq n k h1 h2 hlo hhi, Nat.testBit_to_div_mod]
  have ht : n / 2 ^ (k - 2) % 2 < 2 := Nat.mod_lt _ (by omega)
  by_cases hb : n / 2 ^ (k - 2) % 2 = 1
  · rw [decide_eq_true hb, if_pos rfl]
    omega
  · rw [decide_eq_false hb, if_neg (by simp)]
    omega

/-- For a size in the tree range, the quotient by a quarter of the enclosing power of
two is 2 or 3. -/
theorem quarter_quotient (n k : Nat) (hk : 2 ≤ k) (hlo : 2 ^ (k - 1) ≤ n) (hhi : n < 2 ^ k) :
    2 ≤ n / 2 ^ (k - 2) ∧ n / 2 ^ (k - 2) < 4 := by
  have hpos : 0 < 2 ^ (k - 2) := Nat.two_pow_pos _
  have e1 : 2 ^ (k - 1) = 2 * 2 ^ (k - 2) := by
    rw [show k - 1 = (k - 2) + 1 by omega, Nat.pow_succ]
    omega
  have e2 : 2 ^ k = 4 * 2 ^ (k - 2) := by
    rw [show k = (k - 2) + 2 by omega, Nat.pow_add, Nat.add_sub_cancel]
    omega
  constructor
  · rw [Nat.le_div_iff_mul_le hpos]
    omega
  · rw [Nat.div_lt_iff_lt_mul hpos]
    omega

theorem getBinIndex_lt_NumBins (n : Nat) : getBinIndex n < 64 := by
  by_cases h1 : n ≤ 255
  · rw [getBinIndex_small n h1]
    omega
  by_cases h2 : 16383 ≤ n
  · rw [getBinIndex_large n h2]
    omega
  obtain ⟨k, hlo, hhi⟩ := exists_highest_bit n (by omega)
  obtain ⟨_, h14, he⟩ := getBinIndex_tree_arith n (k + 1) (by omega) (by omega) hlo hhi
  rw [he]
  omega

theorem getBinIndex_mono (m n : Nat) (hmn : m ≤ n) : getBinIndex m ≤ getBinIndex n := by
  by_cases hn2 : 16383 ≤ n
  · rw [getBinIndex_large n hn2]
    have := getBinIndex_lt_NumBins m
    omega
  by_cases hn1 : n ≤ 255
  · rw [getBinIndex_small n hn1, getBinIndex_small m (by omega)]
    omega
  obtain ⟨k, hlo, hhi⟩ := exists_highest_bit n (by omega)
  obtain ⟨hk9, hk14, he⟩ := getBinIndex_tree_arith n (k + 1) (by omega) (by omega) hlo hhi
  rw [he]
  by_cases hm1 : m ≤ 255
  · rw [getBinIndex_small m hm1]
    omega
  obtain ⟨j, hlo2, hhi2⟩ := exists_highest_bit m (by omega)
  obtain ⟨hj9, hj14, he2⟩ := getBinIndex_tree_arith m (j + 1) (by omega) (by omega) hlo2 hhi2
  rw [he2]
  have hjk : j ≤ k := by
    by_contra hlt
    have : 2 ^ (k + 1) ≤ 2 ^ j := Nat.pow_le_pow_right (by omega) (by omega)
    omega
  have hqm := quarter_quotient m (j + 1) (by omega) hlo2 hhi2
  have hqn := quarter_quotient n (k + 1) (by omega) hlo hhi
  by_cases hEq : j = k
  · subst hEq
    have hdiv : m / 2 ^ (j + 1 - 2) ≤ n / 2 ^ (j + 1 - 2) := Nat.div_le_div_right hmn
    omega
  · omega

/-- C14: `_getBinIndex(256)` is 32 and `findLastSet(256)` is 9; with `k = 9 - 1`, the
0-based index of the highest set bit, the formula `k + 23 + (k - 9)` plus the bit
`k - 2` gives 30, not 32. -/
theorem getBinIndex_256_not_zero_based_formula :
    getBinIndex 256 = 32 ∧ util.findLastSet 256 = 9 ∧
    ((9 - 1 : Int) + 23 + ((9 - 1) - 9) + (if Nat.testBit 256 (9 - 1 - 2) then 1 else 0) = 30) := by
  decide

/-- C14 (amended): for `255 < n < MaxTreeBinSize`, with `k = findLastSet(n)` the 1-based
position of the highest set bit of `n` (so `2 ^ (k - 1) ≤ n < 2 ^ k`), `_getBinIndex(n)`
is `k + 23 + (k - 9)`, plus 1 if bit `k - 2` of `n` is set. -/
theorem getBinIndex_tree_bin (n : Nat) (h1 : 255 < n) (h2 : n < MaxTreeBinSize) :
    2 ^ (util.findLastSet n - 1) ≤ n ∧ n < 2 ^ util.findLastSet n ∧
    getBinIndex n = util.findLastSet n + 23 + (util.findLastSet n - 9) +
      (if n.testBit (util.findLastSet n - 2) then 1 else 0) := by
  rw [MaxTreeBinSize_eq] at h2
  obtain ⟨k, hlo, hhi⟩ := exists_highest_bit n (by omega)
  have hk : k < 64 := by
    by_contra hlt
    have : 2 ^ 64 ≤ 2 ^ k := Nat.pow_le_pow_right (by omega) (by omega)
    omega
  rw [findLastSet_eq n k hk hlo hhi]
  exact ⟨hlo, hhi, getBinIndex_tree_eq n (k + 1) h1 h2 hlo hhi⟩

theorem getBinIndex_tree_bin_witness :
    2 ^ (util.findLastSet 1000 - 1) ≤ 1000 ∧ 1000 < 2 ^ util.findLastSet 1000 ∧
    getBinIndex 1000 = util.findLastSet 1000 + 23 + (util.findLastSet 1000 - 9) +
      (if Nat.testBit 1000 (util.findLastSet 1000 - 2) then 1 else 0) :=
  getBinIndex_tree_bin 1000 (by decide) (by decide)

/-- C15: `_getBinIndex(n)` is 32 exactly for `256 ≤ n < 384`. -/
theorem getBinIndex_eq_32_iff (n : Nat) : getBinIndex n = 32 ↔ 256 ≤ n ∧ n < 384 := by
  by_cases h1 : n ≤ 255
  · rw [getBinIndex_small n h1]
    omega
  by_cases h2 : 16383 ≤ n
  · rw [getBinIndex_large n h2]
    omega
  obtain ⟨k, hlo, hhi⟩ := exists_highest_bit n (by omega)
  obtain ⟨hk9, _, he⟩ := getBinIndex_tree_arith n (k + 1) (by omega) (by omega) hlo hhi
  rw [he]
  by_cases hk : k = 8
  · subst hk
    norm_num at hlo hhi ⊢
    omega
  · have : 2 ^ 9 ≤ 2 ^ k := Nat.pow_le_pow_right (by omega) (by omega)
    omega

/-- C16: `_getBinIndex` is monotonic non-decreasing (for all sizes `m ≤ n`, `m = 0`
included), and every bin index is below
`NumBins`. -/
theorem getBinIndex_monotone (m n : Nat) (hmn : m ≤ n) :
    getBinIndex m ≤ getBinIndex n ∧ getBinIndex n < NumBins :=
  ⟨getBinIndex_mono m n hmn, getBinIndex_lt_NumBins n⟩

theorem getBinIndex_monotone_witness :
    getBinIndex 100 ≤ getBinIndex 5000 ∧ getBinIndex 5000 < NumBins :=
  getBinIndex_monotone 100 5000 (by decide)

/-! ## `mem::align` -/

theorem two_pow_dvd_W (k : Nat) (hk : k < 64) : 2 ^ k ∣ W := by
  rw [W_eq]
  exact Nat.pow_dvd_pow 2 (by omega)

theorem pred_mod_of_dvd (a n : Nat) (ha : 0 < a) (hn : 0 < n) (h : a ∣ n) :
    (n - 1) % a = a - 1 := by
  obtain ⟨c, rfl⟩ := h
  have hcpos : 0 < c := Nat.pos_of_mul_pos_left hn
  have e : a * c - 1 = a * (c - 1) + (a - 1) := by
    have : a * c = a * (c - 1) + a := by
      rw [← Nat.mul_succ]
      congr 1
      omega
    omega
  rw [e, Nat.mul_add_mod, Nat.mod_eq_of_lt (by omega)]

/-- For a power of two `a` and `x + a - 1` inside the word range, `align x a` is the
multiple of `a` in `[x, x + a)`. -/
theorem align_spec (x k : Nat) (hk : k < 64) (hx : x + 2 ^ k - 1 < W) :
    align x (2 ^ k) % 2 ^ k = 0 ∧ x ≤ align x (2 ^ k) ∧ align x (2 ^ k) < x + 2 ^ k := by
  have hpos : 0 < 2 ^ k := Nat.two_pow_pos k
  have haW : 2 ^ k < W := by
    rw [W_eq]
    exact Nat.pow_lt_pow_right (by omega) hk
  generalize ha : 2 ^ k = a at *
  have hdvd : a ∣ W := ha ▸ two_pow_dvd_W k hk
  have h1 : wsub (wadd x a) 1 = x + a - 1 := by
    unfold wsub wadd
    rw [W_eq] at *
    omega
  unfold align
  rw [h1]
  by_cases hx0 : x = 0
  · subst hx0
    have h2 : wsub 0 1 % a = a - 1 := by
      have e : wsub 0 1 = W - 1 := rfl
      rw [e]
      exact pred_mod_of_dvd a W hpos (by rw [W_eq]; omega) hdvd
    rw [h2, wsub_eq _ _ (by omega) (by omega)]
    refine ⟨?_, by omega, by omega⟩
    rw [show 0 + a - 1 - (a - 1) = 0 by omega]
    exact Nat.zero_mod a
  · have h2 : wsub x 1 = x - 1 := wsub_eq x 1 (by omega) (by omega)
    have hr : (x - 1) % a < a := Nat.mod_lt _ hpos
    have hd : a * ((x - 1) / a) + (x - 1) % a = x - 1 := Nat.div_add_mod (x - 1) a
    rw [h2, wsub_eq _ _ (by omega) (by omega)]
    have e : x + a - 1 - (x - 1) % a = a * ((x - 1) / a + 1) := by
      rw [Nat.mul_succ]
      omega
    refine ⟨?_, by omega, by omega⟩
    rw [e]
    exact Nat.mul_mod_right a _

/-- A multiple of `a` in `[x, x + a)` is the smallest multiple of `a` that is at least
`x`, and is `x` itself when `x` is a multiple of `a`. -/
theorem multiple_in_window (a x y : Nat) (hy : y % a = 0) (h1 : x ≤ y)
    (h2 : y < x + a) : (∀ m, m % a = 0 → x ≤ m → y ≤ m) ∧ (x % a = 0 → y = x) := by
  have hmin : ∀ m, m % a = 0 → x ≤ m → y ≤ m := by
    intro m hm hxm
    by_contra hlt
    obtain ⟨i, hi⟩ := Nat.dvd_of_mod_eq_zero hy
    obtain ⟨j, hj⟩ := Nat.dvd_of_mod_eq_zero hm
    have hji : j < i := by
      by_contra hge
      have : a * i ≤ a * j := Nat.mul_le_mul_left a (by omega)
      omega
    have : a * (j + 1) ≤ a * i := Nat.mul_le_mul_left a (by omega)
    rw [Nat.mul_succ] at this
    omega
  refine ⟨hmin, fun hx => ?_⟩
  have := hmin x hx (Nat.le_refl x)
  omega

/-- C24: for a power-of-two alignment `a` and `x + a - 1` not overflowing, `mem::align`
returns a multiple of `a` that is at least `x` and exceeds `x` by less than `a`, and
returns `x` itself when `x` is a multiple of `a`. -/
theorem align_is_next_multiple (x k : Nat) (hk : k < 64) (hx : x + 2 ^ k - 1 < W) :
    align x (2 ^ k) % 2 ^ k = 0 ∧ x ≤ align x (2 ^ k) ∧ align x (2 ^ k) - x < 2 ^ k ∧
    (x % 2 ^ k = 0 → align x (2 ^ k) = x) := by
  obtain ⟨h1, h2, h3⟩ := align_spec x k hk hx
  exact ⟨h1, h2, by omega, (multiple_in_window (2 ^ k) x _ h1 h2 h3).2⟩

theorem align_is_next_multiple_witness :
    align 1001 (2 ^ 2) % 2 ^ 2 = 0 ∧ 1001 ≤ align 1001 (2 ^ 2) ∧
    align 1001 (2 ^ 2) - 1001 < 2 ^ 2 ∧ (1001 % 2 ^ 2 = 0 → align 1001 (2 ^ 2) = 1001) :=
  align_is_next_multiple 1001 2 (by decide) (by decide)

/-! ## `PageAllocator` and `MallocAllocator` -/

/-- The offset both allocators add brings an address to the next multiple of the
alignment. -/
theorem add_alignOffset_mod (t a : Nat) (ha : 0 < a) (haW : a < W) :
    (t + wsub a (t % a) % a) % a = 0 := by
  have hr : t % a < a := Nat.mod_lt _ ha
  rw [wsub_eq _ _ (by omega) haW, Nat.add_mod, Nat.mod_mod]
  by_cases h0 : t % a = 0
  · rw [h0, Nat.sub_zero, Nat.mod_self]
    exact Nat.zero_mod a
  · rw [Nat.mod_eq_of_lt (show a - t % a < a by omega), show t % a + (a - t % a) = a by omega,
      Nat.mod_self]


theorem two_pow_lt_W (k : Nat) (hk : k < 64) : 2 ^ k < W := by
  rw [W_eq]
  exact Nat.pow_lt_pow_right (by omega) hk

/-- Addition modulo `2 ^ 64` agrees with plain addition modulo a smaller power of two. -/
theorem wadd_modEq (x y k : Nat) (hk : k < 64) : wadd x y ≡ x + y [MOD 2 ^ k] :=
  Nat.ModEq.of_dvd (two_pow_dvd_W k hk) (Nat.mod_modEq (x + y) W)

theorem wsub_add_modEq (x y k : Nat) (hk : k < 64) : wsub x y + y ≡ x [MOD 2 ^ k] := by
  have h1 : wsub x y + y % W ≡ x % W + W [MOD W] := by
    unfold wsub
    have hy : y % W < W := Nat.mod_lt _ (by rw [W_eq]; omega)
    have h0 := (Nat.mod_modEq (x % W + W - y % W) W).add_right (y % W)
    have e : x % W + W - y % W + y % W = x % W + W := by omega
    rw [e] at h0
    exact h0
  have h2 : wsub x y + y % W ≡ x % W + W [MOD 2 ^ k] := Nat.ModEq.of_dvd (two_pow_dvd_W k hk) h1
  have h3 : y % W ≡ y [MOD 2 ^ k] := Nat.ModEq.of_dvd (two_pow_dvd_W k hk) (Nat.mod_modEq y W)
  have h4 : x % W ≡ x [MOD 2 ^ k] := Nat.ModEq.of_dvd (two_pow_dvd_W k hk) (Nat.mod_modEq x W)
  have h5 : W ≡ 0 [MOD 2 ^ k] := (Nat.modEq_zero_iff_dvd).2 (two_pow_dvd_W k hk)
  calc wsub x y + y ≡ wsub x y + y % W [MOD 2 ^ k] := Nat.ModEq.add_left _ h3.symm
    _ ≡ x % W + W [MOD 2 ^ k] := h2
    _ ≡ x + 0 [MOD 2 ^ k] := Nat.ModEq.add h4 h5
    _ = x := Nat.add_zero x

/-- The pointer of `PageAllocator::allocate`, moved by the offset, is aligned. -/
theorem pageAllocator_aligned (pageSize allocMem size offset k : Nat) (hk : k < 64) :
    wadd (PageAllocator.allocate pageSize allocMem size (2 ^ k) offset).mem offset % 2 ^ k
      = 0 := by
  have hpos : 0 < 2 ^ k := Nat.two_pow_pos k
  have key := add_alignOffset_mod (wadd (wadd allocMem PageAllocator.sizeofSegment) offset)
    (2 ^ k) hpos (two_pow_lt_W k hk)
  unfold PageAllocator.allocate
  dsimp only
  generalize wsub (2 ^ k) (wadd (wadd allocMem PageAllocator.sizeofSegment) offset % 2 ^ k)
    % 2 ^ k = ao at key ⊢
  have h1 : wadd (wadd (wadd allocMem ao) PageAllocator.sizeofSegment) offset
      ≡ allocMem + ao + PageAllocator.sizeofSegment + offset [MOD 2 ^ k] :=
    (wadd_modEq _ _ k hk).trans (((wadd_modEq _ _ k hk).trans
      ((wadd_modEq _ _ k hk).add_right _)).add_right _)
  have h2 : wadd (wadd allocMem PageAllocator.sizeofSegment) offset + ao
      ≡ allocMem + PageAllocator.sizeofSegment + offset + ao [MOD 2 ^ k] :=
    ((wadd_modEq _ _ k hk).trans ((wadd_modEq _ _ k hk).add_right _)).add_right _
  have e : allocMem + ao + PageAllocator.sizeofSegment + offset
      = allocMem + PageAllocator.sizeofSegment + offset + ao := by omega
  rw [e] at h1
  have h3 := h1.trans h2.symm
  unfold Nat.ModEq at h3
  rw [h3, key]

/-- The pointer of `MallocAllocator::allocate`, moved by the offset, is aligned. -/
theorem mallocAllocator_aligned (alloc size offset k : Nat) (hk : k < 64) :
    wadd (MallocAllocator.allocate alloc size (2 ^ k) offset).retMem offset % 2 ^ k = 0 := by
  have hpos : 0 < 2 ^ k := Nat.two_pow_pos k
  have key := add_alignOffset_mod
    (wadd (wadd (wadd alloc MallocAllocator.sizeofAlignOffsetField)
      MallocAllocator.sizeofSizeField) offset) (2 ^ k) hpos (two_pow_lt_W k hk)
  unfold MallocAllocator.allocate
  dsimp only
  generalize wsub (2 ^ k) (wadd (wadd (wadd alloc MallocAllocator.sizeofAlignOffsetField)
      MallocAllocator.sizeofSizeField) offset % 2 ^ k) % 2 ^ k = ao at key ⊢
  generalize wadd (wadd (wadd alloc MallocAllocator.sizeofAlignOffsetField)
      MallocAllocator.sizeofSizeField) offset = pre at key ⊢
  have h1 : wadd (wsub (wadd pre ao) offset) offset ≡ pre + ao [MOD 2 ^ k] :=
    (wadd_modEq _ _ k hk).trans ((wsub_add_modEq _ _ k hk).trans (wadd_modEq _ _ k hk))
  unfold Nat.ModEq at h1
  rw [h1, key]

/-- C25: for every size, power-of-two alignment `a = 2 ^ k` and offset `o`, whatever
address the system hands out, the pointer `p` returned by `PageAllocator::allocate` and
by `MallocAllocator::allocate` satisfies `(p + o) mod a = 0` (the sum taken as the machine
computes it, modulo `2 ^ 64`). -/
theorem page_and_malloc_allocate_aligned (pageSize allocMem size offset k : Nat)
    (hk : k < 64) :
    wadd (PageAllocator.allocate pageSize allocMem size (2 ^ k) offset).mem offset % 2 ^ k
      = 0 ∧
    wadd (MallocAllocator.allocate allocMem size (2 ^ k) offset).retMem offset % 2 ^ k = 0 :=
  ⟨pageAllocator_aligned pageSize allocMem size offset k hk,
    mallocAllocator_aligned allocMem size offset k hk⟩

theorem page_and_malloc_allocate_aligned_witness :
    wadd (PageAllocator.allocate 4096 0x7f0000001000 100 (2 ^ 4) 13).mem 13 % 2 ^ 4 = 0 ∧
    wadd (MallocAllocator.allocate 0x7f0000001000 100 (2 ^ 4) 13).retMem 13 % 2 ^ 4 = 0 :=
  page_and_malloc_allocate_aligned 4096 0x7f0000001000 100 13 4 (by decide)

/-! ## `LinearAllocator` -/

/-- C27: a region with the `BoundsChecking` policy (`SizeFront = 4`) whose inner
allocator answered `allocate` with the pointer 4096 returns 4100; `release(4100)` then
passes 4100, not 4096, to the inner `getAllocationSize` and `release`, although it
computes the original pointer 4096 for the bounds check. -/
theorem region_release_passes_shifted_pointer :
    (Region.allocate BoundsChecking.SizeFront BoundsChecking.SizeBack 4096 100 8).innerOffset
      = 4 ∧
    (Region.allocate BoundsChecking.SizeFront BoundsChecking.SizeBack 4096 100 8).result
      = 4100 ∧
    Region.release BoundsChecking.SizeFront 4100 108 =
      { getAllocationSizeArg := 4100, checkFront := 4096, checkBack := 4208,
        releaseArg := 4100 } ∧
    (4100 : Nat) ≠ 4096 := by
  decide

/-! ## Header words: flags -/

theorem wadd_zero_eq (p : Nat) (h : p < W) : wadd p 0 = p := wadd_eq p 0 h

/-- A write does not change a word that lies apart from it. -/
theorem rd_wr_ne (s : HeapAllocator) (p off v q off' : Nat)
    (h : p + off + 8 ≤ q + off' ∨ q + off' + 8 ≤ p + off)
    (h1 : p + off + 8 ≤ W) (h2 : q + off' + 8 ≤ W) :
    (s.wr p off v).rd q off' = s.rd q off' := by
  apply rd_wr_other
  unfold Sep wsub wadd
  rw [W_eq] at *
  omega

/-- Bit `k` of the header word of `block`. -/
theorem and_two_pow_beq (h k : Nat) : ((h &&& 2 ^ k) == 2 ^ k) = h.testBit k := by
  rw [Nat.and_two_pow]
  have hpos : 0 < 2 ^ k := Nat.two_pow_pos k
  cases h.testBit k
  · simp
    omega
  · simp

theorem isBlockAllocated_eq (s : HeapAllocator) (b : Nat) :
    s.isBlockAllocated b = (s.rd b 0).testBit 63 := by
  unfold isBlockAllocated
  rw [BlockAllocatedBitMask_eq, and_two_pow_beq]

theorem isBlockFencePost_eq (s : HeapAllocator) (b : Nat) :
    s.isBlockFencePost b = (s.rd b 0).testBit 62 := by
  unfold isBlockFencePost
  rw [BlockFencePostBitMask_eq, and_two_pow_beq]

theorem isBlockExternal_eq (s : HeapAllocator) (b : Nat) :
    s.isBlockExternal b = (s.rd b 0).testBit 61 := by
  unfold isBlockExternal
  rw [BlockExternalBitMask_eq, and_two_pow_beq]

/-- Bits of a header word after one flag is set to `c`. -/
theorem testBit_setFlag (h k i : Nat) (c : Bool) (hk : k < 64) (hi : i < 64) :
    (((h &&& wnot (2 ^ k)) ||| wmul (2 ^ k) (if c then 1 else 0)) % W).testBit i
      = if i = k then c else h.testBit i := by
  rw [W_eq, Nat.testBit_mod_two_pow, Nat.testBit_or, Nat.testBit_and,
    testBit_wnot_two_pow k i hk, wmul_two_pow_bit k hk]
  by_cases hik : i = k
  · subst hik
    cases c <;> simp [hi, Nat.testBit_two_pow]
  · have hki : ¬ k = i := fun e => hik e.symm
    cases c <;> simp [hi, hik, hki, Nat.testBit_two_pow]

/-- The flag bits of a header word after the size field is set. -/
theorem testBit_setSize (h size i : Nat) (hs : size < 2 ^ 61) (hi : 61 ≤ i) (hi2 : i < 64) :
    (((h &&& BlockFlagsBitMask) ||| size) % W).testBit i = h.testBit i := by
  have : size < 2 ^ i := Nat.lt_of_lt_of_le hs (Nat.pow_le_pow_right (by omega) hi)
  rw [W_eq, Nat.testBit_mod_two_pow, Nat.testBit_or, Nat.testBit_and, BlockFlagsBitMask_eq,
    Nat.testBit_two_pow_sub_succ (by omega), Nat.testBit_two_pow_sub_one,
    Nat.testBit_lt_two_pow this]
  simp [hi2]
  omega

theorem flag_setBlockSize (s : HeapAllocator) (b size i : Nat) (hs : size < 2 ^ 61)
    (hi : 61 ≤ i) (hi2 : i < 64) :
    ((s.setBlockSize b size).rd b 0).testBit i = (s.rd b 0).testBit i := by
  unfold setBlockSize
  rw [rd_wr_same, testBit_setSize _ _ _ hs hi hi2]

theorem flag_setBlockAllocated (s : HeapAllocator) (b i : Nat) (c : Bool) (hi : i < 64) :
    ((s.setBlockAllocated b c).rd b 0).testBit i
      = if i = 63 then c else (s.rd b 0).testBit i := by
  unfold setBlockAllocated
  rw [rd_wr_same, BlockAllocatedBitMask_eq, testBit_setFlag _ 63 i c (by omega) hi]

theorem flag_setBlockFencePost (s : HeapAllocator) (b i : Nat) (c : Bool) (hi : i < 64) :
    ((s.setBlockFencePost b c).rd b 0).testBit i
      = if i = 62 then c else (s.rd b 0).testBit i := by
  unfold setBlockFencePost
  rw [rd_wr_same, BlockFencePostBitMask_eq, testBit_setFlag _ 62 i c (by omega) hi]

theorem flag_setBlockExternal (s : HeapAllocator) (b i : Nat) (c : Bool) (hi : i < 64) :
    ((s.setBlockExternal b c).rd b 0).testBit i
      = if i = 61 then c else (s.rd b 0).testBit i := by
  unfold setBlockExternal
  rw [rd_wr_same, BlockExternalBitMask_eq, testBit_setFlag _ 61 i c (by omega) hi]

/-! ## Words away from a header operation -/

theorem rd_setBlockSize_ne (s : HeapAllocator) (x size q off : Nat)
    (h : x + 8 ≤ q + off ∨ q + off + 8 ≤ x) (h1 : x + 8 ≤ W) (h2 : q + off + 8 ≤ W) :
    (s.setBlockSize x size).rd q off = s.rd q off :=
  rd_wr_ne s x 0 _ q off (by omega) (by omega) h2

theorem rd_setBlockAllocated_ne (s : HeapAllocator) (x q off : Nat) (c : Bool)
    (h : x + 8 ≤ q + off ∨ q + off + 8 ≤ x) (h1 : x + 8 ≤ W) (h2 : q + off + 8 ≤ W) :
    (s.setBlockAllocated x c).rd q off = s.rd q off :=
  rd_wr_ne s x 0 _ q off (by omega) (by omega) h2

theorem rd_setBlockFencePost_ne (s : HeapAllocator) (x q off : Nat) (c : Bool)
    (h : x + 8 ≤ q + off ∨ q + off + 8 ≤ x) (h1 : x + 8 ≤ W) (h2 : q + off + 8 ≤ W) :
    (s.setBlockFencePost x c).rd q off = s.rd q off :=
  rd_wr_ne s x 0 _ q off (by omega) (by omega) h2

theorem rd_setBlockExternal_ne (s : HeapAllocator) (x q off : Nat) (c : Bool)
    (h : x + 8 ≤ q + off ∨ q + off + 8 ≤ x) (h1 : x + 8 ≤ W) (h2 : q + off + 8 ≤ W) :
    (s.setBlockExternal x c).rd q off = s.rd q off :=
  rd_wr_ne s x 0 _ q off (by omega) (by omega) h2

/-- The footer of a block whose recorded size is `size`. -/
theorem getBlockFooter_eq (s : HeapAllocator) (x size : Nat) (hs : s.getBlockSize x = size)
    (h : x + 8 + size < W) : s.getBlockFooter x = x + 8 + size := by
  unfold getBlockFooter
  rw [hs, BlockHeaderSize_eq, wadd_eq x 8 (by omega), wadd_eq _ _ h]

/-- `_reconcileFooter` as one write. -/
theorem reconcileFooter_eq (s : HeapAllocator) (x size : Nat) (hs : s.getBlockSize x = size)
    (h : x + 8 + size < W) : s.reconcileFooter x = s.wr (x + 8 + size) 0 size := by
  unfold reconcileFooter
  rw [getBlockFooter_eq s x size hs h, hs]

theorem getBlockSize_congr (s s' : HeapAllocator) (b : Nat) (h : s'.rd b 0 = s.rd b 0) :
    s'.getBlockSize b = s.getBlockSize b := by
  unfold getBlockSize
  rw [h]

theorem getFooterSize_eq (s : HeapAllocator) (f v : Nat) (h : s.rd f 0 = v) (hv : v < 2 ^ 61) :
    s.getFooterSize f = v := by
  unfold getFooterSize
  rw [h, and_sizeMask, Nat.mod_eq_of_lt hv]

/-! ## `_splitBlock`, the split branch in full -/

/-- What `_initBlock` leaves behind: header, footer and list pointers of the block, and
every word outside the block untouched. -/
theorem initBlock_spec (s : HeapAllocator) (x m : Nat) (e : Bool)
    (hm : 16 ≤ m) (hm2 : m < 2 ^ 61) (hx : x + m + 16 ≤ W) :
    (s.initBlock x m e).getBlockSize x = m ∧
    ((s.initBlock x m e).rd x 0).testBit 63 = false ∧
    ((s.initBlock x m e).rd x 0).testBit 62 = (s.rd x 0).testBit 62 ∧
    ((s.initBlock x m e).rd x 0).testBit 61 = e ∧
    (s.initBlock x m e).rd (x + 8 + m) 0 = m ∧
    (s.initBlock x m e).rd x offNext = 0 ∧
    (s.initBlock x m e).rd x offPrev = 0 ∧
    (∀ q off, q + off + 8 ≤ x ∨ x + m + 16 ≤ q + off → q + off + 8 ≤ W →
      (s.initBlock x m e).rd q off = s.rd q off) ∧
    s.initBlock x m e = { s with mem := (s.initBlock x m e).mem } := by
  have hW : (2 : Nat) ^ 61 < W := by rw [W_eq]; omega
  have hsz3 : (((s.setBlockSize x m).setBlockAllocated x false).setBlockExternal x e).getBlockSize x
      = m := by
    rw [getBlockSize_setBlockExternal, getBlockSize_setBlockAllocated,
      getBlockSize_setBlockSize _ _ _ hm2]
  have hinit : s.initBlock x m e =
      (((((s.setBlockSize x m).setBlockAllocated x false).setBlockExternal x e).wr
        (x + 8 + m) 0 m).wr x offNext 0).wr x offPrev 0 := by
    unfold initBlock
    dsimp only
    rw [reconcileFooter_eq _ x m hsz3 (by omega)]
  rw [hinit, offNext_eq, offPrev_eq]
  have hhdr : ∀ v1 v2 v3 (t : HeapAllocator),
      (((t.wr (x + 8 + m) 0 v1).wr x 8 v2).wr x 16 v3).rd x 0 = t.rd x 0 := by
    intro v1 v2 v3 t
    rw [rd_wr_ne _ _ _ _ _ _ (by omega) (by omega) (by omega),
      rd_wr_ne _ _ _ _ _ _ (by omega) (by omega) (by omega),
      rd_wr_ne _ _ _ _ _ _ (by omega) (by omega) (by omega)]
  refine ⟨?_, ?_, ?_, ?_, ?_, ?_, ?_, ?_, rfl⟩
  · rw [getBlockSize_congr _ _ x (hhdr _ _ _ _), hsz3]
  · rw [hhdr, flag_setBlockExternal _ _ 63 _ (by omega), if_neg (by omega),
      flag_setBlockAllocated _ _ 63 _ (by omega), if_pos rfl]
  · rw [hhdr, flag_setBlockExternal _ _ 62 _ (by omega), if_neg (by omega),
      flag_setBlockAllocated _ _ 62 _ (by omega), if_neg (by omega),
      flag_setBlockSize _ _ _ 62 hm2 (by omega) (by omega)]
  · rw [hhdr, flag_setBlockExternal _ _ 61 _ (by omega), if_pos rfl]
  · rw [rd_wr_ne _ _ _ _ _ _ (by omega) (by omega) (by omega),
      rd_wr_ne _ _ _ _ _ _ (by omega) (by omega) (by omega), rd_wr_same,
      Nat.mod_eq_of_lt (by omega)]
  · rw [rd_wr_ne _ _ _ _ _ _ (by omega) (by omega) (by omega), rd_wr_same]
    rfl
  · rw [rd_wr_same]
    rfl
  · intro q off hq hqW
    rw [rd_wr_ne _ _ _ _ _ _ (by omega) (by omega) (by omega),
      rd_wr_ne _ _ _ _ _ _ (by omega) (by omega) (by omega),
      rd_wr_ne _ _ _ _ _ _ (by omega) (by omega) (by omega),
      rd_setBlockExternal_ne _ _ _ _ _ (by omega) (by omega) hqW,
      rd_setBlockAllocated_ne _ _ _ _ _ (by omega) (by omega) hqW,
      rd_setBlockSize_ne _ _ _ _ _ (by omega) (by omega) hqW]

/-- The split branch of `_splitBlock` in full: for a block `b` of size `S`, a request
`n ≥ 16`, alignment correction `c` and a remainder of at least 32 bytes, the state after
the split, with the header, footer and list pointers of both blocks and every word it
leaves untouched. -/
theorem splitBlock_split (s : HeapAllocator) (b n S c : Nat)
    (hS : s.getBlockSize b = S) (hc : (b + (S - n) + 8) % s.alignment = c)
    (hn : 16 ≤ n) (hfit : b + S + 16 ≤ W) (hroom : n + 48 + c ≤ S) :
    ∃ s', s.splitBlock b n = (b + (S - n - c), s') ∧
      s' = { s with mem := s'.mem } ∧
      s'.getBlockSize b = S - n - 16 - c ∧
      (∀ i, 61 ≤ i → i < 64 → (s'.rd b 0).testBit i = (s.rd b 0).testBit i) ∧
      s'.rd (b + 8 + (S - n - 16 - c)) 0 = S - n - 16 - c ∧
      s'.getBlockSize (b + (S - n - c)) = n + c ∧
      (s'.rd (b + (S - n - c)) 0).testBit 63 = false ∧
      (s'.rd (b + (S - n - c)) 0).testBit 62 = false ∧
      (s'.rd (b + (S - n - c)) 0).testBit 61 = (s.rd b 0).testBit 61 ∧
      s'.rd (b + (S - n - c) + 8 + (n + c)) 0 = n + c ∧
      s'.rd (b + (S - n - c)) offNext = 0 ∧
      s'.rd (b + (S - n - c)) offPrev = 0 ∧
      (∀ q off, q + off + 8 ≤ b ∨ (b + 8 ≤ q + off ∧ q + off ≤ b + (S - n - 16 - c)) ∨
          b + S + 16 ≤ q + off → q + off + 8 ≤ W → s'.rd q off = s.rd q off) := by
  have hSlt : S < 2 ^ 61 := hS ▸ getBlockSize_lt s b
  have hW61 : (2 : Nat) ^ 61 < W := by rw [W_eq]; omega
  have hW : S < W := by omega
  have e1 : wsub (wsub S n) BlockOverheadSize = S - n - 16 := by
    rw [wsub_eq S n (by omega) hW, BlockOverheadSize_eq, wsub_eq _ _ (by omega) (by omega)]
  have e2 : wadd (S - n - 16) BlockOverheadSize = S - n := by
    rw [BlockOverheadSize_eq, wadd_eq _ _ (by omega)]
    omega
  have e3 : wadd (wadd b (S - n)) BlockHeaderSize % s.alignment = c := by
    rw [BlockHeaderSize_eq, wadd_eq b _ (by omega), wadd_eq _ _ (by omega), hc]
  have e4 : wsub (S - n - 16) c = S - n - 16 - c := wsub_eq _ _ (by omega) (by omega)
  have e5 : wsub (S - n) c = S - n - c := wsub_eq _ _ (by omega) (by omega)
  have e6 : wadd n c = n + c := wadd_eq _ _ (by omega)
  have e7 : wadd b (S - n - c) = b + (S - n - c) := wadd_eq _ _ (by omega)
  have e8 : ¬ (S - n - 16 - c < MinAllocationSize + BlockOverheadSize) := by
    rw [MinAllocationSize_eq, BlockOverheadSize_eq]
    omega
  have h1 : (s.setBlockSize b (S - n - 16 - c)).getBlockSize b = S - n - 16 - c :=
    getBlockSize_setBlockSize _ _ _ (by omega)
  have hsb : s.splitBlock b n = (b + (S - n - c),
      ((((s.setBlockSize b (S - n - 16 - c)).wr (b + 8 + (S - n - 16 - c)) 0
          (S - n - 16 - c)).initBlock (b + (S - n - c)) (n + c)
        (((s.setBlockSize b (S - n - 16 - c)).wr (b + 8 + (S - n - 16 - c)) 0
          (S - n - 16 - c)).isBlockExternal b)).setBlockFencePost (b + (S - n - c)) false)) := by
    unfold splitBlock
    dsimp only
    rw [hS, e1, e2, e3, e4, e5, e6, e7, if_neg e8, reconcileFooter_eq _ b _ h1 (by omega)]
  rw [hsb]
  generalize hrem : S - n - 16 - c = rem at *
  generalize hx : b + (S - n - c) = x at *
  generalize hm : n + c = m at *
  have hxb : x = b + rem + 16 := by omega
  obtain ⟨s2, hs2⟩ : ∃ s2, s2 = (s.setBlockSize b rem).wr (b + 8 + rem) 0 rem := ⟨_, rfl⟩
  rw [← hs2]
  have h2hdr : s2.rd b 0 = (s.setBlockSize b rem).rd b 0 := by
    rw [hs2, rd_wr_ne _ _ _ _ _ _ (by omega) (by omega) (by omega)]
  have h2foot : s2.rd (b + 8 + rem) 0 = rem := by
    rw [hs2, rd_wr_same, Nat.mod_eq_of_lt (by omega)]
  have h2frame : ∀ q off, q + off + 8 ≤ b ∨ (b + 8 ≤ q + off ∧ q + off ≤ b + rem) ∨
      b + S + 16 ≤ q + off → q + off + 8 ≤ W → s2.rd q off = s.rd q off := by
    intro q off hq hqW
    rw [hs2, rd_wr_ne _ _ _ _ _ _ (by omega) (by omega) (by omega),
      rd_setBlockSize_ne _ _ _ _ _ (by omega) (by omega) hqW]
  have h2flag : ∀ i, 61 ≤ i → i < 64 → (s2.rd b 0).testBit i = (s.rd b 0).testBit i := by
    intro i hi hi2
    rw [h2hdr, flag_setBlockSize _ _ _ _ (by omega) hi hi2]
  have h2eq : s2 = { s with mem := s2.mem } := by
    rw [hs2]
    rfl
  obtain ⟨i1, i2, i3, i4, i5, i6, i7, i8, i9⟩ :=
    initBlock_spec s2 x m (s2.isBlockExternal b) (by omega) (by omega) (by omega)
  generalize s2.initBlock x m (s2.isBlockExternal b) = s3 at *
  have hfin : ∀ q off, q + off + 8 ≤ x ∨ x + 8 ≤ q + off → q + off + 8 ≤ W →
      (s3.setBlockFencePost x false).rd q off = s3.rd q off := by
    intro q off hq hqW
    exact rd_setBlockFencePost_ne _ _ _ _ _ (by omega) (by omega) hqW
  refine ⟨_, rfl, ?_, ?_, ?_, ?_, ?_, ?_, ?_, ?_, ?_, ?_, ?_, ?_⟩
  · rw [i9, h2eq]
    rfl
  · rw [getBlockSize_congr _ _ b ((hfin b 0 (by omega) (by omega)).trans
      (i8 b 0 (by omega) (by omega))), getBlockSize_congr _ _ b h2hdr,
      getBlockSize_setBlockSize _ _ _ (by omega)]
  · intro i hi hi2
    rw [hfin b 0 (by omega) (by omega), i8 b 0 (by omega) (by omega), h2flag i hi hi2]
  · rw [hfin _ 0 (by omega) (by omega), i8 _ 0 (by omega) (by omega), h2foot]
  · rw [getBlockSize_setBlockFencePost, i1]
  · rw [flag_setBlockFencePost _ _ 63 _ (by omega), if_neg (by omega), i2]
  · rw [flag_setBlockFencePost _ _ 62 _ (by omega), if_pos rfl]
  · rw [flag_setBlockFencePost _ _ 61 _ (by omega), if_neg (by omega), i4, isBlockExternal_eq,
      h2flag 61 (by omega) (by omega)]
  · rw [hfin _ 0 (by omega) (by omega), i5]
  · rw [hfin _ _ (by rw [offNext_eq]; omega) (by rw [offNext_eq]; omega), i6]
  · rw [hfin _ _ (by rw [offPrev_eq]; omega) (by rw [offPrev_eq]; omega), i7]
  · intro q off hq hqW
    rw [hfin q off (by omega) hqW, i8 q off (by omega) hqW, h2frame q off (by omega) hqW]

theorem checkBlock_of_footer (s : HeapAllocator) (x size : Nat) (hs : s.getBlockSize x = size)
    (hf : s.rd (x + 8 + size) 0 = size) (h : x + 8 + size < W) : s.checkBlock x = true := by
  have hlt : size < 2 ^ 61 := hs ▸ getBlockSize_lt s x
  have hfs : s.getFooterSize (s.getBlockFooter x) = size := by
    rw [getBlockFooter_eq s x size hs h]
    exact getFooterSize_eq s _ size hf hlt
  unfold checkBlock
  rw [hs, hfs, if_neg (by simp)]

theorem sub_mod_self_mod (t a : Nat) : (t - t % a) % a = 0 := by
  have h := Nat.div_add_mod t a
  have e : t - t % a = a * (t / a) := by omega
  rw [e]
  exact Nat.mul_mod_right a _

/-- When `_splitBlock(b, n)` splits a block of size `S` (request `n` at least
`MinAllocationSize`, alignment correction `a`, remainder `S - n - overhead - a` at least
`MinAllocationSize + overhead`, the block inside the address space), the new block starts
at `b + (S - n - a)` and has size `n + a`, the original keeps its address with size
`S - n - overhead - a`, the two sizes and one overhead sum to `S`, both blocks pass
`_checkBlock` (footer size equals header size), the payload of the new block is a multiple
of the alignment, and the new block has the external flag of the original and is neither
allocated nor a fence post. -/
theorem splitBlock_split_properties (s : HeapAllocator) (b n S a : Nat)
    (hS : s.getBlockSize b = S) (ha : (b + (S - n) + BlockHeaderSize) % s.alignment = a)
    (hn : MinAllocationSize ≤ n) (hfit : b + S + BlockOverheadSize ≤ W)
    (hsplit : n + BlockOverheadSize + a + (MinAllocationSize + BlockOverheadSize) ≤ S) :
    ∃ s', s.splitBlock b n = (b + (S - n - a), s') ∧
      s'.getBlockSize (b + (S - n - a)) = n + a ∧
      s'.getBlockSize b = S - n - BlockOverheadSize - a ∧
      (n + a) + (S - n - BlockOverheadSize - a) + BlockOverheadSize = S ∧
      s'.checkBlock b = true ∧ s'.checkBlock (b + (S - n - a)) = true ∧
      getBlockData (b + (S - n - a)) % s.alignment = 0 ∧
      s'.isBlockExternal (b + (S - n - a)) = s.isBlockExternal b ∧
      s'.isBlockAllocated (b + (S - n - a)) = false ∧
      s'.isBlockFencePost (b + (S - n - a)) = false := by
  rw [MinAllocationSize_eq] at hn hsplit
  rw [BlockOverheadSize_eq] at hfit hsplit ⊢
  rw [BlockHeaderSize_eq] at ha
  obtain ⟨s', h0, _, h2, _, h4, h5, h6, h7, h8, h9, _, _, _⟩ :=
    splitBlock_split s b n S a hS ha hn hfit (by omega)
  refine ⟨s', h0, h5, h2, by omega, ?_, ?_, ?_, ?_, ?_, ?_⟩
  · exact checkBlock_of_footer s' b _ h2 h4 (by omega)
  · exact checkBlock_of_footer s' _ _ h5 h9 (by omega)
  · unfold getBlockData
    rw [BlockHeaderSize_eq, wadd_eq _ _ (by omega), ← ha]
    have hle : (b + (S - n) + 8) % s.alignment ≤ S - n := by
      rw [ha]
      omega
    have e : b + (S - n - (b + (S - n) + 8) % s.alignment) + 8
        = (b + (S - n) + 8) - (b + (S - n) + 8) % s.alignment := by omega
    rw [e]
    exact sub_mod_self_mod _ _
  · rw [isBlockExternal_eq, isBlockExternal_eq, h8]
  · rw [isBlockAllocated_eq, h6]
  · rw [isBlockFencePost_eq, h7]

set_option maxRecDepth 1000000 in
theorem splitBlock_split_properties_witness :
    ∃ s', defaultAllocator.splitBlock 0x100000028 1024 = (0x100000028 + (69544 - 1024 - 0), s') ∧
      s'.getBlockSize (0x100000028 + (69544 - 1024 - 0)) = 1024 + 0 ∧
      s'.getBlockSize 0x100000028 = 69544 - 1024 - BlockOverheadSize - 0 ∧
      (1024 + 0) + (69544 - 1024 - BlockOverheadSize - 0) + BlockOverheadSize = 69544 ∧
      s'.checkBlock 0x100000028 = true ∧
      s'.checkBlock (0x100000028 + (69544 - 1024 - 0)) = true ∧
      getBlockData (0x100000028 + (69544 - 1024 - 0)) % defaultAllocator.alignment = 0 ∧
      s'.isBlockExternal (0x100000028 + (69544 - 1024 - 0))
        = defaultAllocator.isBlockExternal 0x100000028 ∧
      s'.isBlockAllocated (0x100000028 + (69544 - 1024 - 0)) = false ∧
      s'.isBlockFencePost (0x100000028 + (69544 - 1024 - 0)) = false :=
  splitBlock_split_properties defaultAllocator 0x100000028 1024 69544 0 (by decide!)
    (by decide!) (by decide) (by decide) (by decide)

/-! ## `_mergeBlocks` -/

/-- Giving a block the size `total` and reconciling its footer: the header keeps its
flags, the footer agrees, and the footer lies at `b + 8 + total`. -/
theorem setSize_reconcile_spec (s : HeapAllocator) (b total : Nat) (ht : total < 2 ^ 61)
    (hfit : b + total + 16 ≤ W) :
    ((s.setBlockSize b total).reconcileFooter b).getBlockSize b = total ∧
    ((s.setBlockSize b total).reconcileFooter b).isBlockAllocated b = s.isBlockAllocated b ∧
    ((s.setBlockSize b total).reconcileFooter b).isBlockFencePost b = s.isBlockFencePost b ∧
    ((s.setBlockSize b total).reconcileFooter b).isBlockExternal b = s.isBlockExternal b ∧
    ((s.setBlockSize b total).reconcileFooter b).checkBlock b = true ∧
    ((s.setBlockSize b total).reconcileFooter b).getBlockFooter b = b + 8 + total := by
  have h1 : (s.setBlockSize b total).getBlockSize b = total :=
    getBlockSize_setBlockSize _ _ _ ht
  rw [reconcileFooter_eq _ b total h1 (by omega)]
  have hhdr : ((s.setBlockSize b total).wr (b + 8 + total) 0 total).rd b 0
      = (s.setBlockSize b total).rd b 0 :=
    rd_wr_ne _ _ _ _ _ _ (by omega) (by omega) (by omega)
  have hsz : ((s.setBlockSize b total).wr (b + 8 + total) 0 total).getBlockSize b = total := by
    rw [getBlockSize_congr _ _ b hhdr, h1]
  have hft : ((s.setBlockSize b total).wr (b + 8 + total) 0 total).rd (b + 8 + total) 0
      = total := by
    rw [rd_wr_same, Nat.mod_eq_of_lt (by rw [W_eq]; omega)]
  refine ⟨hsz, ?_, ?_, ?_, checkBlock_of_footer _ b total hsz hft (by omega),
    getBlockFooter_eq _ b total hsz (by omega)⟩
  · rw [isBlockAllocated_eq, isBlockAllocated_eq, hhdr,
      flag_setBlockSize _ _ _ 63 ht (by omega) (by omega)]
  · rw [isBlockFencePost_eq, isBlockFencePost_eq, hhdr,
      flag_setBlockSize _ _ _ 62 ht (by omega) (by omega)]
  · rw [isBlockExternal_eq, isBlockExternal_eq, hhdr,
      flag_setBlockSize _ _ _ 61 ht (by omega) (by omega)]

theorem mergeBlocks_two_eq (s : HeapAllocator) (b1 b2 : Nat)
    (h : s.getBlockSize b1 + s.getBlockSize b2 + 16 < 2 ^ 61) :
    s.mergeBlocks [b1, b2] = (b1, (s.setBlockSize b1
      (s.getBlockSize b1 + s.getBlockSize b2 + 16)).reconcileFooter b1) := by
  have hW : (2 : Nat) ^ 62 < W := by rw [W_eq]; omega
  unfold mergeBlocks
  dsimp only [List.foldl, List.headD]
  rw [BlockOverheadSize_eq, wadd_eq (s.getBlockSize b1) 16 (by omega),
    wadd_eq (s.getBlockSize b2) 16 (by omega), wadd_eq 0 _ (by omega),
    wadd_eq _ _ (by omega), wsub_eq _ 16 (by omega) (by omega)]
  have e : 0 + (s.getBlockSize b1 + 16) + (s.getBlockSize b2 + 16) - 16
      = s.getBlockSize b1 + s.getBlockSize b2 + 16 := by omega
  rw [e]

theorem mergeBlocks_three_eq (s : HeapAllocator) (b1 b2 b3 : Nat)
    (h : s.getBlockSize b1 + s.getBlockSize b2 + s.getBlockSize b3 + 32 < 2 ^ 61) :
    s.mergeBlocks [b1, b2, b3] = (b1, (s.setBlockSize b1
      (s.getBlockSize b1 + s.getBlockSize b2 + s.getBlockSize b3 + 32)).reconcileFooter b1) := by
  have hW : (2 : Nat) ^ 62 < W := by rw [W_eq]; omega
  unfold mergeBlocks
  dsimp only [List.foldl, List.headD]
  rw [BlockOverheadSize_eq, wadd_eq (s.getBlockSize b1) 16 (by omega),
    wadd_eq (s.getBlockSize b2) 16 (by omega), wadd_eq (s.getBlockSize b3) 16 (by omega),
    wadd_eq 0 _ (by omega), wadd_eq _ (s.getBlockSize b2 + 16) (by omega),
    wadd_eq _ (s.getBlockSize b3 + 16) (by omega), wsub_eq _ 16 (by omega) (by omega)]
  have e : 0 + (s.getBlockSize b1 + 16) + (s.getBlockSize b2 + 16) + (s.getBlockSize b3 + 16) - 16
      = s.getBlockSize b1 + s.getBlockSize b2 + s.getBlockSize b3 + 32 := by omega
  rw [e]

/-- C30: merging two or three physically consecutive blocks (the second at the first's
address plus its size plus one overhead, and so on; all inside the address space, the
merged size at most `MaxAllocationSize`) yields one block at the leftmost address whose
size is the sum of the sizes plus one overhead per block absorbed, whose flags are those
of the leftmost input, which passes `_checkBlock` (footer size equals header size) and
whose footer is where the footer of the rightmost input was. -/
theorem mergeBlocks_consecutive (s : HeapAllocator) (b1 b2 b3 : Nat)
    (h12 : b2 = b1 + s.getBlockSize b1 + BlockOverheadSize)
    (h23 : b3 = b2 + s.getBlockSize b2 + BlockOverheadSize)
    (hfit : b3 + s.getBlockSize b3 + BlockOverheadSize ≤ W)
    (hmax : s.getBlockSize b1 + s.getBlockSize b2 + s.getBlockSize b3 + 2 * BlockOverheadSize
      ≤ MaxAllocationSize) :
    ((s.mergeBlocks [b1, b2]).1 = b1 ∧
      (s.mergeBlocks [b1, b2]).2.getBlockSize b1
        = s.getBlockSize b1 + s.getBlockSize b2 + BlockOverheadSize ∧
      (s.mergeBlocks [b1, b2]).2.isBlockAllocated b1 = s.isBlockAllocated b1 ∧
      (s.mergeBlocks [b1, b2]).2.isBlockFencePost b1 = s.isBlockFencePost b1 ∧
      (s.mergeBlocks [b1, b2]).2.isBlockExternal b1 = s.isBlockExternal b1 ∧
      (s.mergeBlocks [b1, b2]).2.checkBlock b1 = true ∧
      (s.mergeBlocks [b1, b2]).2.getBlockFooter b1 = s.getBlockFooter b2) ∧
    ((s.mergeBlocks [b1, b2, b3]).1 = b1 ∧
      (s.mergeBlocks [b1, b2, b3]).2.getBlockSize b1
        = s.getBlockSize b1 + s.getBlockSize b2 + s.getBlockSize b3 + 2 * BlockOverheadSize ∧
      (s.mergeBlocks [b1, b2, b3]).2.isBlockAllocated b1 = s.isBlockAllocated b1 ∧
      (s.mergeBlocks [b1, b2, b3]).2.isBlockFencePost b1 = s.isBlockFencePost b1 ∧
      (s.mergeBlocks [b1, b2, b3]).2.isBlockExternal b1 = s.isBlockExternal b1 ∧
      (s.mergeBlocks [b1, b2, b3]).2.checkBlock b1 = true ∧
      (s.mergeBlocks [b1, b2, b3]).2.getBlockFooter b1 = s.getBlockFooter b3) := by
  have hmaxe : MaxAllocationSize = 2 ^ 61 - 1 := BlockSizeBitMask_eq
  rw [BlockOverheadSize_eq] at h12 h23 hfit hmax ⊢
  rw [hmaxe] at hmax
  have hf2 : s.getBlockFooter b2 = b2 + 8 + s.getBlockSize b2 :=
    getBlockFooter_eq s b2 _ rfl (by omega)
  have hf3 : s.getBlockFooter b3 = b3 + 8 + s.getBlockSize b3 :=
    getBlockFooter_eq s b3 _ rfl (by omega)
  constructor
  · obtain ⟨a1, a2, a3, a4, a5, a6⟩ := setSize_reconcile_spec s b1
      (s.getBlockSize b1 + s.getBlockSize b2 + 16) (by omega) (by omega)
    rw [mergeBlocks_two_eq s b1 b2 (by omega)]
    refine ⟨rfl, a1, a2, a3, a4, a5, ?_⟩
    show HeapAllocator.getBlockFooter _ b1 = _
    rw [a6, hf2]
    omega
  · obtain ⟨a1, a2, a3, a4, a5, a6⟩ := setSize_reconcile_spec s b1
      (s.getBlockSize b1 + s.getBlockSize b2 + s.getBlockSize b3 + 32) (by omega) (by omega)
    rw [mergeBlocks_three_eq s b1 b2 b3 (by omega)]
    refine ⟨rfl, a1, a2, a3, a4, a5, ?_⟩
    show HeapAllocator.getBlockFooter _ b1 = _
    rw [a6, hf3]
    omega

/-! ## `_linkBlock` -/

theorem wr_reserve (s : HeapAllocator) (p off v : Nat) : (s.wr p off v).reserve = s.reserve := rfl

theorem linkTreeBlockLoop_reserve (s : HeapAllocator) (treeBlock blockSize : Nat) :
    ∀ fuel iter bits s', linkTreeBlockLoop s treeBlock blockSize fuel iter bits = some s' →
      s'.reserve = s.reserve := by
  intro fuel
  induction fuel with
  | zero =>
    intro iter bits s' h
    rw [linkTreeBlockLoop] at h
    exact Option.noConfusion h
  | succ fuel ih =>
    intro iter bits s' h
    rw [linkTreeBlockLoop] at h
    dsimp only at h
    by_cases h1 : s.rd iter (offChild (util.msb bits)) = 0
    · rw [if_pos h1] at h
      rw [← Option.some.inj h]
      simp only [wr_reserve]
    · rw [if_neg h1] at h
      by_cases h2 : s.getBlockSize (s.rd iter (offChild (util.msb bits))) = blockSize
      · rw [if_pos h2] at h
        rw [← Option.some.inj h]
        split
        · simp only [wr_reserve]
        · simp only [wr_reserve]
      · rw [if_neg h2] at h
        exact ih _ _ _ h

theorem linkTreeBlock_reserve (fuel : Nat) (s s' : HeapAllocator) (block binIndex : Nat)
    (h : linkTreeBlock fuel s block binIndex = some s') : s'.reserve = s.reserve := by
  unfold linkTreeBlock at h
  dsimp only at h
  by_cases h1 : s.bins binIndex = 0
  · rw [if_pos h1] at h
    rw [← Option.some.inj h]
    simp only [setBin, wr_reserve]
  · rw [if_neg h1] at h
    exact linkTreeBlockLoop_reserve s _ _ _ _ _ _ h

/-- Unlinking the reserve does not touch its header. -/
theorem getBlockSize_unlinkReserveBlock (s : HeapAllocator) :
    s.unlinkReserveBlock.2.getBlockSize s.reserve = s.getBlockSize s.reserve := by
  unfold unlinkReserveBlock
  dsimp only
  rw [getBlockSize_wr_other, getBlockSize_wr_other]
  · rfl
  · rw [offNext_eq]
    unfold Sep wsub wadd
    rw [W_eq]
    omega
  · rw [offPrev_eq]
    unfold Sep wsub wadd
    rw [W_eq]
    omega

theorem linkBlockToBins_small (fuel : Nat) (s : HeapAllocator) (b : Nat)
    (h : s.getBlockSize b ≤ 255) :
    linkBlockToBins fuel s b = some (s.linkSmallBlock b (s.getBlockSize b / 8)) := by
  have hsm : isSmallAlloc (s.getBlockSize b) = true := by
    rw [isSmallAlloc_eq_true]
    exact h
  unfold linkBlockToBins
  dsimp only
  rw [if_pos hsm, getBinIndex_small _ h]

theorem linkBlockToBins_tree (fuel : Nat) (s : HeapAllocator) (b : Nat)
    (h : 255 < s.getBlockSize b) :
    linkBlockToBins fuel s b = linkTreeBlock fuel s b (getBinIndex (s.getBlockSize b)) := by
  have hsm : ¬ (isSmallAlloc (s.getBlockSize b) = true) := by
    rw [isSmallAlloc_eq_true]
    omega
  unfold linkBlockToBins
  dsimp only
  rw [if_neg hsm]

theorem linkSmallBlock_bins (s : HeapAllocator) (b i : Nat) : (s.linkSmallBlock b i).bins i = b := by
  unfold linkSmallBlock setBin
  dsimp only
  rw [if_pos rfl]

theorem linkSmallBlock_reserve (s : HeapAllocator) (b i : Nat) :
    (s.linkSmallBlock b i).reserve = s.reserve := by
  unfold linkSmallBlock setBin
  dsimp only
  split
  · simp only [wr_reserve]
  · simp only [wr_reserve]

/-! ## The block walk in two states -/

theorem getNextBlock_eq (s : HeapAllocator) (block : Nat) :
    s.getNextBlock block
      = if s.isBlockFencePost (s.nextBlockAddr block) then 0 else s.nextBlockAddr block := rfl

/-- Two states in which the blocks of a walk have the same sizes and the same fence
posts behind them walk the same blocks. -/
theorem walkBlocks_congr (s s' : HeapAllocator) (segment : Nat) :
    ∀ fuel block blocks, walkBlocks s segment fuel block = some blocks →
      (∀ x ∈ blocks, s'.getBlockSize x.2 = s.getBlockSize x.2 ∧
        s'.isBlockFencePost (s.nextBlockAddr x.2) = s.isBlockFencePost (s.nextBlockAddr x.2)) →
      walkBlocks s' segment fuel block = some blocks := by
  intro fuel
  induction fuel with
  | zero =>
    intro block blocks h
    rw [walkBlocks] at h
    exact Option.noConfusion h
  | succ fuel ih =>
    intro block blocks h hx
    rw [walkBlocks] at h ⊢
    by_cases hb : block = 0
    · rw [if_pos hb] at h ⊢
      exact h
    · rw [if_neg hb] at h ⊢
      cases hrest : walkBlocks s segment fuel (s.getNextBlock block) with
      | none =>
        rw [hrest] at h
        exact Option.noConfusion h
      | some rest =>
        rw [hrest, Option.map_some'] at h
        have hbl : blocks = (segment, block) :: rest := (Option.some.inj h).symm
        subst hbl
        have hhead := hx (segment, block) (List.mem_cons_self _ _)
        have haddr : s'.nextBlockAddr block = s.nextBlockAddr block := by
          unfold nextBlockAddr
          rw [hhead.1]
        have hnext : s'.getNextBlock block = s.getNextBlock block := by
          rw [getNextBlock_eq, getNextBlock_eq, haddr, hhead.2]
        rw [hnext, ih _ rest hrest (fun x hxm => hx x (List.mem_cons_of_mem _ hxm)),
          Option.map_some']

/-- Two states with the same segment list words and, segment by segment, the same walk,
walk the same blocks. -/
theorem walkSegments_congr (fuel0 : Nat) (s s' : HeapAllocator) :
    ∀ fuel segment segments blocks, segmentList s fuel segment = some segments →
      walkSegments fuel0 s fuel segment = some blocks →
      (∀ g ∈ segments, s'.rd g segOffNext = s.rd g segOffNext ∧
        s'.getFirstSegmentBlock g = s.getFirstSegmentBlock g) →
      (∀ x ∈ blocks, s'.getBlockSize x.2 = s.getBlockSize x.2 ∧
        s'.isBlockFencePost (s.nextBlockAddr x.2) = s.isBlockFencePost (s.nextBlockAddr x.2)) →
      walkSegments fuel0 s' fuel segment = some blocks := by
  intro fuel
  induction fuel with
  | zero =>
    intro segment segments blocks h
    rw [segmentList] at h
    exact Option.noConfusion h
  | succ fuel ih =>
    intro segment segments blocks hsl hw hg hx
    rw [segmentList] at hsl
    rw [walkSegments] at hw ⊢
    by_cases hs : segment = 0
    · rw [if_pos hs] at hw ⊢
      exact hw
    · rw [if_neg hs] at hsl hw ⊢
      cases hsr : segmentList s fuel (s.rd segment segOffNext) with
      | none =>
        rw [hsr] at hsl
        exact Option.noConfusion hsl
      | some srest =>
        rw [hsr, Option.map_some'] at hsl
        have hsl2 : segments = segment :: srest := (Option.some.inj hsl).symm
        subst hsl2
        cases hbs : walkBlocks s segment fuel0 (s.getFirstSegmentBlock segment) with
        | none =>
          rw [hbs] at hw
          exact Option.noConfusion hw
        | some bs =>
          rw [hbs, Option.some_bind] at hw
          cases hrs : walkSegments fuel0 s fuel (s.rd segment segOffNext) with
          | none =>
            rw [hrs] at hw
            exact Option.noConfusion hw
          | some rest =>
            rw [hrs, Option.map_some'] at hw
            have hbl : blocks = bs ++ rest := (Option.some.inj hw).symm
            subst hbl
            have hseg := hg segment (List.mem_cons_self _ _)
            rw [hseg.2, hseg.1,
              walkBlocks_congr s s' segment fuel0 _ bs hbs
                (fun x hxm => hx x (List.mem_append_left _ hxm)),
              Option.some_bind,
              ih _ srest rest hsr hrs (fun g hgm => hg g (List.mem_cons_of_mem _ hgm))
                (fun x hxm => hx x (List.mem_append_right _ hxm)),
              Option.map_some']

/-- The inner loop of `getBlocks` in terms of the walk of one segment. -/
theorem getBlocksBlocks_eq_walk (s : HeapAllocator) (segment : Nat) :
    ∀ fuel block (acc : List Block),
      getBlocksBlocks s segment fuel block acc =
        (walkBlocks s segment fuel block).map fun blocks =>
          acc ++ blocks.map fun b => s.blockRecord b.1 b.2 := by
  intro fuel
  induction fuel with
  | zero => intro block acc; rfl
  | succ fuel ih =>
    intro block acc
    rw [getBlocksBlocks, walkBlocks]
    by_cases hb : block = 0
    · rw [if_pos hb, if_pos hb]
      simp
    · rw [if_neg hb, if_neg hb, ih]
      cases walkBlocks s segment fuel (s.getNextBlock block) with
      | none => rfl
      | some rest => simp

/-- The outer loop of `getBlocks` in terms of the walk of all segments. -/
theorem getBlocksSegments_eq_walk (fuel0 : Nat) (s : HeapAllocator) :
    ∀ fuel segment (acc : List Block),
      getBlocksSegments fuel0 s fuel segment acc =
        (walkSegments fuel0 s fuel segment).map fun blocks =>
          acc ++ blocks.map fun b => s.blockRecord b.1 b.2 := by
  intro fuel
  induction fuel with
  | zero => intro segment acc; rfl
  | succ fuel ih =>
    intro segment acc
    rw [getBlocksSegments, walkSegments]
    by_cases hs : segment = 0
    · rw [if_pos hs, if_pos hs]
      simp
    · rw [if_neg hs, if_neg hs, getBlocksBlocks_eq_walk]
      cases walkBlocks s segment fuel0 (s.getFirstSegmentBlock segment) with
      | none => rfl
      | some blocks =>
        rw [Option.map_some', Option.some_bind, Option.some_bind, ih]
        cases walkSegments fuel0 s fuel (s.rd segment segOffNext) with
        | none => rfl
        | some rest => simp

theorem getBlocks_eq_walk (fuel : Nat) (s : HeapAllocator) :
    getBlocks fuel s = (walk fuel s).map fun blocks =>
      blocks.map fun b => s.blockRecord b.1 b.2 := by
  unfold getBlocks walk
  rw [getBlocksSegments_eq_walk]
  cases walkSegments fuel s fuel s.headSegment with
  | none => rfl
  | some blocks => simp

/-! ## Releasing a small block -/

theorem wr_bins (s : HeapAllocator) (p off v : Nat) : (s.wr p off v).bins = s.bins := rfl
theorem wr_binMap (s : HeapAllocator) (p off v : Nat) : (s.wr p off v).binMap = s.binMap := rfl
theorem wr_headSegment (s : HeapAllocator) (p off v : Nat) :
    (s.wr p off v).headSegment = s.headSegment := rfl

/-- The words `_linkSmallBlock` writes are the list pointers of the block, the `prev`
pointer of the old head of the bin and the `next` pointer of the old head's
predecessor; every word apart from these is left as it was. -/
theorem linkSmallBlock_frame (s : HeapAllocator) (b i q off : Nat)
    (hbW : b + 24 ≤ W)
    (hh : s.bins i ≠ 0 → s.bins i + 24 ≤ W ∧ (s.bins i + 24 ≤ b ∨ b + 24 ≤ s.bins i))
    (ht : s.bins i ≠ 0 → s.rd (s.bins i) offPrev + 16 ≤ W)
    (hq : q + off + 8 ≤ W)
    (hq1 : q + off + 8 ≤ b + 8 ∨ b + 24 ≤ q + off)
    (hq2 : s.bins i ≠ 0 → q + off + 8 ≤ s.bins i + 16 ∨ s.bins i + 24 ≤ q + off)
    (hq3 : s.bins i ≠ 0 →
      q + off + 8 ≤ s.rd (s.bins i) offPrev + 8 ∨ s.rd (s.bins i) offPrev + 16 ≤ q + off) :
    (s.linkSmallBlock b i).rd q off = s.rd q off := by
  unfold linkSmallBlock
  dsimp only
  by_cases h0 : s.bins i = 0
  · rw [if_pos h0]
    show HeapAllocator.rd ((s.wr b offNext b).wr b offPrev b) q off = _
    rw [offNext_eq, offPrev_eq, rd_wr_ne _ _ _ _ _ _ (by omega) (by omega) hq,
      rd_wr_ne _ _ _ _ _ _ (by omega) (by omega) hq]
  · rw [if_neg h0]
    obtain ⟨hh1, hh2⟩ := hh h0
    have ht1 := ht h0
    have hq2' := hq2 h0
    have hq3' := hq3 h0
    have hprev : ((s.wr b offPrev (s.rd (s.bins i) offPrev)).wr b offNext (s.bins i)).rd
        (s.bins i) offPrev = s.rd (s.bins i) offPrev := by
      rw [offNext_eq, offPrev_eq, rd_wr_ne _ _ _ _ _ _ (by omega) (by omega) (by omega),
        rd_wr_ne _ _ _ _ _ _ (by omega) (by omega) (by omega)]
    show HeapAllocator.rd ((((s.wr b offPrev (s.rd (s.bins i) offPrev)).wr b offNext
      (s.bins i)).wr (((s.wr b offPrev (s.rd (s.bins i) offPrev)).wr b offNext (s.bins i)).rd
        (s.bins i) offPrev) offNext b).wr (s.bins i) offPrev b) q off = _
    rw [hprev]
    rw [offNext_eq, offPrev_eq] at *
    rw [rd_wr_ne _ _ _ _ _ _ (by omega) (by omega) hq,
      rd_wr_ne _ _ _ _ _ _ (by omega) (by omega) hq,
      rd_wr_ne _ _ _ _ _ _ (by omega) (by omega) hq,
      rd_wr_ne _ _ _ _ _ _ (by omega) (by omega) hq]

theorem linkSmallBlock_headSegment (s : HeapAllocator) (b i : Nat) :
    (s.linkSmallBlock b i).headSegment = s.headSegment := by
  unfold linkSmallBlock setBin
  dsimp only
  split
  · simp only [wr_headSegment]
  · simp only [wr_headSegment]

theorem linkSmallBlock_binMap (s : HeapAllocator) (b i : Nat) :
    (s.linkSmallBlock b i).binMap = util.setBit s.binMap i := by
  unfold linkSmallBlock setBin
  dsimp only
  split
  · simp only [wr_binMap]
  · simp only [wr_binMap]

theorem linkBlockPlace_small (fuel : Nat) (s : HeapAllocator) (b : Nat)
    (hsm : s.getBlockSize b ≤ 255)
    (hres : s.reserve ≠ 0 → 255 < s.getBlockSize s.reserve) :
    linkBlockPlace fuel (isSmallAlloc (s.getBlockSize b)) s b (s.getBlockSize b)
      = some (b, s.linkSmallBlock b (s.getBlockSize b / 8)) := by
  have hs : isSmallAlloc (s.getBlockSize b) = true := by
    rw [isSmallAlloc_eq_true]
    exact hsm
  have hc2 : ¬ (s.reserve ≠ 0 ∧ s.getBlockSize b > s.getBlockSize s.reserve) := by
    intro h
    have := hres h.1
    omega
  unfold linkBlockPlace
  rw [hs, if_neg (by simp), if_neg hc2, linkBlockToBins_small fuel s b hsm, Option.some_bind]

theorem linkBlock_small (fuel : Nat) (s : HeapAllocator) (b : Nat)
    (hsm : s.getBlockSize b ≤ 255)
    (hres : s.reserve ≠ 0 → 255 < s.getBlockSize s.reserve) :
    linkBlock fuel s b = some (b, s.linkSmallBlock b (s.getBlockSize b / 8)) := by
  have hs : isSmallAlloc (s.getBlockSize b) = true := by
    rw [isSmallAlloc_eq_true]
    exact hsm
  have hc : ¬ ((s.doBlockMerging && !isSmallAlloc (s.getBlockSize b)) = true) := by
    rw [hs]
    simp
  unfold linkBlock
  dsimp only
  rw [if_neg hc]
  exact linkBlockPlace_small fuel s b hsm hres

theorem setBlockAllocated_reserve (s : HeapAllocator) (b : Nat) (c : Bool) :
    (s.setBlockAllocated b c).reserve = s.reserve := rfl

theorem setBlockAllocated_bins (s : HeapAllocator) (b : Nat) (c : Bool) :
    (s.setBlockAllocated b c).bins = s.bins := rfl

theorem setBlockAllocated_headSegment (s : HeapAllocator) (b : Nat) (c : Bool) :
    (s.setBlockAllocated b c).headSegment = s.headSegment := rfl

/-- `release` of a pointer whose block is small and not external: the block is marked
free and linked into its small bin; nothing else happens. -/
theorem release_small_eq (fuel : Nat) (s : HeapAllocator) (p b : Nat)
    (hp : p ≠ 0) (hb : getDataHeader p = b) (hbW : b + 8 ≤ W)
    (hz : s.getBlockSize b ≤ 255) (hext : s.isBlockExternal b = false)
    (hres : s.reserve ≠ 0 → 255 < s.getBlockSize s.reserve ∧
      (s.reserve + 8 ≤ b ∨ b + 8 ≤ s.reserve) ∧ s.reserve + 8 ≤ W) :
    release fuel s p
      = some ((s.setBlockAllocated b false).linkSmallBlock b (s.getBlockSize b / 8)) := by
  have hsz : (s.setBlockAllocated b false).getBlockSize b = s.getBlockSize b :=
    getBlockSize_setBlockAllocated s b false
  have hext1 : ¬ ((s.setBlockAllocated b false).isBlockExternal b = true) := by
    rw [isBlockExternal_eq, flag_setBlockAllocated _ _ 61 _ (by omega), if_neg (by omega),
      ← isBlockExternal_eq, hext]
    simp
  have hres1 : (s.setBlockAllocated b false).reserve ≠ 0 →
      255 < (s.setBlockAllocated b false).getBlockSize (s.setBlockAllocated b false).reserve := by
    rw [setBlockAllocated_reserve]
    intro h
    obtain ⟨h1, h2, h3⟩ := hres h
    rw [getBlockSize_congr s _ s.reserve
      (rd_setBlockAllocated_ne s b s.reserve 0 false (by omega) hbW (by omega))]
    exact h1
  unfold release
  dsimp only
  rw [if_pos hp, hb, if_neg hext1,
    linkBlock_small fuel _ b (by rw [hsz]; exact hz) hres1, Option.some_bind, hsz]

theorem segOffNext_eq : segOffNext = 16 := rfl
theorem segOffFlags_eq : segOffFlags = 8 := rfl

/-- C18: releasing a live allocation whose block `b` is small (size at most
`MaxSmallBinSize`) and not external merges nothing.  In a state where the reserve, if
any, is a larger block elsewhere, the head of the small bin and its predecessor are
blocks elsewhere, and the words the walk over all segments reads (segment `next` and
`flags`, block headers) are none of the list pointers written, `release` succeeds, the
block is the new head of small bin `size / 8`, and `getBlocks()` reports the same blocks
with the same addresses, sizes and flags, except that `b` is no longer allocated. -/
theorem release_small_merges_nothing (fuel : Nat) (s : HeapAllocator) (p b : Nat)
    (segments : List Nat) (blocks : List (Nat × Nat))
    (hp : p ≠ 0) (hb : getDataHeader p = b) (hbW : b + 24 ≤ W)
    (hz : s.getBlockSize b ≤ MaxSmallBinSize) (hext : s.isBlockExternal b = false)
    (hres : s.reserve ≠ 0 → MaxSmallBinSize < s.getBlockSize s.reserve ∧
      Apart s.reserve b ∧ s.reserve + 8 ≤ W)
    (hh : s.bins (s.getBlockSize b / 8) ≠ 0 →
      s.bins (s.getBlockSize b / 8) + 24 ≤ W ∧
      (s.bins (s.getBlockSize b / 8) + 24 ≤ b ∨ b + 24 ≤ s.bins (s.getBlockSize b / 8)) ∧
      s.rd (s.bins (s.getBlockSize b / 8)) offPrev + 16 ≤ W ∧
      Apart (s.rd (s.bins (s.getBlockSize b / 8)) offPrev + 8) b)
    (hsegs : segmentList s fuel s.headSegment = some segments)
    (hwalk : walk fuel s = some blocks)
    (hsegA : ∀ g ∈ segments, g + 24 ≤ W ∧
      Apart (g + 8) b ∧ s.listWordsClear b (s.getBlockSize b / 8) (g + 8) ∧
      Apart (g + 16) b ∧ s.listWordsClear b (s.getBlockSize b / 8) (g + 16))
    (hblkA : ∀ x ∈ blocks,
      x.2 + 8 ≤ W ∧ (x.2 = b ∨ Apart x.2 b) ∧ s.listWordsClear b (s.getBlockSize b / 8) x.2 ∧
      s.nextBlockAddr x.2 + 8 ≤ W ∧ (s.nextBlockAddr x.2 = b ∨ Apart (s.nextBlockAddr x.2) b) ∧
      s.listWordsClear b (s.getBlockSize b / 8) (s.nextBlockAddr x.2)) :
    ∃ s', release fuel s p = some s' ∧
      s'.bins (s.getBlockSize b / 8) = b ∧
      getBlocks fuel s = some (blocks.map fun x => s.blockRecord x.1 x.2) ∧
      getBlocks fuel s' = some (blocks.map fun x =>
        if x.2 = b then { s.blockRecord x.1 x.2 with isAllocated := false }
        else s.blockRecord x.1 x.2) := by
  rw [MaxSmallBinSize_eq] at hz hres
  generalize hi : s.getBlockSize b / 8 = i at *
  have hrel := release_small_eq fuel s p b hp hb (by omega) hz hext
    (fun h => ⟨(hres h).1, by have := (hres h).2.1; unfold Apart at this; omega, (hres h).2.2⟩)
  rw [hi] at hrel
  refine ⟨_, hrel, linkSmallBlock_bins _ _ _, ?_, ?_⟩
  · rw [getBlocks_eq_walk, hwalk, Option.map_some']
  -- the state before the list pointers are written
  have hprev1 : s.bins i ≠ 0 →
      (s.setBlockAllocated b false).rd ((s.setBlockAllocated b false).bins i) offPrev
        = s.rd (s.bins i) offPrev := by
    intro h0
    obtain ⟨h1, h2, _, _⟩ := hh h0
    rw [setBlockAllocated_bins]
    exact rd_setBlockAllocated_ne s b _ _ false (by rw [offPrev_eq]; omega) (by omega)
      (by rw [offPrev_eq]; omega)
  -- words the walk reads that are not the header of `b`
  have hframe : ∀ q off, q + off + 8 ≤ W → s.listWordsClear b i (q + off) →
      ((s.setBlockAllocated b false).linkSmallBlock b i).rd q off
        = (s.setBlockAllocated b false).rd q off := by
    intro q off hq hc
    unfold listWordsClear at hc
    apply linkSmallBlock_frame _ b i q off hbW
    · intro h0
      rw [setBlockAllocated_bins] at h0 ⊢
      exact ⟨(hh h0).1, (hh h0).2.1⟩
    · intro h0
      rw [setBlockAllocated_bins] at h0
      rw [hprev1 h0]
      exact (hh h0).2.2.1
    · exact hq
    · exact hc.1
    · intro h0
      rw [setBlockAllocated_bins] at h0 ⊢
      exact (hc.2 h0).1
    · intro h0
      rw [setBlockAllocated_bins] at h0
      rw [hprev1 h0]
      exact (hc.2 h0).2
  have hother : ∀ q off, q + off + 8 ≤ W → Apart (q + off) b → s.listWordsClear b i (q + off) →
      ((s.setBlockAllocated b false).linkSmallBlock b i).rd q off = s.rd q off := by
    intro q off hq ha hc
    unfold Apart at ha
    rw [hframe q off hq hc]
    exact rd_setBlockAllocated_ne s b q off false (by omega) (by omega) hq
  have hbclear : s.listWordsClear b i b := by
    unfold listWordsClear
    refine ⟨Or.inl (Nat.le_refl _), fun h0 => ?_⟩
    obtain ⟨_, h2, _, h4⟩ := hh h0
    unfold Apart at h4
    omega
  have hbhdr : ((s.setBlockAllocated b false).linkSmallBlock b i).rd b 0
      = (s.setBlockAllocated b false).rd b 0 := hframe b 0 (by omega) hbclear
  -- every header the walk reads keeps its size and its fence-post flag
  have hhdr : ∀ q, q + 8 ≤ W → (q = b ∨ Apart q b) → s.listWordsClear b i q →
      ((s.setBlockAllocated b false).linkSmallBlock b i).getBlockSize q = s.getBlockSize q ∧
      ((s.setBlockAllocated b false).linkSmallBlock b i).isBlockFencePost q
        = s.isBlockFencePost q ∧
      (q ≠ b → ((s.setBlockAllocated b false).linkSmallBlock b i).isBlockAllocated q
        = s.isBlockAllocated q) := by
    intro q hq hqb hc
    rcases hqb with rfl | ha
    · refine ⟨?_, ?_, fun h => absurd rfl h⟩
      · rw [getBlockSize_congr _ _ q hbhdr, getBlockSize_setBlockAllocated]
      · rw [isBlockFencePost_eq, hbhdr, flag_setBlockAllocated _ _ 62 _ (by omega),
          if_neg (by omega), ← isBlockFencePost_eq]
    · have hrd := hother q 0 hq ha hc
      refine ⟨getBlockSize_congr _ _ q hrd, ?_, fun _ => ?_⟩
      · rw [isBlockFencePost_eq, hrd, ← isBlockFencePost_eq]
      · rw [isBlockAllocated_eq, hrd, ← isBlockAllocated_eq]
  have hbfree : ((s.setBlockAllocated b false).linkSmallBlock b i).isBlockAllocated b = false := by
    rw [isBlockAllocated_eq, hbhdr, flag_setBlockAllocated _ _ 63 _ (by omega), if_pos rfl]
  have hwalk' : walk fuel ((s.setBlockAllocated b false).linkSmallBlock b i) = some blocks := by
    unfold walk at hwalk ⊢
    rw [linkSmallBlock_headSegment, setBlockAllocated_headSegment]
    apply walkSegments_congr fuel s _ fuel _ segments blocks hsegs hwalk
    · intro g hg
      obtain ⟨g1, g2, g3, g4, g5⟩ := hsegA g hg
      have hnext := hother g segOffNext (by rw [segOffNext_eq]; omega)
        (by rw [segOffNext_eq]; exact g4) (by rw [segOffNext_eq]; exact g5)
      have hflags := hother g segOffFlags (by rw [segOffFlags_eq]; omega)
        (by rw [segOffFlags_eq]; exact g2) (by rw [segOffFlags_eq]; exact g3)
      refine ⟨hnext, ?_⟩
      unfold getFirstSegmentBlock getSegmentOffset
      rw [hflags]
    · intro x hx
      obtain ⟨x1, x2, x3, x4, x5, x6⟩ := hblkA x hx
      exact ⟨(hhdr _ x1 x2 x3).1, (hhdr _ x4 x5 x6).2.1⟩
  rw [getBlocks_eq_walk, hwalk', Option.map_some']
  refine congrArg some (List.map_congr_left ?_)
  intro x hx
  obtain ⟨x1, x2, x3, _, _, _⟩ := hblkA x hx
  obtain ⟨y1, _, y3⟩ := hhdr _ x1 x2 x3
  unfold blockRecord
  by_cases hxb : x.2 = b
  · rw [if_pos hxb, y1, hxb, hbfree]
  · rw [if_neg hxb, y1, y3 hxb]

set_option maxRecDepth 1000000 in
theorem release_small_merges_nothing_witness :
    ∃ s', release 50 smallBinState 4295036672 = some s' ∧
      s'.bins (smallBinState.getBlockSize 4295036664 / 8) = 4295036664 ∧
      getBlocks 50 smallBinState = some
        ([(4294967296, 4294967336), (4294967296, 4295036548), (4294967296, 4295036664),
          (4294967296, 4295036780)].map fun x => smallBinState.blockRecord x.1 x.2) ∧
      getBlocks 50 s' = some
        ([(4294967296, 4294967336), (4294967296, 4295036548), (4294967296, 4295036664),
          (4294967296, 4295036780)].map fun x =>
            if x.2 = 4295036664 then
              { smallBinState.blockRecord x.1 x.2 with isAllocated := false }
            else smallBinState.blockRecord x.1 x.2) :=
  release_small_merges_nothing 50 smallBinState 4295036672 4295036664 [4294967296]
    [(4294967296, 4294967336), (4294967296, 4295036548), (4294967296, 4295036664),
      (4294967296, 4295036780)]
    (by decide) (by decide) (by decide) (by decide!) (by decide!) (by decide!) (by decide!)
    (by decide!) (by decide!) (by decide!) (by decide!)

/-! ## Allocation from a small bin -/

theorem rd_congr_mem (t t' : HeapAllocator) (q off : Nat) (h : t'.mem = t.mem) :
    t'.rd q off = t.rd q off := by
  unfold rd
  rw [h]

set_option maxRecDepth 1000000 in
theorem mergeBlocks_consecutive_witness :
    (twoAllocationsState.mergeBlocks [4294967336, 4295034816]).2.getBlockSize 4294967336
      = twoAllocationsState.getBlockSize 4294967336
        + twoAllocationsState.getBlockSize 4295034816 + BlockOverheadSize ∧
    (twoAllocationsState.mergeBlocks [4294967336, 4295034816, 4295035856]).2.checkBlock
      4294967336 = true :=
  have h := mergeBlocks_consecutive twoAllocationsState 4294967336 4295034816 4295035856
    (by decide!) (by decide!) (by decide!) (by decide!)
  ⟨h.1.2.1, h.2.2.2.2.2.2.1⟩

set_option maxRecDepth 1000000 in
/-- C21: a fresh `HeapAllocator(65536, 32)` has one free block of 69520 bytes at
`0x100000038`.  `allocate(69504)`, which that block can serve, returns its payload with
the header word `0xA000000000010F90`: the block is marked external although its segment
is not, and `release` of the pointer takes the path of external segments and does not
come back within the fuel, so `getStats()` and `getBlocks()` are not restored. -/
theorem allocate_release_does_not_restore :
    ((create 50 65536 32 4096 0x100000000 4096).bind fun s0 =>
      (allocate 50 s0 69504).bind fun r =>
        (getBlocks 50 s0).map fun before =>
          (before.map fun b => (b.addr, b.size, b.isAllocated), r.1,
            r.2.rd (getDataHeader r.1) 0, r.2.isSegmentExternal r.2.headSegment,
            (release 50 r.2 r.1).isNone)) =
      some ([(0x100000038, 69520, false)], 0x100000040, 0xA000000000010F90, false, true) := by
  decide!

/-! ## The header word: independence of the fields -/

theorem MaxAllocationSize_eq : MaxAllocationSize = 2 ^ 61 - 1 := by decide

/-- C35: the four fields of a header word are independent.  For every state, block
address and size `size ≤ MaxAllocationSize`, `_getBlockSize` after `_setBlockSize(size)`
returns `size` and the three flags are unchanged; and each of `_setBlockAllocated`,
`_setBlockFencePost`, `_setBlockExternal` with any value `c` is read back by its getter
and leaves the size and the other two flags unchanged. -/
theorem header_fields_independent (s : HeapAllocator) (b size : Nat) (c : Bool)
    (hs : size ≤ MaxAllocationSize) :
    ((s.setBlockSize b size).getBlockSize b = size ∧
      (s.setBlockSize b size).isBlockAllocated b = s.isBlockAllocated b ∧
      (s.setBlockSize b size).isBlockFencePost b = s.isBlockFencePost b ∧
      (s.setBlockSize b size).isBlockExternal b = s.isBlockExternal b) ∧
    ((s.setBlockAllocated b c).isBlockAllocated b = c ∧
      (s.setBlockAllocated b c).getBlockSize b = s.getBlockSize b ∧
      (s.setBlockAllocated b c).isBlockFencePost b = s.isBlockFencePost b ∧
      (s.setBlockAllocated b c).isBlockExternal b = s.isBlockExternal b) ∧
    ((s.setBlockFencePost b c).isBlockFencePost b = c ∧
      (s.setBlockFencePost b c).getBlockSize b = s.getBlockSize b ∧
      (s.setBlockFencePost b c).isBlockAllocated b = s.isBlockAllocated b ∧
      (s.setBlockFencePost b c).isBlockExternal b = s.isBlockExternal b) ∧
    ((s.setBlockExternal b c).isBlockExternal b = c ∧
      (s.setBlockExternal b c).getBlockSize b = s.getBlockSize b ∧
      (s.setBlockExternal b c).isBlockAllocated b = s.isBlockAllocated b ∧
      (s.setBlockExternal b c).isBlockFencePost b = s.isBlockFencePost b) := by
  have hs' : size < 2 ^ 61 := by
    rw [MaxAllocationSize_eq] at hs
    omega
  simp only [isBlockAllocated_eq, isBlockFencePost_eq, isBlockExternal_eq]
  refine ⟨⟨getBlockSize_setBlockSize s b size hs', ?_, ?_, ?_⟩,
    ⟨?_, getBlockSize_setBlockAllocated s b c, ?_, ?_⟩,
    ⟨?_, getBlockSize_setBlockFencePost s b c, ?_, ?_⟩,
    ⟨?_, getBlockSize_setBlockExternal s b c, ?_, ?_⟩⟩
  · exact flag_setBlockSize s b size 63 hs' (by omega) (by omega)
  · exact flag_setBlockSize s b size 62 hs' (by omega) (by omega)
  · exact flag_setBlockSize s b size 61 hs' (by omega) (by omega)
  · rw [flag_setBlockAllocated s b 63 c (by omega)]; simp
  · rw [flag_setBlockAllocated s b 62 c (by omega)]; simp
  · rw [flag_setBlockAllocated s b 61 c (by omega)]; simp
  · rw [flag_setBlockFencePost s b 62 c (by omega)]; simp
  · rw [flag_setBlockFencePost s b 63 c (by omega)]; simp
  · rw [flag_setBlockFencePost s b 61 c (by omega)]; simp
  · rw [flag_setBlockExternal s b 61 c (by omega)]; simp
  · rw [flag_setBlockExternal s b 63 c (by omega)]; simp
  · rw [flag_setBlockExternal s b 62 c (by omega)]; simp

theorem header_fields_independent_witness :
    (1024 : Nat) ≤ MaxAllocationSize ∧
    (defaultAllocator.setBlockSize 0x100000028 1024).getBlockSize 0x100000028 = 1024 ∧
    (defaultAllocator.setBlockAllocated 0x100000028 true).getBlockSize 0x100000028
      = defaultAllocator.getBlockSize 0x100000028 :=
  ⟨by decide,
    (header_fields_independent defaultAllocator 0x100000028 1024 true (by decide)).1.1,
    (header_fields_independent defaultAllocator 0x100000028 1024 true (by decide)).2.1.2.1⟩

/-! ## `LinearAllocator::clear` and `MallocAllocator::release` -/

/-- C39: a `LinearAllocator` with alignment 8 over a buffer that starts at the odd
address 4097 first returns 4104, a multiple of 8; after `clear()`, which puts the bump
address back to the unaligned start of the buffer, `allocate` returns 4097. -/
theorem linearAllocator_clear_loses_alignment :
    ((LinearAllocator.create 4097 1024 8).allocate 3).1 = 4104 ∧
    ((LinearAllocator.create 4097 1024 8).clear.allocate 3).1 = 4097 ∧
    (LinearAllocator.create 4097 1024 8).alignment = 8 ∧ (4097 : Nat) % 8 = 1 := by
  decide

/-- C40: `malloc` answers 4288 and `allocate(100, 512, 11)` places the pointer 300 bytes
behind the fields (`alignOffset = 300`); the byte stored is `300 mod 256 = 44`, and
`release` hands 4544, not 4288, to `free`. -/
theorem mallocAllocator_release_wrong_base :
    (MallocAllocator.allocate 4288 100 512 11).retMem = 4597 ∧
    (MallocAllocator.allocate 4288 100 512 11).alignOffsetByte = 44 ∧
    MallocAllocator.release (MallocAllocator.allocateStores (fun _ => 0) 4288 100 512 11)
      (MallocAllocator.allocate 4288 100 512 11).retMem = 4544 ∧
    (4544 : Nat) ≠ 4288 := by
  decide

theorem pow_le_128 (k : Nat) (hk : k ≤ 7) : 2 ^ k ≤ 128 :=
  (Nat.pow_le_pow_right (by omega) hk).trans (by norm_num)

/-- For every size, offset and power-of-two alignment up to 128, and
whatever address `alloc` below `2 ^ 64` `malloc` answered, `release` of the pointer that
`allocate` returned recomputes `alloc` from the hidden align-offset byte. -/
theorem mallocAllocator_release_base (m : Memory) (alloc size offset k : Nat)
    (hk : k ≤ 7) (halloc : alloc < W) :
    MallocAllocator.release (MallocAllocator.allocateStores m alloc size (2 ^ k) offset)
      (MallocAllocator.allocate alloc size (2 ^ k) offset).retMem = alloc := by
  have hpos : 0 < 2 ^ k := Nat.two_pow_pos k
  have h128 := pow_le_128 k hk
  unfold MallocAllocator.release MallocAllocator.allocateStores MallocAllocator.allocate
    MallocAllocator.charToSize storeByte
  dsimp only
  have hao : wsub (2 ^ k) (wadd (wadd (wadd alloc MallocAllocator.sizeofAlignOffsetField)
      MallocAllocator.sizeofSizeField) offset % 2 ^ k) % 2 ^ k < 128 :=
    Nat.lt_of_lt_of_le (Nat.mod_lt _ hpos) h128
  generalize wsub (2 ^ k) (wadd (wadd (wadd alloc MallocAllocator.sizeofAlignOffsetField)
      MallocAllocator.sizeofSizeField) offset % 2 ^ k) % 2 ^ k = ao at hao ⊢
  have hlt : ∀ x y, wsub x y < W := fun x y => Nat.mod_lt _ (by rw [W_eq]; omega)
  rw [if_pos (Nat.mod_eq_of_lt (hlt _ _)).symm]
  have e1 : ao % 256 = ao := by omega
  have e2 : ao % 256 % 256 = ao := by omega
  rw [e2, e1, if_pos hao]
  unfold wsub wadd MallocAllocator.sizeofSizeField MallocAllocator.sizeofAlignOffsetField
  rw [W_eq] at *
  omega

theorem mallocAllocator_release_base_witness :
    MallocAllocator.release (MallocAllocator.allocateStores (fun _ => 0) 4288 100 (2 ^ 4) 11)
      (MallocAllocator.allocate 4288 100 (2 ^ 4) 11).retMem = 4288 :=
  mallocAllocator_release_base (fun _ => 0) 4288 100 11 4 (by decide) (by decide)

/-! ## Tree bins -/

set_option maxRecDepth 1000000 in
/-- C31: on a default allocator the calls below leave, besides the reserve, four free
blocks of 320, 328, 336 and 264 bytes, all in tree bin 32 and none of them able to hold
380 bytes; `_findTreeBlock(32, 380)` returns the block `0x100010d28` of 264 bytes, not
null. -/
theorem findTreeBlock_returns_smaller_block :
    ((create 50 65536 4 4096 0x100000000 4096).bind fun s0 =>
      (runCalls 50
        [Call.allocate 400, Call.allocate 264, Call.allocate 16, Call.allocate 336,
         Call.allocate 16, Call.allocate 328, Call.allocate 16, Call.allocate 320,
         Call.allocate 16, Call.release 7, Call.release 5, Call.release 3, Call.release 1]
        s0 []).bind fun r =>
        (getBlocks 50 r.2).bind fun blocks =>
          (findTreeBlock 50 r.2 32 380).map fun b =>
            ((blocks.filter fun x => !x.isAllocated).map fun x => (x.addr, x.size, x.bin),
             r.2.reserve, b, r.2.getBlockSize b)) =
      some ([(0x100000028, 67688, 63), (0x1000108c0, 320, 32), (0x100010a30, 328, 32),
             (0x100010ba8, 336, 32), (0x100010d28, 264, 32)],
            0x100000028, 0x100010d28, 264) ∧
    (264 : Nat) < 380 := by
  decide!

set_option maxRecDepth 1000000 in
/-- C32: on a default allocator two blocks of 300 bytes are released one after the other
into the empty tree bin 32.  The first, `0x100010ea4`, becomes the root; the second,
`0x100010d48`, of the same size, is not spliced into the chain of the root (whose `next`
and `prev` still name the root itself) but hung below it as a new trie node,
`child[1]` of the root with the root as parent. -/
theorem linkTreeBlock_root_duplicate_becomes_child :
    ((create 50 65536 4 4096 0x100000000 4096).bind fun s0 =>
      (runCalls 50
        [Call.allocate 300, Call.allocate 16, Call.allocate 300, Call.allocate 16,
         Call.release 0, Call.release 2] s0 []).map fun r =>
        (r.2.bins 32, r.2.getBlockSize 0x100010ea4, r.2.getBlockSize 0x100010d48,
         r.2.treeLinks 0x100010ea4, r.2.treeLinks 0x100010d48)) =
      some (0x100010ea4, 300, 300,
            [0, 0, 0x100010d48, 0x100010ea4, 0x100010ea4],
            [0x100010ea4, 0, 0, 0x100010d48, 0x100010d48]) := by
  decide!

set_option maxRecDepth 1000000 in
/-- C33: the client stored a pointer at offset 16 of a 300-byte allocation and released
it while tree bin 32 held a node `0x100010d48` of 300 bytes.  `_linkTreeBlock` put the
block, `0x100010bec`, into the chain of that node (`next` and `prev` of each name the
other) and left its `parent` field as the client wrote it: `0x100010bf4`, not null. -/
theorem linkTreeBlock_chain_insert_keeps_stale_parent :
    (staleParentState.bins 32, staleParentState.treeLinks 0x100010ea4,
      staleParentState.treeLinks 0x100010d48, staleParentState.treeLinks 0x100010bec) =
      (0x100010ea4, [0, 0, 0x100010d48, 0x100010ea4, 0x100010ea4],
       [0x100010ea4, 0x100010a8c, 0, 0x100010bec, 0x100010bec],
       [0x100010bf4, 0, 0, 0x100010d48, 0x100010d48]) ∧
    (0x100010bf4 : Nat) ≠ 0 := by
  decide!

set_option maxRecDepth 1000000 in
/-- C34: in `staleParentState` tree bin 32 holds the root `0x100010ea4`, below it the
node `0x100010d48` with the chain member `0x100010bec`, and below that node the block
`0x100010a8c` of 304 bytes.  `_unlinkTreeBlock(0x100010bec, 32)` takes the chain member
for a chain head, because its `parent` field is not null, and copies its links to the
node `0x100010d48`: afterwards that node has no children and a parent that is not the
root, the free block `0x100010a8c` is no longer reachable from the root, and
`_findTreeBlock(32, 304)` returns null. -/
theorem unlinkTreeBlock_loses_block :
    (staleParentState.treeLinks 0x100010d48, staleParentState.treeLinks 0x100010a8c,
      staleParentState.getBlockSize 0x100010a8c,
      staleParentState.isBlockAllocated 0x100010a8c) =
      ([0x100010ea4, 0x100010a8c, 0, 0x100010bec, 0x100010bec],
       [0x100010d48, 0, 0, 0x100010a8c, 0x100010a8c], 304, false) ∧
    ((unlinkTreeBlock 50 staleParentState 0x100010bec 32).bind fun s =>
      (findTreeBlock 50 s 32 304).map fun found =>
        (s.bins 32, s.treeLinks 0x100010ea4, s.treeLinks 0x100010d48,
         s.treeLinks 0x100010a8c, found)) =
      some (0x100010ea4, [0, 0, 0x100010d48, 0x100010ea4, 0x100010ea4],
            [0x100010bf4, 0, 0, 0x100010d48, 0x100010d48],
            [0x100010d48, 0, 0, 0x100010a8c, 0x100010a8c], 0) := by
  decide!

set_option maxRecDepth 1000000 in
/-- C36: on a default allocator `allocate(69568)` finds no block in the tree bins and the
reserve (69544 bytes) too small, so `_allocFromSystem` asks `_allocNewSegment` for
`max(69568 + 16, 65536) = 69584` bytes.  The block that comes back, `0x100012028`, has
69544 bytes, and `_allocFromSystem` passes it to `_splitBlock` with `numBytes = 69568`:
the asserted precondition `size >= numBytes + BlockOverheadSize` does not hold, and the
remainder `69544 - 69568 - 16` wraps. -/
theorem allocFromSystem_violates_splitBlock_precondition :
    ((allocFromTreeBin 50 defaultAllocator 69568).map fun r => r.1) = some 0 ∧
    ((allocFromReserve 50 defaultAllocator 69568).map fun r => r.1) = some 0 ∧
    ((allocNewSegment 50
        { defaultAllocator with newSegmentSize := wmul defaultAllocator.newSegmentSize 2 }
        (min (max (wadd 69568 BlockOverheadSize) defaultAllocator.newSegmentSize)
          (wsub MaxAllocationSize BlockOverheadSize)) false).map fun r =>
      (r.1, r.2.getBlockSize r.1, wsub (wsub (r.2.getBlockSize r.1) 69568) BlockOverheadSize)) =
      some (0x100012028, 69544, 2 ^ 64 - 40) ∧
    ¬ (69544 ≥ 69568 + BlockOverheadSize) := by
  decide!

/-! ## The reserve and the totals of `getStats` after a client wrote to its blocks -/

set_option maxRecDepth 1000000 in
/-- C37: on a default allocator the client allocates blocks of 300, 16, 300, 16, 300,
256 and 16 bytes, stores in the third 300-byte block (pointer `0x100010bf4`) that pointer
at offset 16 and the number `0x100000028` at offset 24, and releases the three 300-byte
blocks and then the 256-byte block in front of the last of them.  The third 300-byte
block was spliced into a chain of tree bin 32 with its `parent` and `child[0]` fields as
the client left them, so the coalescing of the last release unlinks it as a chain head
and copies these fields to the node `0x100010d48`.  Afterwards the reserve, the block
`0x100000028`, is `child[0]` of that node of bin 32, with the node as its `parent`: it is
linked in a bin. -/
theorem reserve_linked_in_tree_bin :
    ((create 50 65536 4 4096 0x100000000 4096).bind fun s0 =>
      (runCalls 50
        [Call.allocate 300, Call.allocate 16, Call.allocate 300, Call.allocate 16,
         Call.allocate 300, Call.allocate 256, Call.allocate 16,
         Call.write 4 16 244, Call.write 4 17 11, Call.write 4 18 1, Call.write 4 20 1,
         Call.write 4 24 40, Call.write 4 28 1,
         Call.release 0, Call.release 2, Call.release 4, Call.release 5] s0 []).map fun r =>
        (r.2.reserve, r.2.bins 32, r.2.treeLinks (r.2.bins 32),
         r.2.treeLinks 0x100010d48, r.2.treeLinks r.2.reserve)) =
      some (0x100000028, 0x100010ea4,
            [0, 0, 0x100010d48, 0x100010ea4, 0x100010ea4],
            [0x100010bf4, 0x100000028, 0, 0x100010d48, 0x100010d48],
            [0x100010d48, 0, 0, 0, 0]) := by
  decide!

set_option maxRecDepth 1000000 in
/-- C38: on a default allocator the client allocates 300, 16 and 400 bytes, releases the
16-byte block and is handed the same block for `allocate(20)`.  It writes the bytes 16 to
19 of these 20 bytes, which are the low half of the block's footer, and the byte 315 of
its 400-byte allocation.  `release` of the 300-byte allocation then reads that footer,
takes the reserve for the block in front and merges the two, although the 400-byte and
the 16-byte block lie between them: no segment is mapped or unmapped, and the sum of the
three totals of `getStats()` goes from 69600 to 69152. -/
theorem release_changes_stats_total :
    ((create 50 65536 4 4096 0x100000000 4096).bind fun s0 =>
      (runCalls 50
        [Call.allocate 300, Call.allocate 16, Call.allocate 400, Call.release 1,
         Call.allocate 20, Call.write 3 16 108, Call.write 3 17 14, Call.write 3 18 1,
         Call.write 3 19 0, Call.write 2 315 64] s0 []).bind fun r =>
        (getStats 50 r.2).bind fun before =>
          (release 50 r.2 (r.1.getD 0 0)).bind fun s =>
            (getStats 50 s).map fun after =>
              ([before.allocatedBytes, before.freeBytes, before.overheadBytes],
               [after.allocatedBytes, after.freeBytes, after.overheadBytes],
               [before.numRegularSegments, before.numExternalSegments,
                after.numRegularSegments, after.numExternalSegments],
               [r.2.mmapNext, s.mmapNext])) =
      some ([716, 68780, 104], [0, 69096, 56], [1, 0, 1, 0], [0x100012000, 0x100012000]) ∧
    (716 + 68780 + 104 : Nat) ≠ 0 + 69096 + 56 := by
  decide!

/-! ## `_splitBlock` on a block that is too short for the correction -/

set_option maxRecDepth 1000000 in
/-- C29: the free block `b = 0x100000058` of a fresh `HeapAllocator(65536, 64)` has
`S = 69456` bytes and no external bit.  For `n = 69440` the precondition
`S ≥ n + overhead` holds and the alignment correction is `a = 48`; `_splitBlock(b, n)`
takes the split branch and returns the new block `b - 32` of `n + a = 69488` bytes.  The
original block does not have the size `S - n - overhead - a` (which is negative): its
header records `2 ^ 61 - 48` with all three flags set, the two sizes plus one overhead do
not sum to `S`, and the new block carries an external bit the original did not have. -/
theorem splitBlock_wrapped_split_breaks_properties :
    ((create 50 65536 64 4096 0x100000000 4096).map fun s =>
      (s.reserve, s.getBlockSize s.reserve, s.isBlockAllocated s.reserve,
       s.isBlockExternal s.reserve, (s.reserve + (69456 - 69440) + BlockHeaderSize) % s.alignment)) =
      some (0x100000058, 69456, false, false, 48) ∧
    (69440 : Nat) + BlockOverheadSize ≤ 69456 ∧ MinAllocationSize ≤ 69440 ∧
    ((create 50 65536 64 4096 0x100000000 4096).map fun s =>
      ((s.splitBlock s.reserve 69440).1,
       (s.splitBlock s.reserve 69440).2.getBlockSize (s.splitBlock s.reserve 69440).1,
       (s.splitBlock s.reserve 69440).2.isBlockExternal (s.splitBlock s.reserve 69440).1,
       (s.splitBlock s.reserve 69440).2.getBlockSize s.reserve,
       (s.splitBlock s.reserve 69440).2.rd s.reserve 0)) =
      some (0x100000058 - 32, 69488, true, 2 ^ 61 - 48, 2 ^ 64 - 48) ∧
    (2 ^ 61 - 48 + 69488 + BlockOverheadSize : Nat) ≠ 69456 := by
  decide!

/-! ## `check` -/

theorem rd_zero_eq_headerWord (s : HeapAllocator) (b : Nat) : s.rd b 0 = s.headerWord b := by
  unfold rd headerWord wadd
  rw [Nat.add_zero]

theorem getBlockSize_eq_sizeOfWord (s : HeapAllocator) (b : Nat) :
    s.getBlockSize b = sizeOfWord (s.headerWord b) := by
  rw [getBlockSize_eq, rd_zero_eq_headerWord]
  rfl

theorem getFooterSize_getBlockFooter (s : HeapAllocator) (b : Nat) :
    s.getFooterSize (s.getBlockFooter b) = sizeOfWord (s.footerWord b) := by
  unfold getFooterSize getBlockFooter footerWord
  rw [and_sizeMask, getBlockSize_eq_sizeOfWord, BlockHeaderSize_eq]
  unfold rd wadd sizeOfWord
  rw [Nat.add_zero, Nat.mod_mod, Nat.mod_add_mod]

theorem checkBlock_eq_sizesMatch (s : HeapAllocator) (block : Nat) :
    s.checkBlock block = s.sizesMatch block := by
  unfold checkBlock sizesMatch
  rw [getBlockSize_eq_sizeOfWord, getFooterSize_getBlockFooter]
  by_cases h : sizeOfWord (s.headerWord block) = sizeOfWord (s.footerWord block)
  · rw [if_neg (by simp [h]), decide_eq_true h]
  · rw [if_pos h, decide_eq_false h]

theorem getNextBlock_eq_layout (s : HeapAllocator) (block : Nat) :
    s.getNextBlock block = s.layoutNextBlock block := by
  have e : wadd (wadd block (s.getBlockSize block)) BlockOverheadSize
      = (block + sizeOfWord (s.headerWord block) + 16) % W := by
    rw [getBlockSize_eq_sizeOfWord, BlockOverheadSize_eq]
    unfold wadd
    rw [Nat.mod_add_mod]
  unfold getNextBlock layoutNextBlock
  dsimp only
  rw [e, isBlockFencePost_eq, rd_zero_eq_headerWord]

theorem getFirstSegmentBlock_eq_layout (s : HeapAllocator) (segment : Nat) :
    s.getFirstSegmentBlock segment = s.layoutFirstBlock segment := by
  have hm : SegmentOffsetBitMask = 2 ^ 63 - 1 := by decide
  unfold getFirstSegmentBlock layoutFirstBlock getSegmentOffset rd
  rw [hm, Nat.and_pow_two_sub_one_eq_mod, segOffFlags_eq]
  have e1 : sizeofSegment = 32 := rfl
  have e2 : sizeofBlockFooter = 8 := rfl
  rw [e1, e2]
  unfold wadd
  try rw [Nat.mod_add_mod]
  rw [Nat.add_assoc ((segment + 32) % W), Nat.mod_add_mod, Nat.add_assoc (segment + 32)]

theorem rd_segOffNext (s : HeapAllocator) (segment : Nat) :
    s.rd segment segOffNext = load s.mem ((segment + 16) % W) := rfl

theorem corruptRecord_fields (s : HeapAllocator) (segment block : Nat) :
    recordFields (s.corruptRecord segment block)
      = (block, (block + 8) % W, segment, sizeOfWord (s.headerWord block),
          (s.headerWord block).testBit 63) := by
  unfold recordFields corruptRecord
  dsimp only
  rw [getBlockSize_eq_sizeOfWord, isBlockAllocated_eq, rd_zero_eq_headerWord]
  rfl

/-- The inner loop of `check` over the blocks of one segment. -/
theorem checkBlocks_eq_layout (s : HeapAllocator) (segment : Nat) :
    ∀ fuel block (found : Bool) (acc : List Block),
      (checkBlocks s segment fuel block found acc).map (fun r => (r.1, r.2.map recordFields)) =
        (layoutBlocks s segment fuel block).map fun blocks =>
          (found || blocks.any (fun b => !s.sizesMatch b.2),
            acc.map recordFields ++ (blocks.filter fun b => !s.sizesMatch b.2).map fun b =>
              (b.2, (b.2 + 8) % W, b.1, sizeOfWord (s.headerWord b.2),
                (s.headerWord b.2).testBit 63)) := by
  intro fuel
  induction fuel with
  | zero => intro block found acc; rfl
  | succ fuel ih =>
    intro block found acc
    rw [checkBlocks, layoutBlocks]
    by_cases hb : block = 0
    · rw [if_pos hb, if_pos hb]
      simp
    · rw [if_neg hb, if_neg hb, checkBlock_eq_sizesMatch, getNextBlock_eq_layout]
      by_cases hc : s.sizesMatch block = false
      · rw [if_pos hc, ih]
        cases layoutBlocks s segment fuel (s.layoutNextBlock block) with
        | none => rfl
        | some rest => simp [hc, corruptRecord_fields]
      · rw [if_neg hc, ih]
        have hc' : s.sizesMatch block = true := by
          cases h : s.sizesMatch block
          · exact absurd h hc
          · rfl
        cases layoutBlocks s segment fuel (s.layoutNextBlock block) with
        | none => rfl
        | some rest => simp [hc']

/-- The outer loop of `check` over the segments. -/
theorem checkSegments_eq_layout (fuel0 : Nat) (s : HeapAllocator) :
    ∀ fuel segment (found : Bool) (acc : List Block),
      (checkSegments fuel0 s fuel segment found acc).map (fun r => (r.1, r.2.map recordFields)) =
        (layoutSegments fuel0 s fuel segment).map fun blocks =>
          (found || blocks.any (fun b => !s.sizesMatch b.2),
            acc.map recordFields ++ (blocks.filter fun b => !s.sizesMatch b.2).map fun b =>
              (b.2, (b.2 + 8) % W, b.1, sizeOfWord (s.headerWord b.2),
                (s.headerWord b.2).testBit 63)) := by
  intro fuel
  induction fuel with
  | zero => intro segment found acc; rfl
  | succ fuel ih =>
    intro segment found acc
    rw [checkSegments, layoutSegments]
    by_cases hs : segment = 0
    · rw [if_pos hs, if_pos hs]
      simp
    · rw [if_neg hs, if_neg hs, getFirstSegmentBlock_eq_layout, rd_segOffNext]
      have h1 := checkBlocks_eq_layout s segment fuel0 (s.layoutFirstBlock segment) found acc
      cases hcb : checkBlocks s segment fuel0 (s.layoutFirstBlock segment) found acc with
      | none =>
        rw [hcb] at h1
        cases hlb : layoutBlocks s segment fuel0 (s.layoutFirstBlock segment) with
        | none => rfl
        | some blocks =>
          rw [hlb] at h1
          exact Option.noConfusion h1
      | some r =>
        rw [hcb] at h1
        cases hlb : layoutBlocks s segment fuel0 (s.layoutFirstBlock segment) with
        | none =>
          rw [hlb] at h1
          exact Option.noConfusion h1
        | some blocks =>
          rw [hlb] at h1
          have h2 := Option.some.inj h1
          rw [Option.some_bind, Option.some_bind, ih]
          have h3 : r.1 = (found || blocks.any fun b => !s.sizesMatch b.2) := congrArg Prod.fst h2
          have h4 := congrArg Prod.snd h2
          dsimp only at h4
          rw [h3, h4]
          cases layoutSegments fuel0 s fuel (load s.mem ((segment + 16) % W)) with
          | none => rfl
          | some rest => simp [Bool.or_assoc]

/-- C23: `check` agrees with its specification for every state and every amount of
fuel.  Over the walk of all blocks of all segments, it returns true if and only if every
block has header size equal to footer size, and the records it appends are exactly those
of the walked blocks whose header and footer sizes differ, in walk order: each record
holds the address of such a block, the address of its payload, its segment, the size in
its header and its allocated flag. -/
theorem check_refines_checkSpec (fuel : Nat) (s : HeapAllocator) :
    (check fuel s).map (fun r => (r.1, r.2.map recordFields)) = checkSpec fuel s := by
  unfold check checkSpec
  have h := checkSegments_eq_layout fuel s fuel s.headSegment false []
  cases hc : checkSegments fuel s fuel s.headSegment false [] with
  | none =>
    rw [hc] at h
    cases hl : layoutSegments fuel s fuel s.headSegment with
    | none => rfl
    | some blocks =>
      rw [hl] at h
      exact Option.noConfusion h
  | some r =>
    rw [hc] at h
    cases hl : layoutSegments fuel s fuel s.headSegment with
    | none =>
      rw [hl] at h
      exact Option.noConfusion h
    | some blocks =>
      rw [hl] at h
      have h2 := Option.some.inj h
      have h3 : r.1 = (false || blocks.any fun b => !s.sizesMatch b.2) := congrArg Prod.fst h2
      have h4 := congrArg Prod.snd h2
      dsimp only at h4
      simp only [Option.some_bind, Option.map_some', List.map_nil, List.nil_append] at h4 ⊢
      rw [h3, h4, Bool.false_or, List.all_eq_not_any_not]

/-! ## Insertion into a tree bin -/

theorem msb_lt_two (x : Nat) : util.msb x < 2 := by
  have e : wshl 1 63 = 2 ^ 63 := by decide
  unfold util.msb
  rw [e, Nat.shiftRight_eq_div_pow]
  have h : x &&& 2 ^ 63 ≤ 2 ^ 63 := Nat.and_le_right
  have h2 : (x &&& 2 ^ 63) / 2 ^ 63 ≤ 2 ^ 63 / 2 ^ 63 := Nat.div_le_div_right h
  have h3 : (2 : Nat) ^ 63 / 2 ^ 63 = 1 := by norm_num
  omega

theorem headersApart_iff (a c : Nat) : (headersApart a c = true) = (a + 48 ≤ c ∨ c + 48 ≤ a) := by
  unfold headersApart
  rw [decide_eq_true_eq]

theorem offChild_eq (m : Nat) : offChild m = 32 + 8 * m := rfl

/-- A write into one tree header leaves the words of a header apart from it. -/
theorem rd_wr_apart (s : HeapAllocator) (p off v q off2 : Nat)
    (hp : p + 48 ≤ W) (hq : q + 48 ≤ W) (ho : off + 8 ≤ 48) (ho2 : off2 + 8 ≤ 48)
    (h : p + 48 ≤ q ∨ q + 48 ≤ p) : (s.wr p off v).rd q off2 = s.rd q off2 := by
  apply rd_wr_ne
  · omega
  · omega
  · omega

/-- A write of one word of a header leaves its other words. -/
theorem rd_wr_field (s : HeapAllocator) (p off v off2 : Nat)
    (hp : p + 48 ≤ W) (ho : off + 8 ≤ 48) (ho2 : off2 + 8 ≤ 48)
    (h : off + 8 ≤ off2 ∨ off2 + 8 ≤ off) : (s.wr p off v).rd p off2 = s.rd p off2 := by
  apply rd_wr_ne
  · omega
  · omega
  · omega

/-- A write to `prev` of a header that is the header read or lies apart from it leaves
the child links read. -/
theorem rd_child_wr_prev (s : HeapAllocator) (n v q m : Nat) (hm : m < 2)
    (hn : n + 48 ≤ W) (hq : q + 48 ≤ W) (h : n = q ∨ (n + 48 ≤ q ∨ q + 48 ≤ n)) :
    (s.wr n offPrev v).rd q (offChild m) = s.rd q (offChild m) := by
  rw [offPrev_eq, offChild_eq]
  apply rd_wr_ne
  · omega
  · omega
  · omega

theorem linkLeaf_frame (s : HeapAllocator) (x iter msb q m : Nat) (hmsb : msb < 2) (hm : m < 2)
    (hx : x + 48 ≤ W) (hi : iter + 48 ≤ W) (hq : q + 48 ≤ W)
    (hxq : x + 48 ≤ q ∨ q + 48 ≤ x) (hiq : iter + 48 ≤ q ∨ q + 48 ≤ iter) :
    (linkLeaf s x iter msb).rd q (offChild m) = s.rd q (offChild m) := by
  have o1 : offChild m + 8 ≤ 48 := by rw [offChild_eq]; omega
  have o2 : offChild msb + 8 ≤ 48 := by rw [offChild_eq]; omega
  unfold linkLeaf
  dsimp only
  rw [rd_wr_apart _ x offNext _ q _ hx hq (by decide) o1 hxq,
    rd_wr_apart _ x offPrev _ q _ hx hq (by decide) o1 hxq,
    rd_wr_apart _ x (offChild 1) _ q _ hx hq (by decide) o1 hxq,
    rd_wr_apart _ x (offChild 0) _ q _ hx hq (by decide) o1 hxq,
    rd_wr_apart _ x offParent _ q _ hx hq (by decide) o1 hxq,
    rd_wr_apart _ iter (offChild msb) _ q _ hi hq o2 o1 hiq]

theorem linkLeaf_link (s : HeapAllocator) (x iter msb : Nat) (hmsb : msb < 2)
    (hx : x + 48 ≤ W) (hi : iter + 48 ≤ W) (hxi : x + 48 ≤ iter ∨ iter + 48 ≤ x) :
    (linkLeaf s x iter msb).rd iter (offChild msb) = x := by
  have o2 : offChild msb + 8 ≤ 48 := by rw [offChild_eq]; omega
  unfold linkLeaf
  dsimp only
  rw [rd_wr_apart _ x offNext _ iter _ hx hi (by decide) o2 hxi,
    rd_wr_apart _ x offPrev _ iter _ hx hi (by decide) o2 hxi,
    rd_wr_apart _ x (offChild 1) _ iter _ hx hi (by decide) o2 hxi,
    rd_wr_apart _ x (offChild 0) _ iter _ hx hi (by decide) o2 hxi,
    rd_wr_apart _ x offParent _ iter _ hx hi (by decide) o2 hxi,
    rd_wr_same]
  apply Nat.mod_eq_of_lt
  omega

theorem linkChain_next_read (s : HeapAllocator) (x child : Nat)
    (hx : x + 48 ≤ W) (hc : child + 48 ≤ W) (hxc : x + 48 ≤ child ∨ child + 48 ≤ x) :
    ((s.wr x offNext (s.rd child offNext)).wr x offPrev child).rd child offNext
      = s.rd child offNext := by
  rw [rd_wr_apart _ x offPrev _ child _ hx hc (by decide) (by decide) hxc,
    rd_wr_apart _ x offNext _ child _ hx hc (by decide) (by decide) hxc]

theorem linkChain_frame (s : HeapAllocator) (x child q m : Nat) (hm : m < 2)
    (hx : x + 48 ≤ W) (hc : child + 48 ≤ W) (hq : q + 48 ≤ W)
    (hn : s.rd child offNext + 48 ≤ W)
    (hxc : x + 48 ≤ child ∨ child + 48 ≤ x)
    (hxq : x + 48 ≤ q ∨ q + 48 ≤ x) (hcq : child + 48 ≤ q ∨ q + 48 ≤ child)
    (hnq : s.rd child offNext = q ∨ (s.rd child offNext + 48 ≤ q ∨ q + 48 ≤ s.rd child offNext)) :
    (linkChain s x child).rd q (offChild m) = s.rd q (offChild m) := by
  have o1 : offChild m + 8 ≤ 48 := by rw [offChild_eq]; omega
  have e := linkChain_next_read s x child hx hc hxc
  have main : ((((s.wr x offNext (s.rd child offNext)).wr x offPrev child).wr
      (s.rd child offNext) offPrev x).wr child offNext x).rd q (offChild m)
        = s.rd q (offChild m) := by
    rw [rd_wr_apart _ child offNext _ q _ hc hq (by decide) o1 hcq,
      rd_child_wr_prev _ _ _ q m hm hn hq hnq,
      rd_wr_apart _ x offPrev _ q _ hx hq (by decide) o1 hxq,
      rd_wr_apart _ x offNext _ q _ hx hq (by decide) o1 hxq]
  unfold linkChain
  dsimp only
  rw [e]
  split
  · rw [rd_wr_apart _ child offPrev _ q _ hc hq (by decide) o1 hcq]
    exact main
  · exact main

theorem linkChain_link (s : HeapAllocator) (x child : Nat)
    (hx : x + 48 ≤ W) (hc : child + 48 ≤ W) (hxc : x + 48 ≤ child ∨ child + 48 ≤ x) :
    (linkChain s x child).rd child offNext = x := by
  have e := linkChain_next_read s x child hx hc hxc
  have main : ((((s.wr x offNext (s.rd child offNext)).wr x offPrev child).wr
      (s.rd child offNext) offPrev x).wr child offNext x).rd child offNext = x := by
    rw [rd_wr_same]
    apply Nat.mod_eq_of_lt
    omega
  unfold linkChain
  dsimp only
  rw [e]
  split
  · rw [rd_wr_field _ child offPrev _ offNext hc (by decide) (by decide) (by decide)]
    exact main
  · exact main

theorem linkLeaf_bins (s : HeapAllocator) (x iter msb : Nat) :
    (linkLeaf s x iter msb).bins = s.bins := rfl

theorem linkLeaf_reserve (s : HeapAllocator) (x iter msb : Nat) :
    (linkLeaf s x iter msb).reserve = s.reserve := rfl

theorem linkChain_bins (s : HeapAllocator) (x child : Nat) :
    (linkChain s x child).bins = s.bins := by
  unfold linkChain
  dsimp only
  split
  · simp only [wr_bins]
  · simp only [wr_bins]

theorem linkChain_reserve (s : HeapAllocator) (x child : Nat) :
    (linkChain s x child).reserve = s.reserve := by
  unfold linkChain
  dsimp only
  split
  · simp only [wr_reserve]
  · simp only [wr_reserve]

/-- The loop of `_linkTreeBlock` ends when the read-only descent does, it leaves the bins
and the reserve, and it leaves the child links of every header it does not touch. -/
theorem linkTreeBlockLoop_frame (s : HeapAllocator) (x bs : Nat) (hx : x + 48 ≤ W) :
    ∀ fuel iter bits path, treeDescent s bs fuel iter bits = some path →
      (∀ p ∈ path, x + 48 ≤ p.1 ∨ p.1 + 48 ≤ x) →
      ∃ s2, linkTreeBlockLoop s x bs fuel iter bits = some s2 ∧ s2.bins = s.bins ∧
        s2.reserve = s.reserve ∧
        ∀ q m, m < 2 → Untouched s x path q → s2.rd q (offChild m) = s.rd q (offChild m) := by
  intro fuel
  induction fuel with
  | zero =>
    intro iter bits path h
    rw [treeDescent] at h
    exact Option.noConfusion h
  | succ fuel ih =>
    intro iter bits path h hxp
    rw [treeDescent] at h
    rw [linkTreeBlockLoop]
    dsimp only
    by_cases h1 : s.rd iter (offChild (util.msb bits)) = 0
    · rw [if_pos h1] at h
      rw [if_pos h1]
      have hp := (Option.some.inj h).symm
      refine ⟨linkLeaf s x iter (util.msb bits), rfl, rfl, rfl, ?_⟩
      intro q m hm hu
      obtain ⟨hq, hxq, hpq, _⟩ := hu
      have hi := hpq (iter, util.msb bits) (by rw [hp]; exact List.mem_singleton.mpr rfl)
      exact linkLeaf_frame s x iter _ q m (msb_lt_two bits) hm hx hi.1 hq hxq hi.2
    · rw [if_neg h1] at h
      rw [if_neg h1]
      by_cases h2 : s.getBlockSize (s.rd iter (offChild (util.msb bits))) = bs
      · rw [if_pos h2] at h
        rw [if_pos h2]
        have hp := (Option.some.inj h).symm
        refine ⟨linkChain s x (s.rd iter (offChild (util.msb bits))), rfl,
          linkChain_bins _ _ _, linkChain_reserve _ _ _, ?_⟩
        intro q m hm hu
        obtain ⟨hq, hxq, hpq, hnq⟩ := hu
        have hmem : (s.rd iter (offChild (util.msb bits)), 2) ∈ path := by
          rw [hp]
          exact List.mem_cons_of_mem _ (List.mem_singleton.mpr rfl)
        have hc := hpq _ hmem
        have hn := hnq _ hmem (show ¬ (2 : Nat) < 2 by decide)
        exact linkChain_frame s x _ q m hm hx hc.1 hq hn.1 (hxp _ hmem) hxq hc.2 hn.2
      · rw [if_neg h2] at h
        rw [if_neg h2]
        cases hd : treeDescent s bs fuel (s.rd iter (offChild (util.msb bits))) (wshl bits 1) with
        | none =>
          rw [hd] at h
          exact Option.noConfusion h
        | some rest =>
          rw [hd] at h
          have hp : path = (iter, util.msb bits) :: rest := (Option.some.inj h).symm
          have hxr : ∀ p ∈ rest, x + 48 ≤ p.1 ∨ p.1 + 48 ≤ x := fun p hpm =>
            hxp p (by rw [hp]; exact List.mem_cons_of_mem _ hpm)
          obtain ⟨s2, e, hb, hr, hf⟩ := ih _ _ rest hd hxr
          refine ⟨s2, e, hb, hr, ?_⟩
          intro q m hm hu
          obtain ⟨hq, hxq, hpq, hnq⟩ := hu
          exact hf q m hm ⟨hq, hxq,
            fun p hpm => hpq p (by rw [hp]; exact List.mem_cons_of_mem _ hpm),
            fun p hpm => hnq p (by rw [hp]; exact List.mem_cons_of_mem _ hpm)⟩

/-- What `pathClear` says, as propositions. -/
theorem pathClear_iff (s : HeapAllocator) (x : Nat) (path : List (Nat × Nat)) :
    pathClear s x path = true ↔
      (∀ p ∈ path, x + 48 ≤ W ∧ p.1 + 48 ≤ W ∧ (x + 48 ≤ p.1 ∨ p.1 + 48 ≤ x)) ∧
      allApart (path.map Prod.fst) = true ∧
      (∀ q ∈ path, ¬ q.2 < 2 → s.rd q.1 offNext + 48 ≤ W ∧
        ∀ p ∈ path, s.rd q.1 offNext = p.1 ∨
          (s.rd q.1 offNext + 48 ≤ p.1 ∨ p.1 + 48 ≤ s.rd q.1 offNext)) := by
  unfold pathClear
  simp only [Bool.and_eq_true, List.all_eq_true, decide_eq_true_eq, Bool.or_eq_true,
    headersApart_iff]
  constructor
  · rintro ⟨⟨h1, h2⟩, h3⟩
    refine ⟨fun p hp => ⟨(h1 p hp).1.1, (h1 p hp).1.2, (h1 p hp).2⟩, h2, ?_⟩
    intro q hq hk
    rcases h3 q hq with h | h
    · exact absurd h hk
    · exact h
  · rintro ⟨h1, h2, h3⟩
    refine ⟨⟨fun p hp => ⟨⟨(h1 p hp).1, (h1 p hp).2.1⟩, (h1 p hp).2.2⟩, h2⟩, ?_⟩
    intro q hq
    by_cases hk : q.2 < 2
    · exact Or.inl hk
    · exact Or.inr (h3 q hq hk)

theorem allApart_cons (a : Nat) (rest : List Nat) :
    allApart (a :: rest) = true ↔
      (∀ c ∈ rest, a + 48 ≤ c ∨ c + 48 ≤ a) ∧ allApart rest = true := by
  rw [allApart]
  simp only [Bool.and_eq_true, List.all_eq_true, headersApart_iff]

/-- The loop of `_linkTreeBlock` links the block below the node it starts at: the links
of the visited nodes lead from that node to the block in the state the loop returns. -/
theorem linkTreeBlockLoop_links (s : HeapAllocator) (x bs : Nat) :
    ∀ fuel iter bits path, treeDescent s bs fuel iter bits = some path →
      pathClear s x path = true →
      ∃ s2, linkTreeBlockLoop s x bs fuel iter bits = some s2 ∧ s2.bins = s.bins ∧
        s2.reserve = s.reserve ∧ followLinks s2 iter (path.map Prod.snd) = x := by
  intro fuel
  induction fuel with
  | zero =>
    intro iter bits path h
    rw [treeDescent] at h
    exact Option.noConfusion h
  | succ fuel ih =>
    intro iter bits path h hclear
    have hc := (pathClear_iff s x path).mp hclear
    rw [treeDescent] at h
    rw [linkTreeBlockLoop]
    dsimp only
    by_cases h1 : s.rd iter (offChild (util.msb bits)) = 0
    · rw [if_pos h1] at h
      rw [if_pos h1]
      have hp : path = [(iter, util.msb bits)] := (Option.some.inj h).symm
      have hi := hc.1 (iter, util.msb bits) (by rw [hp]; exact List.mem_singleton.mpr rfl)
      refine ⟨linkLeaf s x iter (util.msb bits), rfl, rfl, rfl, ?_⟩
      rw [hp]
      show followLinks _ iter [util.msb bits] = x
      rw [followLinks, if_pos (msb_lt_two bits), followLinks]
      exact linkLeaf_link s x iter _ (msb_lt_two bits) hi.1 hi.2.1 hi.2.2
    · rw [if_neg h1] at h
      rw [if_neg h1]
      by_cases h2 : s.getBlockSize (s.rd iter (offChild (util.msb bits))) = bs
      · rw [if_pos h2] at h
        rw [if_pos h2]
        have hp : path = [(iter, util.msb bits), (s.rd iter (offChild (util.msb bits)), 2)] :=
          (Option.some.inj h).symm
        have hmi : (iter, util.msb bits) ∈ path := by
          rw [hp]
          exact List.mem_cons_self _ _
        have hmc : (s.rd iter (offChild (util.msb bits)), 2) ∈ path := by
          rw [hp]
          exact List.mem_cons_of_mem _ (List.mem_singleton.mpr rfl)
        have hi := hc.1 _ hmi
        have hch := hc.1 _ hmc
        have hn := hc.2.2 _ hmc (show ¬ (2 : Nat) < 2 by decide)
        have hap : allApart (path.map Prod.fst) = true := hc.2.1
        rw [hp] at hap
        have hic := ((allApart_cons _ _).mp hap).1 (s.rd iter (offChild (util.msb bits)))
          (List.mem_singleton.mpr rfl)
        refine ⟨linkChain s x (s.rd iter (offChild (util.msb bits))), rfl,
          linkChain_bins _ _ _, linkChain_reserve _ _ _, ?_⟩
        rw [hp]
        show followLinks _ iter [util.msb bits, 2] = x
        rw [followLinks, if_pos (msb_lt_two bits), followLinks, if_neg (by decide), followLinks,
          linkChain_frame s x _ iter _ (msb_lt_two bits) hi.1 hch.2.1 hi.2.1 hn.1 hch.2.2 hi.2.2
            (by omega) (hn.2 _ hmi)]
        exact linkChain_link s x _ hi.1 hch.2.1 hch.2.2
      · rw [if_neg h2] at h
        rw [if_neg h2]
        cases hd : treeDescent s bs fuel (s.rd iter (offChild (util.msb bits))) (wshl bits 1) with
        | none =>
          rw [hd] at h
          exact Option.noConfusion h
        | some rest =>
          rw [hd] at h
          have hp : path = (iter, util.msb bits) :: rest := (Option.some.inj h).symm
          have hsub : ∀ p ∈ rest, p ∈ path := fun p hpm => by
            rw [hp]
            exact List.mem_cons_of_mem _ hpm
          have hmi : (iter, util.msb bits) ∈ path := by
            rw [hp]
            exact List.mem_cons_self _ _
          have hap : allApart (path.map Prod.fst) = true := hc.2.1
          rw [hp, List.map_cons] at hap
          have hap2 := (allApart_cons _ _).mp hap
          have hrest : pathClear s x rest = true := by
            rw [pathClear_iff]
            exact ⟨fun p hpm => hc.1 p (hsub p hpm), hap2.2,
              fun q hq hk => ⟨(hc.2.2 q (hsub q hq) hk).1,
                fun p hpm => (hc.2.2 q (hsub q hq) hk).2 p (hsub p hpm)⟩⟩
          have hi := hc.1 _ hmi
          have hxr : ∀ p ∈ rest, x + 48 ≤ p.1 ∨ p.1 + 48 ≤ x := fun p hpm =>
            (hc.1 p (hsub p hpm)).2.2
          obtain ⟨s2, e, hb, hr, hf⟩ := linkTreeBlockLoop_frame s x bs hi.1 fuel _ _ rest hd hxr
          obtain ⟨s3, e3, _, _, hl⟩ := ih _ _ rest hd hrest
          rw [e] at e3
          have e4 : s2 = s3 := Option.some.inj e3
          refine ⟨s2, e, hb, hr, ?_⟩
          rw [hp]
          show followLinks s2 iter (util.msb bits :: rest.map Prod.snd) = x
          rw [followLinks, if_pos (msb_lt_two bits)]
          have hu : Untouched s x rest iter := by
            refine ⟨hi.2.1, hi.2.2, ?_, ?_⟩
            · intro p hpm
              have ha := hap2.1 p.1 (List.mem_map_of_mem Prod.fst hpm)
              exact ⟨(hc.1 p (hsub p hpm)).2.1, by omega⟩
            · intro p hpm hk
              exact ⟨(hc.2.2 p (hsub p hpm) hk).1, (hc.2.2 p (hsub p hpm) hk).2 _ hmi⟩
          rw [hf iter _ (msb_lt_two bits) hu, e4]
          exact hl

theorem followLinks_congr_mem (t t2 : HeapAllocator) (h : t2.mem = t.mem) :
    ∀ links node, followLinks t2 node links = followLinks t node links := by
  intro links
  induction links with
  | nil => intro node; rfl
  | cons k links ih =>
    intro node
    rw [followLinks, followLinks, rd_congr_mem t t2 node _ h, rd_congr_mem t t2 node _ h, ih]

/-- The function `_linkTreeBlock` links the block in the tree bin: it returns, it leaves
the reserve, and the links of the visited nodes lead from the root of the bin to the
block. -/
theorem linkTreeBlock_links (fuel : Nat) (s : HeapAllocator) (x i : Nat)
    (path : List (Nat × Nat)) (hpath : insertPath fuel s x i = some path)
    (hclear : pathClear s x path = true) :
    ∃ s2, linkTreeBlock fuel s x i = some s2 ∧ s2.reserve = s.reserve ∧
      followLinks s2 (s2.bins i) (path.map Prod.snd) = x := by
  unfold insertPath at hpath
  unfold linkTreeBlock
  dsimp only
  by_cases h0 : s.bins i = 0
  · rw [if_pos h0] at hpath
    rw [if_pos h0]
    have hp : path = [] := (Option.some.inj hpath).symm
    refine ⟨_, rfl, rfl, ?_⟩
    rw [hp]
    show followLinks _ (if i = i then x else _) [] = x
    rw [if_pos rfl, followLinks]
  · rw [if_neg h0] at hpath
    rw [if_neg h0]
    obtain ⟨s2, e, hb, hr, hl⟩ := linkTreeBlockLoop_links s x _ fuel _ _ path hpath hclear
    refine ⟨s2, e, hr, ?_⟩
    rw [hb]
    exact hl

theorem linkBlock_eq_coalesced (fuel : Nat) (s : HeapAllocator) (block : Nat) :
    linkBlock fuel s block = (coalesced fuel s block).bind fun r =>
      linkBlockPlace fuel (isSmallAlloc (s.getBlockSize block)) r.2 r.1 (r.2.getBlockSize r.1) := by
  unfold linkBlock coalesced
  dsimp only
  split
  · rfl
  · rfl

theorem coalesced_small (fuel : Nat) (s : HeapAllocator) (block : Nat)
    (h : s.getBlockSize block ≤ 255) : coalesced fuel s block = some (block, s) := by
  have hs : isSmallAlloc (s.getBlockSize block) = true := by
    rw [isSmallAlloc_eq_true]
    exact h
  unfold coalesced
  rw [hs, if_neg (by simp)]

theorem getBinIndex_tree (n : Nat) (hn : 255 < n) : NumSmallBins ≤ getBinIndex n := by
  have h := getBinIndex_mono 256 n (by omega)
  have e : getBinIndex 256 = 32 := by decide
  rw [e] at h
  exact h

theorem some_getD_of_isSome {α : Type} (o : Option α) (d : α) (h : o.isSome = true) :
    o = some (o.getD d) := by
  cases o with
  | none => exact Bool.noConfusion h
  | some a => rfl

/-- C17: the four cases of `_linkBlock`.  Let `b` in state `s1` be the block
`_linkBlock` places for `block` in state `s`: the result of `_coalesceAdjacentBlocks`
when block merging is enabled and `block` is not small, `block` in `s` itself otherwise.
Coalescing is taken not to turn a block that is not small into a small one, and the
reserve, if there is one, to be larger than `MaxSmallBinSize` (the allocator never keeps
a small block as reserve).  Then `_linkBlock` returns `b`, and:
if `b` is small it is the head of small bin `size / 8` in the state `_linkSmallBlock`
gives, and the reserve is unchanged;
otherwise, if there is no reserve, `b` becomes the reserve and nothing else changes;
otherwise, if `b` is strictly larger than the reserve, `b` becomes the reserve and the
old reserve is linked in its tree bin;
otherwise `b` is linked in its tree bin and the reserve is unchanged.
A block is linked in its tree bin when the links `_linkTreeBlock` followed (child 0,
child 1, or `next` behind a node of the same size) lead from the root of the bin to the
block in the returned state; for this the headers the insertion visits must not overlap
the inserted block or each other (`pathClear`), and the fuel must cover the descent
(`insertPath` returns a path). -/
theorem linkBlock_cases (fuel : Nat) (s : HeapAllocator) (block b : Nat) (s1 : HeapAllocator)
    (hco : coalesced fuel s block = some (b, s1))
    (hbig : MaxSmallBinSize < s.getBlockSize block → MaxSmallBinSize < s1.getBlockSize b)
    (hres : s1.reserve ≠ 0 → MaxSmallBinSize < s1.getBlockSize s1.reserve) :
    (s1.getBlockSize b ≤ MaxSmallBinSize →
      linkBlock fuel s block = some (b, s1.linkSmallBlock b (s1.getBlockSize b / 8)) ∧
      (s1.linkSmallBlock b (s1.getBlockSize b / 8)).bins (s1.getBlockSize b / 8) = b ∧
      (s1.linkSmallBlock b (s1.getBlockSize b / 8)).reserve = s1.reserve) ∧
    (MaxSmallBinSize < s1.getBlockSize b → s1.reserve = 0 →
      linkBlock fuel s block = some (b, { s1 with reserve := b })) ∧
    (MaxSmallBinSize < s1.getBlockSize b → s1.reserve ≠ 0 →
      s1.getBlockSize s1.reserve < s1.getBlockSize b →
      ∀ path,
        insertPath fuel s1.unlinkReserveBlock.2 s1.reserve
          (getBinIndex (s1.getBlockSize s1.reserve)) = some path →
        pathClear s1.unlinkReserveBlock.2 s1.reserve path = true →
        ∃ s2, linkBlock fuel s block = some (b, s2) ∧ s2.reserve = b ∧
          NumSmallBins ≤ getBinIndex (s1.getBlockSize s1.reserve) ∧
          followLinks s2 (s2.bins (getBinIndex (s1.getBlockSize s1.reserve)))
            (path.map Prod.snd) = s1.reserve) ∧
    (MaxSmallBinSize < s1.getBlockSize b → s1.reserve ≠ 0 →
      s1.getBlockSize b ≤ s1.getBlockSize s1.reserve →
      ∀ path,
        insertPath fuel s1 b (getBinIndex (s1.getBlockSize b)) = some path →
        pathClear s1 b path = true →
        ∃ s2, linkBlock fuel s block = some (b, s2) ∧ s2.reserve = s1.reserve ∧
          NumSmallBins ≤ getBinIndex (s1.getBlockSize b) ∧
          followLinks s2 (s2.bins (getBinIndex (s1.getBlockSize b))) (path.map Prod.snd) = b) := by
  rw [MaxSmallBinSize_eq] at *
  have hlb := linkBlock_eq_coalesced fuel s block
  rw [hco, Option.some_bind] at hlb
  dsimp only at hlb
  have hplace : 255 < s1.getBlockSize b →
      linkBlock fuel s block = linkBlockPlace fuel false s1 b (s1.getBlockSize b) := by
    intro hb
    have hs : isSmallAlloc (s.getBlockSize block) = false := by
      cases h : isSmallAlloc (s.getBlockSize block)
      · rfl
      · rw [isSmallAlloc_eq_true] at h
        have h2 := coalesced_small fuel s block h
        rw [hco] at h2
        have h3 := Option.some.inj h2
        have h4 : b = block := congrArg Prod.fst h3
        have h5 : s1 = s := congrArg Prod.snd h3
        rw [h4, h5] at hb
        omega
    rw [hlb, hs]
  refine ⟨fun hsm => ?_, fun hb h0 => ?_, fun hb h0 hlt path hpath hclear => ?_,
    fun hb h0 hle path hpath hclear => ?_⟩
  · have hsm0 : s.getBlockSize block ≤ 255 := by
      by_cases h : s.getBlockSize block ≤ 255
      · exact h
      · have := hbig (by omega)
        omega
    have h2 := coalesced_small fuel s block hsm0
    rw [hco] at h2
    have h3 := Option.some.inj h2
    have h4 : b = block := congrArg Prod.fst h3
    have h5 : s1 = s := congrArg Prod.snd h3
    refine ⟨?_, linkSmallBlock_bins _ _ _, linkSmallBlock_reserve _ _ _⟩
    rw [h4, h5]
    rw [h5] at hres
    exact linkBlock_small fuel s block hsm0 hres
  · rw [hplace hb]
    unfold linkBlockPlace
    rw [if_pos ⟨h0, rfl⟩]
  · have hrs := hres h0
    have hsz : s1.unlinkReserveBlock.2.getBlockSize s1.reserve = s1.getBlockSize s1.reserve :=
      getBlockSize_unlinkReserveBlock s1
    have hpath2 : insertPath fuel s1.unlinkReserveBlock.2 s1.reserve
        (getBinIndex (s1.unlinkReserveBlock.2.getBlockSize s1.reserve)) = some path := by
      rw [hsz]
      exact hpath
    obtain ⟨s2, e, hr, hl⟩ := linkTreeBlock_links fuel _ _ _ path hpath2 hclear
    refine ⟨{ s2 with reserve := b }, ?_, rfl, getBinIndex_tree _ hrs, ?_⟩
    · rw [hplace hb]
      unfold linkBlockPlace
      rw [if_neg (fun h => h0 h.1), if_pos ⟨h0, hlt⟩]
      dsimp only
      have e1 : s1.unlinkReserveBlock.1 = s1.reserve := rfl
      rw [e1, linkBlockToBins_tree fuel _ _ (by rw [hsz]; exact hrs), e, Option.some_bind]
    · rw [hsz] at hl
      rw [followLinks_congr_mem s2 { s2 with reserve := b } rfl]
      exact hl
  · obtain ⟨s2, e, hr, hl⟩ := linkTreeBlock_links fuel s1 b _ path hpath hclear
    refine ⟨s2, ?_, hr, getBinIndex_tree _ hb, hl⟩
    rw [hplace hb]
    unfold linkBlockPlace
    rw [if_neg (fun h => h0 h.1), if_neg (fun h => by have := h.2; omega),
      linkBlockToBins_tree fuel _ _ hb, e, Option.some_bind]

set_option maxRecDepth 1000000 in
theorem linkBlock_cases_witness :
    (∃ s2, linkBlock 50 treeBinState 4295035844 = some (4295035844, s2) ∧
      s2.reserve = 4294967336 ∧ followLinks s2 (s2.bins 32) [1, 0] = 4295035844) ∧
    (∃ s2, linkBlock 50 largeReleaseState 4294977832 = some (4294977832, s2) ∧
      s2.reserve = 4294977832 ∧ followLinks s2 (s2.bins 42) [1] = 4294967336) := by
  constructor
  · have hs : (coalesced 50 treeBinState 4295035844).isSome = true := by decide!
    have hb : ((coalesced 50 treeBinState 4295035844).getD (0, treeBinState)).1 = 4295035844 := by
      decide!
    have hco : coalesced 50 treeBinState 4295035844
        = some (4295035844, ((coalesced 50 treeBinState 4295035844).getD (0, treeBinState)).2) :=
      (some_getD_of_isSome _ (0, treeBinState) hs).trans (congrArg some (Prod.ext hb rfl))
    obtain ⟨s2, h1, h2, _, h4⟩ :=
      (linkBlock_cases 50 treeBinState 4295035844 4295035844 _ hco (fun _ => by decide!)
        (fun _ => by decide!)).2.2.2 (by decide!) (by decide!) (by decide!)
        [(4295036580, 1), (4295036220, 0)] (by decide!) (by decide!)
    have e : getBinIndex (((coalesced 50 treeBinState 4295035844).getD
        (0, treeBinState)).2.getBlockSize 4295035844) = 32 := by decide!
    rw [e] at h4
    exact ⟨s2, h1, h2.trans (by decide!), h4⟩
  · have hs : (coalesced 50 largeReleaseState 4294977832).isSome = true := by decide!
    have hb : ((coalesced 50 largeReleaseState 4294977832).getD (0, largeReleaseState)).1
        = 4294977832 := by decide!
    have hco : coalesced 50 largeReleaseState 4294977832
        = some (4294977832,
            ((coalesced 50 largeReleaseState 4294977832).getD (0, largeReleaseState)).2) :=
      (some_getD_of_isSome _ (0, largeReleaseState) hs).trans (congrArg some (Prod.ext hb rfl))
    obtain ⟨s2, h1, h2, _, h4⟩ :=
      (linkBlock_cases 50 largeReleaseState 4294977832 4294977832 _ hco (fun _ => by decide!)
        (fun _ => by decide!)).2.2.1 (by decide!) (by decide!) (by decide!)
        [(4295027880, 1)] (by decide!) (by decide!)
    have e : getBinIndex (((coalesced 50 largeReleaseState 4294977832).getD
        (0, largeReleaseState)).2.getBlockSize (((coalesced 50 largeReleaseState 4294977832).getD
        (0, largeReleaseState)).2.reserve)) = 42 := by decide!
    have e2 : ((coalesced 50 largeReleaseState 4294977832).getD
        (0, largeReleaseState)).2.reserve = 4294967336 := by decide!
    rw [e, e2] at h4
    exact ⟨s2, h1, h2, h4⟩

end mem
